import Mathlib

/-!
# MKVParser: a shallow embedding of `MKVParser.c`

The C program decodes one EBML Cluster element out of a caller-owned byte
buffer.  The embedding below follows `MKVParser.c` function by function.

Conventions of the embedding (LP64 target):

* the caller's buffer is a `List Nat`; a byte load `*p` reads the list at the
  offset `p` (0 outside the list) and truncates to `uint8_t` (`% 256`);
* pointers (`pos`, `org`, `data`) are offsets from the start of that buffer,
  and pointer arithmetic is arithmetic modulo `2 ^ 64`, like `size_t`;
* `size_t` and `uint64_t` are naturals reduced modulo `2 ^ 64`, `unsigned int`
  is reduced modulo `2 ^ 32`, `int` is `Int`;
* a function taking `EBMLData *data` returns the cursor it leaves behind,
  whether it returns `EBML_OK` or `EBML_ERROR`;
* a failed `assert` ends the process: it is the outcome `ABORT` (the file
  includes `<assert.h>` and does not define `NDEBUG`);
* the diagnostics that `EBML_INTERNAL_SAFE` and `mkvClusterParse` print to
  `stderr` are not part of the state and are left out.
-/

namespace MKVParser

/-! ## Data model (`MKVParser.h`) -/

/-- The enum `EBMLStatus`. -/
inductive EBMLStatus
  | EBML_ERROR
  | EBML_OK
  deriving DecidableEq, Repr

/-- The struct `EBMLData`: a cursor over the buffer. -/
structure EBMLData where
  pos : Nat
  org : Nat
  len : Nat
  left : Nat
  deriving DecidableEq, Repr

/-- The struct `MKVSimpleBlock`; `data` is the offset of the borrowed payload. -/
structure MKVSimpleBlock where
  track : Nat
  timecode : Nat
  flags : Nat
  size : Nat
  data : Nat
  deriving DecidableEq, Repr

/-- The struct `MKVCluster`.  The flexible array member `blocks[]` is the list
`blocks`, which `mkvClusterInit` creates with `allocated_blocks` slots.  The
pointer member `ebml` is neither read nor written by any function of the
program and is left out. -/
structure MKVCluster where
  timecode : Nat
  allocated_blocks : Nat
  n_blocks : Nat
  blocks : List MKVSimpleBlock
  deriving DecidableEq, Repr

/-- The typedef `EBMLTag` (`uint64_t`). -/
abbrev EBMLTag := Nat

/-- Result of a cursor-level function with one out-parameter: `OK` carries the
cursor after the call and the value stored through the out-pointer, `ERROR`
carries the cursor after the call (the out-parameter is not written). -/
inductive Ret (α : Type)
  | OK (data : EBMLData) (val : α)
  | ERROR (data : EBMLData)
  deriving DecidableEq, Repr

/-- Result of a function working on a cluster and a cursor: the status with
both objects as the call leaves them, or `ABORT` when an `assert` failed. -/
inductive Run
  | OK (cluster : MKVCluster) (data : EBMLData)
  | ERROR (cluster : MKVCluster) (data : EBMLData)
  | ABORT
  deriving DecidableEq, Repr

/-- Status returned by a cursor-level function. -/
def Ret.status {α : Type} : Ret α → EBMLStatus
  | .OK _ _ => .EBML_OK
  | .ERROR _ => .EBML_ERROR

/-- Cursor left behind by a cursor-level function. -/
def Ret.data {α : Type} : Ret α → EBMLData
  | .OK d _ => d
  | .ERROR d => d

/-- Status returned by a cluster-level function, `none` when it aborted. -/
def Run.status : Run → Option EBMLStatus
  | .OK _ _ => some .EBML_OK
  | .ERROR _ _ => some .EBML_ERROR
  | .ABORT => none

/-- Cluster left behind by a cluster-level function, `none` when it aborted. -/
def Run.cluster : Run → Option MKVCluster
  | .OK c _ => some c
  | .ERROR c _ => some c
  | .ABORT => none

/-- Cursor left behind by a cluster-level function, `none` when it aborted. -/
def Run.data : Run → Option EBMLData
  | .OK _ d => some d
  | .ERROR _ d => some d
  | .ABORT => none

/-! ## Machine arithmetic -/

/-- Subtraction of `size_t` / `uint64_t` / pointer values: `a - b` modulo `2 ^ 64`. -/
def sub64 (a b : Nat) : Nat := (a % 2 ^ 64 + (2 ^ 64 - b % 2 ^ 64)) % 2 ^ 64

/-- Addition of `size_t` / pointer values: `a + b` modulo `2 ^ 64`. -/
def add64 (a b : Nat) : Nat := (a + b) % 2 ^ 64

/-- Conversion of an `int` to `size_t`. -/
def intToSize (n : Int) : Nat := (n % 2 ^ 64).toNat

/-! ## Cursor (`MKVParser.c`, lines 33-62) -/

/-- Function `ebmlRead8`: the unchecked byte read; returns the byte and the advanced cursor. -/
def ebmlRead8 (buf : List Nat) (data : EBMLData) : Nat × EBMLData :=
  (buf.getD data.pos 0 % 256,
   { data with pos := add64 data.pos 1, left := sub64 data.left 1 })

/-- Function `ebmlCheckLength`: `data->left >= len`. -/
def ebmlCheckLength (data : EBMLData) (len : Nat) : Bool :=
  decide (data.left ≥ len)

/-- Function `ebmlEmpty`: `data->left == 0`. -/
def ebmlEmpty (data : EBMLData) : Bool :=
  decide (data.left = 0)

/-- Function `ebmlInit`: a cursor over `len` bytes starting at the pointer `data`. -/
def ebmlInit (data : Nat) (len : Nat) : EBMLData :=
  { pos := data, org := data, len := len, left := len }

/-! ## VINT decoder (`MKVParser.c`, lines 64-134) -/

/-- The test of the `for` loop of `ebmlReadIntLen`:
`(d & (v0 << i)) == (v1 << i)` with `v0 = 0xFF`, `v1 = 0x01`. -/
def ebmlReadIntLenTest (d i : Nat) : Bool :=
  (d &&& (0xFF <<< i)) == (0x01 <<< i)

/-- The part of `ebmlReadIntLen` after the byte `d` is loaded: `d == 1` gives
8, otherwise the `for` loop over `i = 1 .. 7` returns `8 - i` at the first `i`
that passes the test; `none` is the final `return EBML_ERROR`. -/
def ebmlReadIntLenScan (d : Nat) : Option Int :=
  if d = 1 then some 8
  else
    match (List.range' 1 7).find? (ebmlReadIntLenTest d) with
    | some i => some (8 - (i : Int))
    | none => none

/-- Function `ebmlReadIntLen`: octet count announced by the next byte, which is not
consumed. -/
def ebmlReadIntLen (buf : List Nat) (data : EBMLData) : Ret Int :=
  if !ebmlCheckLength data 1 then .ERROR data
  else
    match ebmlReadIntLenScan (buf.getD data.pos 0 % 256) with
    | some len => .OK data len
    | none => .ERROR data

/-- The body shared by the byte loops of `ebmlUnserialize` and
`ebmlUnserailizeUnsignedInt`, run `n` times: `ret <<= 8; ret |= ebmlRead8(data)`. -/
def ebmlReadBytes (buf : List Nat) : Nat → EBMLData → Nat → EBMLData × Nat
  | 0, data, ret => (data, ret)
  | n + 1, data, ret =>
    let r := ebmlRead8 buf data
    ebmlReadBytes buf n r.2 (((ret <<< 8) % 2 ^ 64) ||| r.1)

/-- Function `ebmlUnserialize`: `len` raw bytes, big-endian.  The loop
`for (i = 0; i < len; i++)` runs `len.toNat` times. -/
def ebmlUnserialize (buf : List Nat) (data : EBMLData) (len : Int) : Ret Nat :=
  if !ebmlCheckLength data (intToSize len) then .ERROR data
  else
    let r := ebmlReadBytes buf len.toNat data 0
    .OK r.1 r.2

/-- Function `ebmlReadTag` of `MKVParser.c`. -/
def ebmlReadTag (buf : List Nat) (data : EBMLData) : Ret EBMLTag :=
  match ebmlReadIntLen buf data with
  | .ERROR d => .ERROR d
  | .OK d len => ebmlUnserialize buf d len

/-- Function `ebmlUnserailizeUnsignedInt`: a size VINT.  The loop
`for (i = 1; i < len; i++)` runs `(len - 1).toNat` times. -/
def ebmlUnserailizeUnsignedInt (buf : List Nat) (data : EBMLData) : Ret Nat :=
  match ebmlReadIntLen buf data with
  | .ERROR d => .ERROR d
  | .OK d len =>
    if !ebmlCheckLength d (intToSize len) then .ERROR d
    else
      let r := ebmlRead8 buf d
      let ret := if len ≠ 8 then r.1 &&& (0xFF >>> len.toNat) else 0
      let s := ebmlReadBytes buf (len - 1).toNat r.2 ret
      .OK s.1 s.2

/-! ## Element reader (`MKVParser.c`, lines 136-149) -/

/-- Function `ebmlReadSubElement`: the out-parameters are the tag and the sub-cursor. -/
def ebmlReadSubElement (buf : List Nat) (data : EBMLData) : Ret (EBMLTag × EBMLData) :=
  match ebmlReadTag buf data with
  | .ERROR d => .ERROR d
  | .OK d tag =>
    match ebmlUnserailizeUnsignedInt buf d with
    | .ERROR d => .ERROR d
    | .OK d elementLength =>
      if !ebmlCheckLength d elementLength then .ERROR d
      else
        .OK { d with pos := add64 d.pos elementLength, left := sub64 d.left elementLength }
          (tag, ebmlInit d.pos elementLength)

/-! ## Cluster handlers (`MKVParser.c`, lines 153-244) -/

/-- Function `mkvClusterHandleTimecode` of `MKVParser.c`. -/
def mkvClusterHandleTimecode (buf : List Nat) (cluster : MKVCluster) (data : EBMLData) : Run :=
  match ebmlUnserailizeUnsignedInt buf data with
  | .ERROR d => .ERROR cluster d
  | .OK d size =>
    if ¬ (size > 0 ∧ size ≤ 8) then .ABORT
    else
      match ebmlUnserialize buf d (size : Int) with
      | .ERROR d => .ERROR cluster d
      | .OK d timecode => .OK { cluster with timecode := timecode } d

/-- Function `mkvClusterHandleSimpleBlock` of `MKVParser.c`. -/
def mkvClusterHandleSimpleBlock (buf : List Nat) (cluster : MKVCluster) (data : EBMLData) : Run :=
  let i := cluster.n_blocks
  if i ≥ cluster.allocated_blocks then .ERROR cluster data
  else
    match ebmlUnserailizeUnsignedInt buf data with
    | .ERROR d => .ERROR cluster d
    | .OK d elementLength =>
      if !ebmlCheckLength d elementLength then .ERROR cluster d
      else
        let before_header := d.pos
        match ebmlUnserailizeUnsignedInt buf d with
        | .ERROR d => .ERROR cluster d
        | .OK d track =>
          match ebmlUnserialize buf d 2 with
          | .ERROR d => .ERROR cluster d
          | .OK d timecode =>
            match ebmlUnserialize buf d 1 with
            | .ERROR d => .ERROR cluster d
            | .OK d flags =>
              let after_header := d.pos
              let binaryLength := sub64 elementLength (sub64 after_header before_header)
              let block : MKVSimpleBlock :=
                { track := track % 2 ^ 32,
                  timecode := timecode % 2 ^ 32,
                  flags := flags % 2 ^ 32,
                  data := d.pos,
                  size := binaryLength }
              .OK { cluster with
                      blocks := cluster.blocks.set i block,
                      n_blocks := add64 cluster.n_blocks 1 }
                  { d with pos := add64 d.pos binaryLength, left := sub64 d.left binaryLength }

/-- Function `mkvClusterSkipSubElement` of `MKVParser.c`. -/
def mkvClusterSkipSubElement (buf : List Nat) (cluster : MKVCluster) (data : EBMLData) : Run :=
  match ebmlUnserailizeUnsignedInt buf data with
  | .ERROR d => .ERROR cluster d
  | .OK d elementLength =>
    if !ebmlCheckLength d elementLength then .ERROR cluster d
    else
      .OK cluster { d with pos := add64 d.pos elementLength, left := sub64 d.left elementLength }

/-- Function `mkvClusterSkipInteger` of `MKVParser.c`. -/
def mkvClusterSkipInteger (buf : List Nat) (cluster : MKVCluster) (data : EBMLData) : Run :=
  match ebmlUnserailizeUnsignedInt buf data with
  | .ERROR d => .ERROR cluster d
  | .OK d size =>
    if ¬ (size > 0 ∧ size ≤ 8) then .ABORT
    else
      match ebmlUnserialize buf d (size : Int) with
      | .ERROR d => .ERROR cluster d
      | .OK d _ => .OK cluster d

/-- Function `mkvClusterInit`, on the path where `malloc` succeeds.  `junk` is the
indeterminate content of the freshly allocated block slots. -/
def mkvClusterInit (maxSimpleBlocks : Nat) (junk : Nat → MKVSimpleBlock) : MKVCluster :=
  { allocated_blocks := maxSimpleBlocks,
    n_blocks := 0,
    timecode := 0,
    blocks := (List.range maxSimpleBlocks).map junk }

/-! ## Cluster walker (`MKVParser.c`, lines 246-298) -/

def TagCluster : EBMLTag := 0x1F43B675
def TagTimecode : EBMLTag := 0xE7
def TagSimpleBlock : EBMLTag := 0xA3
def TagSilentTracks : EBMLTag := 0x5854
def TagPosition : EBMLTag := 0xA7
def TagPrevSize : EBMLTag := 0xAB
def TagBlockGroup : EBMLTag := 0xA0

/-- The type of the `handler` member of the `actions` table. -/
abbrev Handler := List Nat → MKVCluster → EBMLData → Run

/-- The table `actions[]` of `mkvClusterParse`. -/
def actions : List (EBMLTag × Handler) :=
  [ (TagTimecode, mkvClusterHandleTimecode),
    (TagSimpleBlock, mkvClusterHandleSimpleBlock),
    (TagSilentTracks, mkvClusterSkipSubElement),
    (TagPosition, mkvClusterSkipInteger),
    (TagPrevSize, mkvClusterSkipInteger),
    (TagBlockGroup, mkvClusterSkipSubElement) ]

/-- The inner `for` loop of `mkvClusterParse` over the remaining entries of
`actions`: every entry whose tag equals `iterTag` has its handler run (there
is no `break`); a failing handler returns from the function.  The second
component is `foundHandler`. -/
def mkvClusterParseActions (buf : List Nat) (iterTag : EBMLTag) :
    List (EBMLTag × Handler) → MKVCluster → EBMLData → Nat → Run × Nat
  | [], cluster, subEl, foundHandler => (.OK cluster subEl, foundHandler)
  | (tag, handler) :: rest, cluster, subEl, foundHandler =>
    if iterTag = tag then
      match handler buf cluster subEl with
      | .OK c d => mkvClusterParseActions buf iterTag rest c d 1
      | .ERROR c d => (.ERROR c d, foundHandler)
      | .ABORT => (.ABORT, foundHandler)
    else mkvClusterParseActions buf iterTag rest cluster subEl foundHandler

/-- The `while` loop of `mkvClusterParse` on the sub-cursor `subEl`, with
`fuel` bounding the number of iterations; `none` when the bound is used up.
The returned cursor is `subEl`. -/
def mkvClusterParseLoop (buf : List Nat) : Nat → MKVCluster → EBMLData → Option Run
  | 0, _, _ => none
  | fuel + 1, cluster, subEl =>
    if ebmlEmpty subEl then some (.OK cluster subEl)
    else
      match ebmlReadTag buf subEl with
      | .ERROR d => some (.ERROR cluster d)
      | .OK d iterTag =>
        match mkvClusterParseActions buf iterTag actions cluster d 0 with
        | (.ABORT, _) => some .ABORT
        | (.ERROR c d, _) => some (.ERROR c d)
        | (.OK c d, foundHandler) =>
          if foundHandler = 0 then some (.ERROR c d)
          else mkvClusterParseLoop buf fuel c d

/-- Function `mkvClusterParse`.  The returned cursor is the caller's `data`.  The
`while` loop gets `subEl.left + 1` iterations of fuel, which it never uses up
(`mkvClusterParse_returns`). -/
def mkvClusterParse (buf : List Nat) (cluster : MKVCluster) (data : EBMLData) : Option Run :=
  match ebmlReadSubElement buf data with
  | .ERROR d => some (.ERROR cluster d)
  | .OK d (clusterTag, subEl) =>
    if clusterTag ≠ TagCluster then some (.ERROR cluster d)
    else
      match mkvClusterParseLoop buf (subEl.left + 1) cluster subEl with
      | none => none
      | some (.OK c _) => some (.OK c d)
      | some (.ERROR c _) => some (.ERROR c d)
      | some .ABORT => some .ABORT

/-! ## Encodings used to state the claims

The program only decodes.  The byte layouts that the claims quantify over are
written down here as encoders. -/

/-- The `n` low-order bytes of `v`, most significant first. -/
def encodeBE : Nat → Nat → List Nat
  | 0, _ => []
  | n + 1, v => (v / 256 ^ n % 256) :: encodeBE n v

/-- The `n`-octet EBML size VINT of `v`: the length marker is bit `8 - n` of
the first byte, that is bit `7 * n` of the `n`-byte big-endian number, and `v`
fills the `7 * n` bits below it. -/
def encodeVint (n v : Nat) : List Nat := encodeBE n (2 ^ (7 * n) + v)

/-- Big-endian value of a byte sequence. -/
def beValue (bytes : List Nat) : Nat :=
  bytes.foldl (fun acc b => acc * 256 + b % 256) 0

/-- The parameters of a SimpleBlock element: the octet count `l` of its size
VINT, the octet count `m` of its track VINT, the track number, the 16-bit
timecode, the flags byte and the payload bytes. -/
structure SimpleBlockSpec where
  l : Nat
  m : Nat
  track : Nat
  timecode : Nat
  flags : Nat
  payload : List Nat

/-- The parameters describe an element that can be encoded: the octet counts
are in 1..8, every field fits the bits reserved for it, and the track number
fits the `unsigned int` of `MKVSimpleBlock`. -/
def SimpleBlockSpec.WF (b : SimpleBlockSpec) : Prop :=
  (1 ≤ b.l ∧ b.l ≤ 8) ∧ (1 ≤ b.m ∧ b.m ≤ 8) ∧ b.track < 2 ^ (7 * b.m) ∧ b.track < 2 ^ 32 ∧
    b.timecode < 2 ^ 16 ∧ b.flags < 2 ^ 8 ∧ b.m + 3 + b.payload.length < 2 ^ (7 * b.l)

instance (b : SimpleBlockSpec) : Decidable b.WF := by
  unfold SimpleBlockSpec.WF; infer_instance

/-- The body of a SimpleBlock element: track VINT, 2-byte timecode, flags
byte, payload. -/
def SimpleBlockSpec.body (b : SimpleBlockSpec) : List Nat :=
  encodeVint b.m b.track ++ encodeBE 2 b.timecode ++ encodeBE 1 b.flags ++ b.payload

/-- A SimpleBlock element: tag `0xA3`, size VINT of the body, body. -/
def SimpleBlockSpec.element (b : SimpleBlockSpec) : List Nat :=
  [0xA3] ++ encodeVint b.l b.body.length ++ b.body

/-- The block that the element describes when it starts at offset `pos` of the
buffer: its payload starts after the tag, the size VINT and the block header. -/
def SimpleBlockSpec.block (b : SimpleBlockSpec) (pos : Nat) : MKVSimpleBlock :=
  { track := b.track, timecode := b.timecode, flags := b.flags,
    size := b.payload.length, data := pos + 1 + b.l + b.m + 3 }

/-- A Timecode element: tag `0xE7`, `l`-octet size VINT of `n`, the value `T`
in `n` bytes. -/
def timecodeElement (l n T : Nat) : List Nat :=
  [0xE7] ++ encodeVint l n ++ encodeBE n T

/-- A Cluster element: tag `0x1F43B675`, `g`-octet size VINT of the body
length, body. -/
def clusterElement (g : Nat) (body : List Nat) : List Nat :=
  [0x1F, 0x43, 0xB6, 0x75] ++ encodeVint g body.length ++ body

/-- The concatenated elements of a list of SimpleBlocks. -/
def encodeBlocks : List SimpleBlockSpec → List Nat
  | [] => []
  | b :: bs => b.element ++ encodeBlocks bs

/-- The blocks described by a list of SimpleBlock elements laid out from offset
`pos` on. -/
def blocksOf : List SimpleBlockSpec → Nat → List MKVSimpleBlock
  | [], _ => []
  | b :: bs, pos => b.block pos :: blocksOf bs (pos + b.element.length)

/-- A well-formed child element of a Cluster, by the handler that the walker
has for it.  `l` is the octet count of the size VINT.  Timecode carries the
value `T` in `n` bytes; Position and PrevSize carry 1 to 8 bytes; SilentTracks
and BlockGroup carry any body. -/
inductive Child
  | timecode (l n T : Nat)
  | simpleBlock (b : SimpleBlockSpec)
  | silentTracks (l : Nat) (body : List Nat)
  | position (l : Nat) (bytes : List Nat)
  | prevSize (l : Nat) (bytes : List Nat)
  | blockGroup (l : Nat) (body : List Nat)

/-- The child can be encoded: octet counts in 1..8 and every field within the
bits reserved for it. -/
def Child.WF : Child → Prop
  | .timecode l n T => (1 ≤ l ∧ l ≤ 8) ∧ (1 ≤ n ∧ n ≤ 8) ∧ T < 256 ^ n
  | .simpleBlock b => b.WF
  | .silentTracks l body => (1 ≤ l ∧ l ≤ 8) ∧ body.length < 2 ^ (7 * l)
  | .position l bytes => (1 ≤ l ∧ l ≤ 8) ∧ 1 ≤ bytes.length ∧ bytes.length ≤ 8
  | .prevSize l bytes => (1 ≤ l ∧ l ≤ 8) ∧ 1 ≤ bytes.length ∧ bytes.length ≤ 8
  | .blockGroup l body => (1 ≤ l ∧ l ≤ 8) ∧ body.length < 2 ^ (7 * l)

instance (ch : Child) : Decidable ch.WF := by
  cases ch <;> (unfold Child.WF; infer_instance)

/-- The bytes of the child element: tag, size VINT, body. -/
def Child.element : Child → List Nat
  | .timecode l n T => timecodeElement l n T
  | .simpleBlock b => b.element
  | .silentTracks l body => [0x58, 0x54] ++ (encodeVint l body.length ++ body)
  | .position l bytes => [0xA7] ++ (encodeVint l bytes.length ++ bytes)
  | .prevSize l bytes => [0xAB] ++ (encodeVint l bytes.length ++ bytes)
  | .blockGroup l body => [0xA0] ++ (encodeVint l body.length ++ body)

/-- The cluster after the child that starts at offset `pos` was handled: a
Timecode sets `timecode`, a SimpleBlock is appended to the block table, the
other children change nothing. -/
def Child.apply (pos : Nat) (c : MKVCluster) : Child → MKVCluster
  | .timecode _ _ T => { c with timecode := T }
  | .simpleBlock b =>
    { c with blocks := c.blocks.set c.n_blocks (b.block pos), n_blocks := c.n_blocks + 1 }
  | _ => c

/-- The blocks that the child contributes: one for a SimpleBlock, none otherwise. -/
def Child.blocks (pos : Nat) : Child → List MKVSimpleBlock
  | .simpleBlock b => [b.block pos]
  | _ => []

/-- The concatenated elements of a list of children. -/
def encodeChildren : List Child → List Nat
  | [] => []
  | ch :: cs => ch.element ++ encodeChildren cs

/-- The blocks of the SimpleBlock children of a list of children laid out from
offset `pos` on, in the order of the children. -/
def childBlocks : List Child → Nat → List MKVSimpleBlock
  | [], _ => []
  | ch :: cs, pos => ch.blocks pos ++ childBlocks cs (pos + ch.element.length)

/-- The block table of `c'` extends the one of `c`: the first `c.n_blocks`
slots are unchanged and `n_blocks` has not decreased. -/
def ClusterGrow (c c' : MKVCluster) : Prop :=
  c'.allocated_blocks = c.allocated_blocks ∧ c.n_blocks ≤ c'.n_blocks ∧
    ∀ i, i < c.n_blocks → c'.blocks[i]? = c.blocks[i]?

/-- The buffer `buf` holds the bytes `bytes` from offset `pos` on. -/
def BytesAt (buf : List Nat) (pos : Nat) (bytes : List Nat) : Prop :=
  bytes <+: buf.drop pos

instance (buf : List Nat) (pos : Nat) (bytes : List Nat) : Decidable (BytesAt buf pos bytes) := by
  unfold BytesAt; infer_instance

/-- The cursor `data` moved forward by `n` bytes. -/
def advance (data : EBMLData) (n : Nat) : EBMLData :=
  { data with pos := data.pos + n, left := data.left - n }

/-! ## Predicates used to state the invariants -/

/-- The fields `pos` and `left` of the cursor are values of their C types. -/
def EBMLData.Valid (d : EBMLData) : Prop := d.pos < 2 ^ 64 ∧ d.left < 2 ^ 64

/-- The cursor `d'` is the cursor `d` after `k` of its remaining bytes were consumed. -/
def Adv (k : Nat) (d d' : EBMLData) : Prop :=
  d'.org = d.org ∧ d'.len = d.len ∧ k ≤ d.left ∧ d'.left = d.left - k ∧
    d'.pos = (d.pos + k) % 2 ^ 64

/-- The block table of `c'` has the capacity of `c`, and it respects that
capacity if the table of `c` did. -/
def ClusterStep (c c' : MKVCluster) : Prop :=
  c'.allocated_blocks = c.allocated_blocks ∧
    (c.n_blocks ≤ c.allocated_blocks → c'.n_blocks ≤ c'.allocated_blocks)

/-- What a cluster-level function started on `c` and `d` may leave behind: on
`EBML_OK` at least `lo` bytes of the cursor were consumed. -/
def Run.Step (lo : Nat) (c : MKVCluster) (d : EBMLData) : Run → Prop
  | .OK c' d' => ClusterStep c c' ∧ ∃ k, lo ≤ k ∧ Adv k d d'
  | .ERROR c' d' => ClusterStep c c' ∧ ∃ k, Adv k d d'
  | .ABORT => True

/-- The cursor invariant of the data model: `left` is within `len` and the
position is `org + (len - left)`. -/
def CursorInv (d : EBMLData) : Prop :=
  d.left ≤ d.len ∧ d.pos = d.org + (d.len - d.left)

/-- The operations that take a cursor, with their other arguments. -/
inductive CursorOp
  | readTag
  | unserialize (len : Int)
  | unsignedInt
  | readSubElement
  | handleTimecode (cluster : MKVCluster)
  | handleSimpleBlock (cluster : MKVCluster)
  | skipSubElement (cluster : MKVCluster)
  | skipInteger (cluster : MKVCluster)
  | clusterParse (cluster : MKVCluster)

/-- The `len` argument of `ebmlUnserialize` is a value of type `int`. -/
def CursorOp.InRange : CursorOp → Prop
  | .unserialize len => -2 ^ 31 ≤ len ∧ len < 2 ^ 31
  | _ => True

/-- The cursor that the operation leaves behind; `none` when it aborted. -/
def CursorOp.apply (buf : List Nat) (d : EBMLData) : CursorOp → Option EBMLData
  | .readTag => some (ebmlReadTag buf d).data
  | .unserialize len => some (ebmlUnserialize buf d len).data
  | .unsignedInt => some (ebmlUnserailizeUnsignedInt buf d).data
  | .readSubElement => some (ebmlReadSubElement buf d).data
  | .handleTimecode c => (mkvClusterHandleTimecode buf c d).data
  | .handleSimpleBlock c => (mkvClusterHandleSimpleBlock buf c d).data
  | .skipSubElement c => (mkvClusterSkipSubElement buf c d).data
  | .skipInteger c => (mkvClusterSkipInteger buf c d).data
  | .clusterParse c => (mkvClusterParse buf c d).bind Run.data

/-- The cursor after a sequence of operations, each applied to the cursor the
previous one left behind. -/
def runOps (buf : List Nat) : List CursorOp → EBMLData → Option EBMLData
  | [], d => some d
  | op :: ops, d => (op.apply buf d).bind (runOps buf ops)

/-- The buffers `buf1` and `buf2` hold the same `n` bytes from offset `pos` on. -/
def SameBytes (buf1 buf2 : List Nat) (pos n : Nat) : Prop :=
  ∀ i, i < n → buf1.getD (pos + i) 0 = buf2.getD (pos + i) 0

instance (buf1 buf2 : List Nat) (pos n : Nat) : Decidable (SameBytes buf1 buf2 pos n) := by
  unfold SameBytes; infer_instance

/-- The bytes that remain under the cursor `d` do not wrap around the address
space and are the same in `buf1` and `buf2`. -/
def Window (buf1 buf2 : List Nat) (d : EBMLData) : Prop :=
  d.pos + d.left < 2 ^ 64 ∧ SameBytes buf1 buf2 d.pos d.left

/-- What one pass through the body of the `while` loop of `mkvClusterParse`
ends in: the loop goes on with the cluster and the sub-cursor as the pass left
them, or the function returns. -/
inductive Iter
  | next (cluster : MKVCluster) (subEl : EBMLData)
  | done (r : Run)
  deriving DecidableEq, Repr

/-- One evaluation of the loop condition and, when the sub-cursor is not empty,
one pass through the body of the `while` loop of `mkvClusterParse`. -/
def mkvClusterParseIter (buf : List Nat) (cluster : MKVCluster) (subEl : EBMLData) : Iter :=
  if ebmlEmpty subEl then .done (.OK cluster subEl)
  else
    match ebmlReadTag buf subEl with
    | .ERROR d => .done (.ERROR cluster d)
    | .OK d iterTag =>
      match mkvClusterParseActions buf iterTag actions cluster d 0 with
      | (.ABORT, _) => .done .ABORT
      | (.ERROR c d, _) => .done (.ERROR c d)
      | (.OK c d, foundHandler) =>
        if foundHandler = 0 then .done (.ERROR c d) else .next c d

/-- The cluster and the sub-cursor at the start of the `j`-th pass (counted from
0) of the `while` loop started on `cluster` and `subEl`; `none` when the
function has returned before. -/
def mkvClusterParseIters (buf : List Nat) :
    Nat → MKVCluster → EBMLData → Option (MKVCluster × EBMLData)
  | 0, cluster, subEl => some (cluster, subEl)
  | j + 1, cluster, subEl =>
    match mkvClusterParseIter buf cluster subEl with
    | .next c d => mkvClusterParseIters buf j c d
    | .done _ => none

/-- What the inner `for` loop hands to the `while` loop for the result of the
one handler it ran. -/
def afterHandler : Run → Run × Nat
  | .OK c d => (.OK c d, 1)
  | .ERROR c d => (.ERROR c d, 0)
  | .ABORT => (.ABORT, 0)

/-! ## Machine arithmetic without wrap-around -/

theorem add64_of_lt {a b : Nat} (h : a + b < 2 ^ 64) : add64 a b = a + b := by
  unfold add64; omega

theorem sub64_of_le {a b : Nat} (hb : b ≤ a) (ha : a < 2 ^ 64) : sub64 a b = a - b := by
  unfold sub64; omega

theorem intToSize_ofNat {n : Nat} (h : n < 2 ^ 64) : intToSize (n : Int) = n := by
  unfold intToSize; omega

theorem shl8_or {ret b : Nat} (hret : ret * 256 < 2 ^ 64) (hb : b < 256) :
    ((ret <<< 8) % 2 ^ 64) ||| b = ret * 256 + b := by
  have h1 : ret <<< 8 = 2 ^ 8 * ret := by rw [Nat.shiftLeft_eq]; ring
  rw [h1, Nat.mod_eq_of_lt (by omega)]
  have h2 : b < 2 ^ 8 := by omega
  rw [← Nat.mul_add_lt_is_or h2 ret]; omega

/-! ## Buffer contents -/

theorem encodeBE_length (n v : Nat) : (encodeBE n v).length = n := by
  induction n with
  | zero => rfl
  | succ n ih => simp [encodeBE, ih]

theorem encodeVint_length (n v : Nat) : (encodeVint n v).length = n :=
  encodeBE_length n _

theorem BytesAt_nil (buf : List Nat) (p : Nat) : BytesAt buf p [] := by
  simp [BytesAt]

theorem BytesAt_cons {buf : List Nat} {p x : Nat} {xs : List Nat} :
    BytesAt buf p (x :: xs) ↔ (p < buf.length ∧ buf.getD p 0 = x) ∧ BytesAt buf (p + 1) xs := by
  unfold BytesAt
  constructor
  · rintro ⟨t, ht⟩
    have hlen : p < buf.length := by
      by_contra hc
      rw [List.drop_of_length_le (by omega)] at ht
      simp at ht
    rw [List.drop_eq_getElem_cons hlen] at ht
    simp only [List.cons_append, List.cons.injEq] at ht
    refine ⟨⟨hlen, ?_⟩, ⟨t, ht.2⟩⟩
    rw [List.getD_eq_getElem _ _ hlen]; exact ht.1.symm
  · rintro ⟨⟨hlen, hx⟩, ⟨t, ht⟩⟩
    refine ⟨t, ?_⟩
    rw [List.drop_eq_getElem_cons hlen, ← ht]
    rw [List.getD_eq_getElem _ _ hlen] at hx
    simp [hx]

theorem BytesAt_append {buf : List Nat} {p : Nat} {xs ys : List Nat} :
    BytesAt buf p (xs ++ ys) ↔ BytesAt buf p xs ∧ BytesAt buf (p + xs.length) ys := by
  induction xs generalizing p with
  | nil => simp [BytesAt_nil]
  | cons x xs ih =>
    simp only [List.cons_append, BytesAt_cons, ih, List.length_cons]
    have : p + 1 + xs.length = p + (xs.length + 1) := by omega
    rw [this]; tauto

theorem BytesAt_length_le {buf : List Nat} {p : Nat} {xs : List Nat} (h : BytesAt buf p xs)
    (hx : xs ≠ []) : p + xs.length ≤ buf.length := by
  have := h.length_le
  simp at this
  have h2 : 0 < xs.length := List.length_pos.mpr hx
  omega

theorem BytesAt_self_append (pre xs post : List Nat) :
    BytesAt (pre ++ xs ++ post) pre.length xs := by
  unfold BytesAt
  simp [List.drop_append]

/-! ## Byte reads on known buffer contents -/

theorem ebmlRead8_at {buf : List Nat} {data : EBMLData} {x : Nat}
    (hx : data.pos < buf.length ∧ buf.getD data.pos 0 = x)
    (hleft : 1 ≤ data.left) (hl64 : data.left < 2 ^ 64) (hbuf : buf.length < 2 ^ 64) :
    ebmlRead8 buf data = (x % 256, advance data 1) := by
  unfold ebmlRead8 advance
  rw [add64_of_lt (by omega), sub64_of_le hleft hl64, hx.2]

theorem ebmlReadBytes_at (buf : List Nat) (v : Nat) (hbuf : buf.length < 2 ^ 64) :
    ∀ (n : Nat) (data : EBMLData) (ret : Nat),
      BytesAt buf data.pos (encodeBE n v) → n ≤ data.left → data.left < 2 ^ 64 →
      (ret + 1) * 256 ^ n ≤ 2 ^ 64 →
      ebmlReadBytes buf n data ret = (advance data n, ret * 256 ^ n + v % 256 ^ n) := by
  intro n
  induction n with
  | zero =>
    intro data ret _ _ _ _
    simp [ebmlReadBytes, advance, Nat.mod_one]
  | succ n ih =>
    intro data ret hat hleft hl64 hret
    rw [encodeBE, BytesAt_cons] at hat
    have hpos : 0 < 256 ^ n := Nat.pow_pos (by norm_num)
    have hret1 : ret * 256 < 2 ^ 64 := by
      have : (ret + 1) * 256 ≤ (ret + 1) * 256 ^ (n + 1) := by
        apply Nat.mul_le_mul_left
        rw [pow_succ]; exact Nat.le_mul_of_pos_left _ hpos
      omega
    have hb : v / 256 ^ n % 256 < 256 := Nat.mod_lt _ (by norm_num)
    unfold ebmlReadBytes
    simp only [ebmlRead8_at hat.1 (by omega) hl64 hbuf, Nat.mod_mod]
    rw [shl8_or hret1 hb]
    rw [ih (advance data 1) _ (by simpa [advance] using hat.2) (by simp [advance]; omega)
      (by simp [advance]; omega) ?_]
    · have e1 : v % 256 ^ (n + 1) = (v / 256 ^ n % 256) * 256 ^ n + v % 256 ^ n := by
        rw [pow_succ, Nat.mod_mul, Nat.add_comm, Nat.mul_comm]
      simp only [advance, Prod.mk.injEq, EBMLData.mk.injEq, true_and]
      refine ⟨⟨by omega, by omega⟩, ?_⟩
      rw [e1, pow_succ]; ring
    · calc (ret * 256 + v / 256 ^ n % 256 + 1) * 256 ^ n
          ≤ (ret * 256 + 256) * 256 ^ n := Nat.mul_le_mul_right _ (by omega)
        _ = (ret + 1) * 256 ^ (n + 1) := by rw [pow_succ]; ring
        _ ≤ 2 ^ 64 := hret

/-! ## The VINT decoder on known buffer contents -/

theorem ebmlReadIntLenScan_of_range {d n : Nat} (h1 : 1 ≤ n) (h8 : n ≤ 8)
    (hlo : 2 ^ (8 - n) ≤ d) (hhi : d < 2 ^ (9 - n)) :
    ebmlReadIntLenScan d = some (n : Int) := by
  interval_cases n <;> simp at hlo hhi <;> interval_cases d <;> rfl

theorem ebmlReadIntLen_of_range (buf : List Nat) (data : EBMLData) {d n : Nat}
    (hleft : 1 ≤ data.left) (hd : buf.getD data.pos 0 % 256 = d)
    (h1 : 1 ≤ n) (h8 : n ≤ 8) (hlo : 2 ^ (8 - n) ≤ d) (hhi : d < 2 ^ (9 - n)) :
    ebmlReadIntLen buf data = .OK data (n : Int) := by
  unfold ebmlReadIntLen ebmlCheckLength
  simp only [hd, ebmlReadIntLenScan_of_range h1 h8 hlo hhi, ge_iff_le, hleft, decide_True,
    Bool.not_true, Bool.false_eq_true, if_false]

theorem and_mask_eq_mod {n : Nat} (h1 : 1 ≤ n) (h7 : n ≤ 7) (d : Nat) :
    d &&& (0xFF >>> n) = d % 2 ^ (8 - n) := by
  interval_cases n
  · exact Nat.and_pow_two_sub_one_eq_mod d 7
  · exact Nat.and_pow_two_sub_one_eq_mod d 6
  · exact Nat.and_pow_two_sub_one_eq_mod d 5
  · exact Nat.and_pow_two_sub_one_eq_mod d 4
  · exact Nat.and_pow_two_sub_one_eq_mod d 3
  · exact Nat.and_pow_two_sub_one_eq_mod d 2
  · exact Nat.and_pow_two_sub_one_eq_mod d 1

theorem ebmlUnserialize_at {buf : List Nat} {data : EBMLData} {n v : Nat}
    (hbuf : buf.length < 2 ^ 64) (h8 : n ≤ 8)
    (hat : BytesAt buf data.pos (encodeBE n v)) (hleft : n ≤ data.left)
    (hl64 : data.left < 2 ^ 64) :
    ebmlUnserialize buf data (n : Int) = .OK (advance data n) (v % 256 ^ n) := by
  unfold ebmlUnserialize ebmlCheckLength
  have h1 : intToSize (n : Int) = n := intToSize_ofNat (by omega)
  have h2 : (1 : Nat) * 256 ^ n ≤ 2 ^ 64 := by
    have : 256 ^ n ≤ 256 ^ 8 := Nat.pow_le_pow_right (by norm_num) h8
    norm_num at this ⊢; omega
  simp [h1, hleft, ebmlReadBytes_at buf v hbuf n data 0 hat hleft hl64 (by simpa using h2)]

theorem ebmlUnserailizeUnsignedInt_at {buf : List Nat} {data : EBMLData} {n v : Nat}
    (hbuf : buf.length < 2 ^ 64) (h1 : 1 ≤ n) (h8 : n ≤ 8) (hv : v < 2 ^ (7 * n))
    (hat : BytesAt buf data.pos (encodeVint n v)) (hleft : n ≤ data.left)
    (hl64 : data.left < 2 ^ 64) :
    ebmlUnserailizeUnsignedInt buf data = .OK (advance data n) v := by
  obtain ⟨m, rfl⟩ : ∃ m, n = m + 1 := ⟨n - 1, by omega⟩
  unfold encodeVint at hat
  rw [encodeBE, BytesAt_cons] at hat
  obtain ⟨hd, htail⟩ := hat
  have hdlo : 2 ^ (8 - (m + 1)) ≤ (2 ^ (7 * (m + 1)) + v) / 256 ^ m % 256 ∧
      (2 ^ (7 * (m + 1)) + v) / 256 ^ m % 256 < 2 ^ (9 - (m + 1)) ∧
      ((2 ^ (7 * (m + 1)) + v) / 256 ^ m % 256) % 2 ^ (8 - (m + 1)) * 256 ^ m
        + (2 ^ (7 * (m + 1)) + v) % 256 ^ m = v ∧
      (((2 ^ (7 * (m + 1)) + v) / 256 ^ m % 256) % 2 ^ (8 - (m + 1)) + 1) * 256 ^ m ≤ 2 ^ 64 := by
    have hm : m ≤ 7 := by omega
    interval_cases m <;> simp at hv ⊢ <;> omega
  obtain ⟨hlo, hhi, hval, hfit⟩ := hdlo
  have hlen := ebmlReadIntLen_of_range buf data (by omega)
    (by rw [hd.2, Nat.mod_mod]) h1 h8 hlo hhi
  unfold ebmlUnserailizeUnsignedInt
  rw [hlen]
  have hsz : intToSize ((m + 1 : Nat) : Int) = m + 1 := intToSize_ofNat (by omega)
  have hr := ebmlRead8_at hd (by omega) hl64 hbuf
  simp only [ebmlCheckLength, hsz, ge_iff_le, hleft, decide_True, Bool.not_true,
    Bool.false_eq_true, if_false, hr, Nat.mod_mod]
  have e1 : (((m + 1 : Nat) : Int) - 1).toNat = m := by omega
  have e2 : (((m + 1 : Nat) : Int)).toNat = m + 1 := by omega
  have e3 : (if ((m + 1 : Nat) : Int) ≠ 8 then
      (2 ^ (7 * (m + 1)) + v) / 256 ^ m % 256 &&& 255 >>> (m + 1) else 0) =
      (2 ^ (7 * (m + 1)) + v) / 256 ^ m % 256 % 2 ^ (8 - (m + 1)) := by
    by_cases h : m + 1 = 8
    · have : m = 7 := by omega
      subst this
      simp [Nat.mod_one]
    · have h' : ((m + 1 : Nat) : Int) ≠ 8 := by omega
      rw [if_pos h']
      exact and_mask_eq_mod (by omega) (by omega) _
  rw [e1, e2, e3]
  rw [ebmlReadBytes_at buf _ hbuf m (advance data 1) _ (by simpa [advance] using htail)
    (by simp [advance]; omega) (by simp [advance]; omega) hfit, hval]
  simp [advance, Nat.add_assoc, Nat.add_comm 1 m]
  omega

/-! ## C2, C3, C4: the VINT decoder -/

/-- C2 (size-VINT round trip): for every octet count `n` in 1..8 and every
value `v < 2 ^ (7 * n)`, a cursor that starts at the `n`-octet size VINT of
`v` and holds at least those `n` bytes is decoded by
`ebmlUnserailizeUnsignedInt` to `EBML_OK` with the value `v`, and the cursor is
moved forward by exactly `n` bytes.  The boundary values `0` and
`2 ^ (7 * n) - 1` are instances. -/
theorem C2_size_vint_round_trip (buf : List Nat) (data : EBMLData) (n v : Nat)
    (hn1 : 1 ≤ n) (hn8 : n ≤ 8) (hv : v < 2 ^ (7 * n))
    (hbuf : buf.length < 2 ^ 64) (hl64 : data.left < 2 ^ 64)
    (hat : BytesAt buf data.pos (encodeVint n v)) (hleft : n ≤ data.left) :
    ebmlUnserailizeUnsignedInt buf data = .OK (advance data n) v :=
  ebmlUnserailizeUnsignedInt_at hbuf hn1 hn8 hv hat hleft hl64

/-- Witness of C2 at the upper boundary of the widest VINT: `n = 8`,
`v = 2 ^ 56 - 1`, encoded as `01 FF FF FF FF FF FF FF`. -/
theorem C2_size_vint_round_trip_witness :
    encodeVint 8 (2 ^ 56 - 1) = [0x01, 0xFF, 0xFF, 0xFF, 0xFF, 0xFF, 0xFF, 0xFF] ∧
    ebmlUnserailizeUnsignedInt [0x01, 0xFF, 0xFF, 0xFF, 0xFF, 0xFF, 0xFF, 0xFF] (ebmlInit 0 8)
      = .OK (advance (ebmlInit 0 8) 8) (2 ^ 56 - 1) :=
  ⟨by decide,
   C2_size_vint_round_trip [0x01, 0xFF, 0xFF, 0xFF, 0xFF, 0xFF, 0xFF, 0xFF] (ebmlInit 0 8) 8
     (2 ^ 56 - 1) (by decide) (by decide) (by decide) (by decide) (by decide) (by decide)
     (by decide)⟩

/-- C3 (VINT length round trip): for every octet count `n` in 1..8 and every
descriptor byte `d` with `2 ^ (8 - n) ≤ d < 2 ^ (9 - n)`, `ebmlReadIntLen` on a
non-empty cursor whose next byte is `d` returns `EBML_OK` with `len = n` and
leaves the cursor as it was: the descriptor byte is not consumed. -/
theorem C3_vint_length_round_trip (buf : List Nat) (data : EBMLData) (n d : Nat)
    (hn1 : 1 ≤ n) (hn8 : n ≤ 8) (hlo : 2 ^ (8 - n) ≤ d) (hhi : d < 2 ^ (9 - n))
    (hne : data.left ≠ 0) (hnext : buf[data.pos]? = some d) :
    ebmlReadIntLen buf data = .OK data (n : Int) ∧
    (ebmlReadIntLen buf data).status = .EBML_OK ∧
    (ebmlReadIntLen buf data).data.pos = data.pos ∧
    (ebmlReadIntLen buf data).data.left = data.left := by
  have hd256 : d < 256 := by
    have : 2 ^ (9 - n) ≤ 2 ^ 8 := Nat.pow_le_pow_right (by norm_num) (by omega)
    omega
  have hd : buf.getD data.pos 0 % 256 = d := by
    rw [List.getD_eq_getElem?_getD, hnext, Option.getD_some, Nat.mod_eq_of_lt hd256]
  have h := ebmlReadIntLen_of_range buf data (by omega) hd hn1 hn8 hlo hhi
  rw [h]
  exact ⟨rfl, rfl, rfl, rfl⟩

/-- Witness of C3: the descriptor byte `0x1F` of the Cluster tag announces 4
octets. -/
theorem C3_vint_length_round_trip_witness :
    ebmlReadIntLen [0x1F, 0x43, 0xB6, 0x75] (ebmlInit 0 4) = .OK (ebmlInit 0 4) 4 ∧
    (ebmlReadIntLen [0x1F, 0x43, 0xB6, 0x75] (ebmlInit 0 4)).status = .EBML_OK ∧
    (ebmlReadIntLen [0x1F, 0x43, 0xB6, 0x75] (ebmlInit 0 4)).data.pos = (ebmlInit 0 4).pos ∧
    (ebmlReadIntLen [0x1F, 0x43, 0xB6, 0x75] (ebmlInit 0 4)).data.left = (ebmlInit 0 4).left :=
  C3_vint_length_round_trip [0x1F, 0x43, 0xB6, 0x75] (ebmlInit 0 4) 4 0x1F
    (by decide) (by decide) (by decide) (by decide) (by decide) (by decide)

theorem ebmlReadIntLen_empty (buf : List Nat) (data : EBMLData) (h : data.left = 0) :
    ebmlReadIntLen buf data = .ERROR data := by
  simp [ebmlReadIntLen, ebmlCheckLength, h]

theorem ebmlUnserialize_short (buf : List Nat) (data : EBMLData) (len : Int)
    (h : (data.left : Int) < len) (hint : len < 2 ^ 31) :
    ebmlUnserialize buf data len = .ERROR data := by
  have h1 : intToSize len = len.toNat := by unfold intToSize; omega
  have h2 : ¬ (data.left ≥ len.toNat) := by omega
  simp [ebmlUnserialize, ebmlCheckLength, h1, h2]

/-- C4 (bounds enforcement without advance): on every cursor, a read that
needs more bytes than remain returns `EBML_ERROR` and hands back the cursor
exactly as it was.  First part: `ebmlUnserialize` with an `int` length `len`
larger than `left`.  Second part: `ebmlUnserailizeUnsignedInt` and
`ebmlReadTag` when the descriptor byte announces `n` octets and `left < n`.
Third part: on an empty cursor `ebmlUnserailizeUnsignedInt`, `ebmlReadTag`,
`ebmlReadIntLen`, and `ebmlUnserialize` of at least one byte. -/
theorem C4_bounds_enforcement_without_advance (buf : List Nat) (data : EBMLData) :
    (∀ len : Int, (data.left : Int) < len → len < 2 ^ 31 →
      ebmlUnserialize buf data len = .ERROR data) ∧
    (∀ n : Nat, 1 ≤ n → n ≤ 8 → 2 ^ (8 - n) ≤ buf.getD data.pos 0 % 256 →
      buf.getD data.pos 0 % 256 < 2 ^ (9 - n) → data.left < n →
      ebmlUnserailizeUnsignedInt buf data = .ERROR data ∧ ebmlReadTag buf data = .ERROR data) ∧
    (data.left = 0 →
      ebmlUnserailizeUnsignedInt buf data = .ERROR data ∧ ebmlReadTag buf data = .ERROR data ∧
      ebmlReadIntLen buf data = .ERROR data ∧
      ∀ len : Int, 1 ≤ len → len < 2 ^ 31 → ebmlUnserialize buf data len = .ERROR data) := by
  refine ⟨fun len h hint => ebmlUnserialize_short buf data len h hint, ?_, ?_⟩
  · intro n h1 h8 hlo hhi hlt
    by_cases h0 : data.left = 0
    · simp [ebmlUnserailizeUnsignedInt, ebmlReadTag, ebmlReadIntLen_empty buf data h0]
    · have hlen := ebmlReadIntLen_of_range buf data (by omega) rfl h1 h8 hlo hhi
      have hsz : intToSize (n : Int) = n := intToSize_ofNat (by omega)
      have h2 : ¬ (data.left ≥ n) := by omega
      refine ⟨?_, ?_⟩
      · simp [ebmlUnserailizeUnsignedInt, hlen, ebmlCheckLength, hsz, h2]
      · rw [ebmlReadTag, hlen]
        exact ebmlUnserialize_short buf data n (by omega) (by omega)
  · intro h0
    refine ⟨?_, ?_, ebmlReadIntLen_empty buf data h0, ?_⟩
    · simp [ebmlUnserailizeUnsignedInt, ebmlReadIntLen_empty buf data h0]
    · simp [ebmlReadTag, ebmlReadIntLen_empty buf data h0]
    · intro len h1 hint
      exact ebmlUnserialize_short buf data len (by omega) hint

/-- Witness of C4 on the buffer `40 01` (a 2-octet VINT): a cursor holding only
its first byte, and an empty cursor at its end. -/
theorem C4_bounds_enforcement_without_advance_witness :
    ebmlUnserialize [0x40, 0x01] (ebmlInit 0 1) 2 = .ERROR (ebmlInit 0 1) ∧
    (ebmlUnserailizeUnsignedInt [0x40, 0x01] (ebmlInit 0 1) = .ERROR (ebmlInit 0 1) ∧
      ebmlReadTag [0x40, 0x01] (ebmlInit 0 1) = .ERROR (ebmlInit 0 1)) ∧
    (ebmlUnserailizeUnsignedInt [0x40, 0x01] (ebmlInit 2 0) = .ERROR (ebmlInit 2 0) ∧
      ebmlReadTag [0x40, 0x01] (ebmlInit 2 0) = .ERROR (ebmlInit 2 0) ∧
      ebmlReadIntLen [0x40, 0x01] (ebmlInit 2 0) = .ERROR (ebmlInit 2 0) ∧
      ∀ len : Int, 1 ≤ len → len < 2 ^ 31 →
        ebmlUnserialize [0x40, 0x01] (ebmlInit 2 0) len = .ERROR (ebmlInit 2 0)) :=
  ⟨(C4_bounds_enforcement_without_advance [0x40, 0x01] (ebmlInit 0 1)).1 2 (by decide) (by decide),
   (C4_bounds_enforcement_without_advance [0x40, 0x01] (ebmlInit 0 1)).2.1 2 (by decide)
     (by decide) (by decide) (by decide) (by decide),
   (C4_bounds_enforcement_without_advance [0x40, 0x01] (ebmlInit 2 0)).2.2 rfl⟩

/-! ## What every call does to the cursor and to the block table -/

theorem Adv.zero {d : EBMLData} (h : d.Valid) : Adv 0 d d := by
  unfold Adv EBMLData.Valid at *; omega

theorem Adv.comp {j k : Nat} {d d' d'' : EBMLData} (h1 : Adv j d d') (h2 : Adv k d' d'') :
    Adv (j + k) d d'' := by
  unfold Adv at *; omega

theorem Adv.valid_after {k : Nat} {d d' : EBMLData} (h : d.Valid) (h1 : Adv k d d') : d'.Valid := by
  unfold Adv EBMLData.Valid at *; omega

theorem ebmlReadIntLenScan_range {d : Nat} {len : Int} (h : ebmlReadIntLenScan d = some len) :
    1 ≤ len ∧ len ≤ 8 := by
  unfold ebmlReadIntLenScan at h
  split at h
  · cases h; omega
  · split at h
    · rename_i i hi
      have hm := List.mem_of_find?_eq_some hi
      rw [List.mem_range'_1] at hm
      cases h; omega
    · cases h

theorem ebmlReadIntLen_cases (buf : List Nat) (d : EBMLData) :
    ebmlReadIntLen buf d = .ERROR d ∨
    ∃ len : Int, ebmlReadIntLen buf d = .OK d len ∧ 1 ≤ len ∧ len ≤ 8 ∧ 1 ≤ d.left := by
  unfold ebmlReadIntLen ebmlCheckLength
  by_cases h : d.left ≥ 1
  · simp only [h, decide_True, Bool.not_true, Bool.false_eq_true, if_false]
    cases hs : ebmlReadIntLenScan (buf.getD d.pos 0 % 256) with
    | none => exact Or.inl rfl
    | some len =>
      have := ebmlReadIntLenScan_range hs
      exact Or.inr ⟨len, rfl, this.1, this.2, trivial⟩
  · simp [h]

theorem ebmlRead8_adv (buf : List Nat) (d : EBMLData) (hv : d.Valid) (h : 1 ≤ d.left) :
    Adv 1 d (ebmlRead8 buf d).2 := by
  obtain ⟨_, h2⟩ := hv
  refine ⟨rfl, rfl, h, ?_, ?_⟩
  · show sub64 d.left 1 = d.left - 1
    unfold sub64; omega
  · show add64 d.pos 1 = _
    rfl

theorem ebmlReadBytes_adv (buf : List Nat) :
    ∀ (n : Nat) (d : EBMLData) (ret : Nat), d.Valid → n ≤ d.left →
      Adv n d (ebmlReadBytes buf n d ret).1 := by
  intro n
  induction n with
  | zero => intro d ret hv _; exact Adv.zero hv
  | succ n ih =>
    intro d ret hv hn
    unfold ebmlReadBytes
    have h1 : Adv 1 d (ebmlRead8 buf d).2 := ebmlRead8_adv buf d hv (by omega)
    have h2 := ih (ebmlRead8 buf d).2 (((ret <<< 8) % 2 ^ 64) ||| (ebmlRead8 buf d).1)
      (h1.valid_after hv) (by unfold Adv at h1; omega)
    have := h1.comp h2
    rw [Nat.add_comm] at this
    exact this

theorem ebmlUnserialize_cases (buf : List Nat) (d : EBMLData) (len : Int) (hv : d.Valid)
    (hlo : -2 ^ 31 ≤ len) (hhi : len < 2 ^ 31) :
    ebmlUnserialize buf d len = .ERROR d ∨
    ∃ d' v, ebmlUnserialize buf d len = .OK d' v ∧ Adv len.toNat d d' := by
  unfold ebmlUnserialize ebmlCheckLength
  by_cases h : d.left ≥ intToSize len
  · right
    simp only [h, decide_True, Bool.not_true, Bool.false_eq_true, if_false]
    refine ⟨_, _, rfl, ?_⟩
    apply ebmlReadBytes_adv buf _ _ _ hv
    unfold intToSize at h
    unfold EBMLData.Valid at hv
    omega
  · simp [h]

theorem ebmlReadTag_cases (buf : List Nat) (d : EBMLData) (hv : d.Valid) :
    ebmlReadTag buf d = .ERROR d ∨
    ∃ d' tag n, ebmlReadTag buf d = .OK d' tag ∧ 1 ≤ n ∧ n ≤ 8 ∧ Adv n d d' := by
  unfold ebmlReadTag
  rcases ebmlReadIntLen_cases buf d with h | ⟨len, h, h1, h8, _⟩
  · rw [h]; exact Or.inl rfl
  · rw [h]
    rcases ebmlUnserialize_cases buf d len hv (by omega) (by omega) with h' | ⟨d', v, h', ha⟩
    · exact Or.inl h'
    · exact Or.inr ⟨d', v, len.toNat, h', by omega, by omega, ha⟩

theorem ebmlUnserailizeUnsignedInt_cases (buf : List Nat) (d : EBMLData) (hv : d.Valid) :
    ebmlUnserailizeUnsignedInt buf d = .ERROR d ∨
    ∃ d' v n, ebmlUnserailizeUnsignedInt buf d = .OK d' v ∧ 1 ≤ n ∧ n ≤ 8 ∧ Adv n d d' := by
  unfold ebmlUnserailizeUnsignedInt
  rcases ebmlReadIntLen_cases buf d with h | ⟨len, h, h1, h8, _⟩
  · rw [h]; exact Or.inl rfl
  · rw [h]
    simp only [ebmlCheckLength]
    by_cases hc : d.left ≥ intToSize len
    · right
      simp only [hc, decide_True, Bool.not_true, Bool.false_eq_true, if_false]
      refine ⟨_, _, len.toNat, rfl, by omega, by omega, ?_⟩
      have hsz : intToSize len = len.toNat := by unfold intToSize; omega
      have h1 : Adv 1 d (ebmlRead8 buf d).2 := ebmlRead8_adv buf d hv (by omega)
      have h2 := ebmlReadBytes_adv buf (len - 1).toNat (ebmlRead8 buf d).2
        (if len ≠ 8 then (ebmlRead8 buf d).1 &&& (0xFF >>> len.toNat) else 0)
        (h1.valid_after hv) (by unfold Adv at h1; omega)
      have h3 := h1.comp h2
      have e : 1 + (len - 1).toNat = len.toNat := by omega
      rw [e] at h3
      exact h3
    · simp [hc]

theorem ClusterStep.refl (c : MKVCluster) : ClusterStep c c := ⟨rfl, id⟩

theorem ClusterStep.trans {c c' c'' : MKVCluster} (h1 : ClusterStep c c')
    (h2 : ClusterStep c' c'') : ClusterStep c c'' := by
  unfold ClusterStep at *
  refine ⟨by omega, fun h => h2.2 (h1.2 h)⟩

theorem Adv.skip {k E : Nat} {d d' : EBMLData} (hv : d.Valid) (h : Adv k d d')
    (hE : E ≤ d'.left) :
    Adv (k + E) d { d' with pos := add64 d'.pos E, left := sub64 d'.left E } := by
  have hv' := h.valid_after hv
  unfold Adv EBMLData.Valid add64 sub64 at *
  simp only
  omega

theorem ebmlReadSubElement_cases (buf : List Nat) (d : EBMLData) (hv : d.Valid) :
    (∃ d' k, ebmlReadSubElement buf d = .ERROR d' ∧ Adv k d d') ∨
    ∃ d' tag subEl k, ebmlReadSubElement buf d = .OK d' (tag, subEl) ∧ 2 ≤ k ∧ Adv k d d' ∧
      subEl.Valid ∧ subEl.left = subEl.len ∧ subEl.pos = subEl.org ∧
      (∃ d1, ebmlReadTag buf d = .OK d1 tag) := by
  unfold ebmlReadSubElement
  rcases ebmlReadTag_cases buf d hv with h | ⟨d1, tag, a, h, ha1, _, ha⟩
  · simp only [h]; exact Or.inl ⟨d, 0, rfl, Adv.zero hv⟩
  · simp only [h]
    have hv1 := ha.valid_after hv
    rcases ebmlUnserailizeUnsignedInt_cases buf d1 hv1 with h' | ⟨d2, E, b, h', hb1, _, hb⟩
    · simp only [h']; exact Or.inl ⟨d1, a, rfl, ha⟩
    · simp only [h']
      have hab := ha.comp hb
      have hv2 := hb.valid_after hv1
      simp only [ebmlCheckLength]
      by_cases hc : d2.left ≥ E
      · right
        simp only [hc, decide_True, Bool.not_true, Bool.false_eq_true, if_false]
        refine ⟨_, tag, _, a + b + E, rfl, by omega, hab.skip hv hc, ?_, rfl, rfl, d1, rfl⟩
        unfold EBMLData.Valid ebmlInit at *
        simp only
        omega
      · left
        simp only [hc, decide_False, Bool.not_false, if_true]
        exact ⟨d2, a + b, rfl, hab⟩

theorem mkvClusterHandleTimecode_step (buf : List Nat) (c : MKVCluster) (d : EBMLData)
    (hv : d.Valid) : (mkvClusterHandleTimecode buf c d).Step 1 c d := by
  unfold mkvClusterHandleTimecode
  rcases ebmlUnserailizeUnsignedInt_cases buf d hv with h | ⟨d1, size, a, h, ha1, _, ha⟩
  · simp only [h]; exact ⟨ClusterStep.refl c, 0, Adv.zero hv⟩
  · simp only [h]
    split
    · trivial
    · rename_i hs
      have hs' : size > 0 ∧ size ≤ 8 := by simpa using hs
      rcases ebmlUnserialize_cases buf d1 (size : Int) (ha.valid_after hv) (by omega) (by omega)
        with h' | ⟨d2, v, h', hb⟩
      · simp only [h']; exact ⟨ClusterStep.refl c, a, ha⟩
      · simp only [h']
        exact ⟨⟨rfl, id⟩, _, by omega, ha.comp hb⟩

theorem mkvClusterSkipInteger_step (buf : List Nat) (c : MKVCluster) (d : EBMLData)
    (hv : d.Valid) : (mkvClusterSkipInteger buf c d).Step 1 c d := by
  unfold mkvClusterSkipInteger
  rcases ebmlUnserailizeUnsignedInt_cases buf d hv with h | ⟨d1, size, a, h, ha1, _, ha⟩
  · simp only [h]; exact ⟨ClusterStep.refl c, 0, Adv.zero hv⟩
  · simp only [h]
    split
    · trivial
    · rename_i hs
      have hs' : size > 0 ∧ size ≤ 8 := by simpa using hs
      rcases ebmlUnserialize_cases buf d1 (size : Int) (ha.valid_after hv) (by omega) (by omega)
        with h' | ⟨d2, v, h', hb⟩
      · simp only [h']; exact ⟨ClusterStep.refl c, a, ha⟩
      · simp only [h']
        exact ⟨ClusterStep.refl c, _, by omega, ha.comp hb⟩

theorem mkvClusterSkipSubElement_step (buf : List Nat) (c : MKVCluster) (d : EBMLData)
    (hv : d.Valid) : (mkvClusterSkipSubElement buf c d).Step 1 c d := by
  unfold mkvClusterSkipSubElement
  rcases ebmlUnserailizeUnsignedInt_cases buf d hv with h | ⟨d1, E, a, h, ha1, _, ha⟩
  · simp only [h]; exact ⟨ClusterStep.refl c, 0, Adv.zero hv⟩
  · simp only [h]
    simp only [ebmlCheckLength]
    by_cases hc : d1.left ≥ E
    · simp only [hc, decide_True, Bool.not_true, Bool.false_eq_true, if_false]
      exact ⟨ClusterStep.refl c, a + E, by omega, ha.skip hv hc⟩
    · simp only [hc, decide_False, Bool.not_false, if_true]
      exact ⟨ClusterStep.refl c, a, ha⟩

theorem simpleBlock_payload_adv {d1 d4 : EBMLData} {h E : Nat} (hv : d1.Valid)
    (ha : Adv h d1 d4) (hE : E ≤ d1.left) :
    Adv E d1 { d4 with
      pos := add64 d4.pos (sub64 E (sub64 d4.pos d1.pos)),
      left := sub64 d4.left (sub64 E (sub64 d4.pos d1.pos)) } := by
  unfold Adv EBMLData.Valid add64 sub64 at *
  simp only
  omega

theorem mkvClusterHandleSimpleBlock_step (buf : List Nat) (c : MKVCluster) (d : EBMLData)
    (hv : d.Valid) : (mkvClusterHandleSimpleBlock buf c d).Step 1 c d := by
  unfold mkvClusterHandleSimpleBlock
  simp only
  split
  · exact ⟨ClusterStep.refl c, 0, Adv.zero hv⟩
  · rename_i hcap
    rcases ebmlUnserailizeUnsignedInt_cases buf d hv with h | ⟨d1, E, a, h, ha1, _, ha⟩
    · simp only [h]; exact ⟨ClusterStep.refl c, 0, Adv.zero hv⟩
    · simp only [h, ebmlCheckLength]
      have hv1 := ha.valid_after hv
      by_cases hc : d1.left ≥ E
      · simp only [hc, decide_True, Bool.not_true, Bool.false_eq_true, if_false]
        rcases ebmlUnserailizeUnsignedInt_cases buf d1 hv1 with h2 | ⟨d2, track, m, h2, hm1, hm8, hb⟩
        · simp only [h2]; exact ⟨ClusterStep.refl c, a, ha⟩
        · simp only [h2]
          have hv2 := hb.valid_after hv1
          rcases ebmlUnserialize_cases buf d2 2 hv2 (by norm_num) (by norm_num)
            with h3 | ⟨d3, tc, h3, hc3⟩
          · simp only [h3]; exact ⟨ClusterStep.refl c, _, ha.comp hb⟩
          · simp only [h3]
            have hv3 := hc3.valid_after hv2
            rcases ebmlUnserialize_cases buf d3 1 hv3 (by norm_num) (by norm_num)
              with h4 | ⟨d4, fl, h4, hc4⟩
            · simp only [h4]; exact ⟨ClusterStep.refl c, _, (ha.comp hb).comp hc3⟩
            · simp only [h4]
              have h14 : Adv (m + 3) d1 d4 := by
                have := (hb.comp hc3).comp hc4
                simpa using this
              have hp := simpleBlock_payload_adv (E := E) hv1 h14 hc
              refine ⟨⟨rfl, fun _ => ?_⟩, a + E, by omega, ha.comp hp⟩
              show add64 c.n_blocks 1 ≤ c.allocated_blocks
              unfold add64; omega
      · simp only [hc, decide_False, Bool.not_false, if_true]
        exact ⟨ClusterStep.refl c, a, ha⟩

theorem mkvClusterParseActions_actions (buf : List Nat) (tag : EBMLTag) (c : MKVCluster)
    (d : EBMLData) :
    mkvClusterParseActions buf tag actions c d 0 =
      if tag = TagTimecode then afterHandler (mkvClusterHandleTimecode buf c d)
      else if tag = TagSimpleBlock then afterHandler (mkvClusterHandleSimpleBlock buf c d)
      else if tag = TagSilentTracks then afterHandler (mkvClusterSkipSubElement buf c d)
      else if tag = TagPosition then afterHandler (mkvClusterSkipInteger buf c d)
      else if tag = TagPrevSize then afterHandler (mkvClusterSkipInteger buf c d)
      else if tag = TagBlockGroup then afterHandler (mkvClusterSkipSubElement buf c d)
      else (.OK c d, 0) := by
  unfold actions
  by_cases h1 : tag = TagTimecode
  · subst h1
    simp only [mkvClusterParseActions, if_true]
    cases mkvClusterHandleTimecode buf c d <;>
      simp [afterHandler, mkvClusterParseActions, TagTimecode, TagSimpleBlock, TagSilentTracks,
        TagPosition, TagPrevSize, TagBlockGroup]
  by_cases h2 : tag = TagSimpleBlock
  · subst h2
    simp only [mkvClusterParseActions, if_true]
    cases mkvClusterHandleSimpleBlock buf c d <;>
      simp [afterHandler, mkvClusterParseActions, TagTimecode, TagSimpleBlock, TagSilentTracks,
        TagPosition, TagPrevSize, TagBlockGroup]
  by_cases h3 : tag = TagSilentTracks
  · subst h3
    simp only [mkvClusterParseActions, if_true]
    cases mkvClusterSkipSubElement buf c d <;>
      simp [afterHandler, mkvClusterParseActions, TagTimecode, TagSimpleBlock, TagSilentTracks,
        TagPosition, TagPrevSize, TagBlockGroup]
  by_cases h4 : tag = TagPosition
  · subst h4
    simp only [mkvClusterParseActions, if_true]
    cases mkvClusterSkipInteger buf c d <;>
      simp [afterHandler, mkvClusterParseActions, TagTimecode, TagSimpleBlock, TagSilentTracks,
        TagPosition, TagPrevSize, TagBlockGroup]
  by_cases h5 : tag = TagPrevSize
  · subst h5
    simp only [mkvClusterParseActions, if_true]
    cases mkvClusterSkipInteger buf c d <;>
      simp [afterHandler, mkvClusterParseActions, TagTimecode, TagSimpleBlock, TagSilentTracks,
        TagPosition, TagPrevSize, TagBlockGroup]
  by_cases h6 : tag = TagBlockGroup
  · subst h6
    simp only [mkvClusterParseActions, if_true]
    cases mkvClusterSkipSubElement buf c d <;>
      simp [afterHandler, mkvClusterParseActions, TagTimecode, TagSimpleBlock, TagSilentTracks,
        TagPosition, TagPrevSize, TagBlockGroup]
  simp [mkvClusterParseActions, h1, h2, h3, h4, h5, h6]

theorem afterHandler_fst (r : Run) : (afterHandler r).1 = r := by
  cases r <;> rfl

theorem afterHandler_snd_ne_zero {r : Run} (h : (afterHandler r).2 ≠ 0) :
    ∃ c d, r = .OK c d := by
  cases r with
  | OK c d => exact ⟨c, d, rfl⟩
  | ERROR c d => exact absurd rfl h
  | ABORT => exact absurd rfl h

theorem Run.Step.mono {lo : Nat} {c : MKVCluster} {d : EBMLData} {r : Run}
    (h : r.Step lo c d) : r.Step 0 c d := by
  cases r with
  | OK c' d' =>
    obtain ⟨h1, k, _, h2⟩ := h
    exact ⟨h1, k, Nat.zero_le _, h2⟩
  | ERROR c' d' => exact h
  | ABORT => trivial

theorem Run.Step.after {lo j : Nat} {c c1 : MKVCluster} {d d1 : EBMLData} {r : Run}
    (hc : ClusterStep c c1) (hd : Adv j d d1) (h : r.Step lo c1 d1) : r.Step (j + lo) c d := by
  cases r with
  | OK c' d' =>
    obtain ⟨h1, k, hk, h2⟩ := h
    exact ⟨hc.trans h1, j + k, by omega, hd.comp h2⟩
  | ERROR c' d' =>
    obtain ⟨h1, k, h2⟩ := h
    exact ⟨hc.trans h1, j + k, hd.comp h2⟩
  | ABORT => trivial

/-- Every handler of the table `actions` obeys `Run.Step 1`. -/
theorem handlers_step (buf : List Nat) (tag : EBMLTag) (c : MKVCluster) (d : EBMLData)
    (hv : d.Valid) :
    (mkvClusterParseActions buf tag actions c d 0).1.Step 0 c d ∧
    ((mkvClusterParseActions buf tag actions c d 0).2 ≠ 0 →
      (mkvClusterParseActions buf tag actions c d 0).1.Step 1 c d) ∧
    ((mkvClusterParseActions buf tag actions c d 0).2 = 0 →
      ∀ c' d', (mkvClusterParseActions buf tag actions c d 0).1 = .OK c' d' → c' = c ∧ d' = d) := by
  rw [mkvClusterParseActions_actions]
  have key : ∀ r : Run, r.Step 1 c d →
      (afterHandler r).1.Step 0 c d ∧ ((afterHandler r).2 ≠ 0 → (afterHandler r).1.Step 1 c d) ∧
      ((afterHandler r).2 = 0 → ∀ c' d', (afterHandler r).1 = .OK c' d' → c' = c ∧ d' = d) := by
    intro r hr
    rw [afterHandler_fst]
    refine ⟨hr.mono, fun _ => hr, ?_⟩
    intro h0 c' d' hr'
    subst hr'
    exact absurd h0 (by simp [afterHandler])
  split
  · exact key _ (mkvClusterHandleTimecode_step buf c d hv)
  split
  · exact key _ (mkvClusterHandleSimpleBlock_step buf c d hv)
  split
  · exact key _ (mkvClusterSkipSubElement_step buf c d hv)
  split
  · exact key _ (mkvClusterSkipInteger_step buf c d hv)
  split
  · exact key _ (mkvClusterSkipInteger_step buf c d hv)
  split
  · exact key _ (mkvClusterSkipSubElement_step buf c d hv)
  · refine ⟨⟨ClusterStep.refl c, 0, Nat.le_refl _, Adv.zero hv⟩, fun h => absurd rfl h, ?_⟩
    intro _ c' d' h
    cases h
    exact ⟨rfl, rfl⟩

theorem mkvClusterParseLoop_step (buf : List Nat) :
    ∀ (fuel : Nat) (c : MKVCluster) (d : EBMLData), d.Valid → d.left < fuel →
      ∃ r, mkvClusterParseLoop buf fuel c d = some r ∧ r.Step 0 c d ∧
        ∀ c' d', r = .OK c' d' → d'.left = 0 := by
  intro fuel
  induction fuel with
  | zero => intro c d _ h; omega
  | succ fuel ih =>
    intro c d hv hfuel
    unfold mkvClusterParseLoop
    by_cases he : d.left = 0
    · simp only [ebmlEmpty, he, decide_True, if_true]
      refine ⟨_, rfl, ⟨ClusterStep.refl c, 0, Nat.le_refl _, Adv.zero hv⟩, ?_⟩
      intro c' d' h
      cases h
      exact he
    · simp only [ebmlEmpty, he, decide_False, Bool.false_eq_true, if_false]
      rcases ebmlReadTag_cases buf d hv with h | ⟨d1, tag, n, h, hn1, _, ha⟩
      · simp only [h]
        exact ⟨_, rfl, ⟨ClusterStep.refl c, 0, Adv.zero hv⟩, fun _ _ h => by cases h⟩
      · simp only [h]
        have hv1 := ha.valid_after hv
        obtain ⟨hs0, hs1, hs2⟩ := handlers_step buf tag c d1 hv1
        rcases hr : mkvClusterParseActions buf tag actions c d1 0 with ⟨r, found⟩
        rw [hr] at hs0 hs1 hs2
        simp only at hs0 hs1 hs2
        cases r with
        | ABORT => exact ⟨_, rfl, trivial, fun _ _ h => by cases h⟩
        | ERROR c2 d2 =>
          refine ⟨_, rfl, ?_, fun _ _ h => by cases h⟩
          have := Run.Step.after (ClusterStep.refl c) ha hs0
          exact this
        | OK c2 d2 =>
          simp only
          by_cases hf : found = 0
          · simp only [hf, if_true]
            refine ⟨_, rfl, ?_, fun _ _ h => by cases h⟩
            obtain ⟨h1, k, _, h2⟩ := hs0
            exact ⟨h1, n + k, ha.comp h2⟩
          · simp only [hf, if_false]
            obtain ⟨h1, k, hk, h2⟩ := hs1 hf
            have hlt : d2.left < fuel := by
              unfold Adv at ha h2; omega
            obtain ⟨r, hr2, hstep, hdone⟩ := ih c2 d2 (h2.valid_after hv1) hlt
            refine ⟨r, hr2, ?_, hdone⟩
            have := Run.Step.after h1 (ha.comp h2) hstep
            exact this.mono

theorem mkvClusterParse_returns (buf : List Nat) (c : MKVCluster) (d : EBMLData)
    (hv : d.Valid) :
    ∃ r, mkvClusterParse buf c d = some r ∧ r.Step 0 c d := by
  unfold mkvClusterParse
  rcases ebmlReadSubElement_cases buf d hv with ⟨d', k, h, ha⟩ |
    ⟨d', tag, subEl, k, h, _, ha, hsv, _, _, _⟩
  · simp only [h]
    exact ⟨_, rfl, ClusterStep.refl c, k, ha⟩
  · simp only [h]
    by_cases ht : tag = TagCluster
    · simp only [ht, ne_eq, not_true_eq_false, if_false]
      obtain ⟨r, hr, hstep, _⟩ := mkvClusterParseLoop_step buf (subEl.left + 1) c subEl hsv
        (Nat.lt_succ_self _)
      rw [hr]
      cases r with
      | ABORT => exact ⟨_, rfl, trivial⟩
      | ERROR c2 d2 => exact ⟨_, rfl, hstep.1, k, ha⟩
      | OK c2 d2 => exact ⟨_, rfl, hstep.1, k, Nat.zero_le _, ha⟩
    · simp only [ne_eq, ht, not_false_eq_true, if_true]
      exact ⟨_, rfl, ClusterStep.refl c, k, ha⟩

theorem CursorInv.valid {d : EBMLData} (h : CursorInv d) (hfit : d.org + d.len < 2 ^ 64) :
    d.Valid := by
  unfold CursorInv at h; unfold EBMLData.Valid; omega

theorem CursorInv.adv {k : Nat} {d d' : EBMLData} (h : CursorInv d)
    (hfit : d.org + d.len < 2 ^ 64) (ha : Adv k d d') :
    CursorInv d' ∧ d'.left ≤ d.left ∧ d'.org = d.org ∧ d'.len = d.len := by
  unfold CursorInv Adv at *; omega

theorem Run.Step.data {lo : Nat} {c : MKVCluster} {d d' : EBMLData} {r : Run}
    (h : r.Step lo c d) (hd : r.data = some d') : ∃ k, Adv k d d' := by
  cases r with
  | OK c1 d1 =>
    obtain ⟨_, k, _, h2⟩ := h
    cases hd; exact ⟨k, h2⟩
  | ERROR c1 d1 =>
    obtain ⟨_, k, h2⟩ := h
    cases hd; exact ⟨k, h2⟩
  | ABORT => cases hd

theorem Run.Step.cluster {lo : Nat} {c c' : MKVCluster} {d : EBMLData} {r : Run}
    (h : r.Step lo c d) (hc : r.cluster = some c') : ClusterStep c c' := by
  cases r with
  | OK c1 d1 => cases hc; exact h.1
  | ERROR c1 d1 => cases hc; exact h.1
  | ABORT => cases hc

theorem CursorOp.apply_adv (buf : List Nat) (d : EBMLData) (hv : d.Valid) (op : CursorOp)
    (hop : op.InRange) (d' : EBMLData) (h : op.apply buf d = some d') : ∃ k, Adv k d d' := by
  cases op with
  | readTag =>
    simp only [CursorOp.apply, Option.some.injEq] at h
    rcases ebmlReadTag_cases buf d hv with e | ⟨d1, _, n, e, _, _, ha⟩
    · rw [e] at h; subst h; exact ⟨0, Adv.zero hv⟩
    · rw [e] at h; subst h; exact ⟨n, ha⟩
  | unserialize len =>
    simp only [CursorOp.apply, Option.some.injEq] at h
    rcases ebmlUnserialize_cases buf d len hv hop.1 hop.2 with e | ⟨d1, _, e, ha⟩
    · rw [e] at h; subst h; exact ⟨0, Adv.zero hv⟩
    · rw [e] at h; subst h; exact ⟨_, ha⟩
  | unsignedInt =>
    simp only [CursorOp.apply, Option.some.injEq] at h
    rcases ebmlUnserailizeUnsignedInt_cases buf d hv with e | ⟨d1, _, n, e, _, _, ha⟩
    · rw [e] at h; subst h; exact ⟨0, Adv.zero hv⟩
    · rw [e] at h; subst h; exact ⟨n, ha⟩
  | readSubElement =>
    simp only [CursorOp.apply, Option.some.injEq] at h
    rcases ebmlReadSubElement_cases buf d hv with ⟨d1, k, e, ha⟩ | ⟨d1, _, _, k, e, _, ha, _⟩
    · rw [e] at h; subst h; exact ⟨k, ha⟩
    · rw [e] at h; subst h; exact ⟨k, ha⟩
  | handleTimecode c => exact (mkvClusterHandleTimecode_step buf c d hv).data h
  | handleSimpleBlock c => exact (mkvClusterHandleSimpleBlock_step buf c d hv).data h
  | skipSubElement c => exact (mkvClusterSkipSubElement_step buf c d hv).data h
  | skipInteger c => exact (mkvClusterSkipInteger_step buf c d hv).data h
  | clusterParse c =>
    obtain ⟨r, hr, hs⟩ := mkvClusterParse_returns buf c d hv
    simp only [CursorOp.apply, hr, Option.some_bind] at h
    exact hs.data h

theorem runOps_inv (buf : List Nat) :
    ∀ (ops : List CursorOp) (d d' : EBMLData), (∀ op ∈ ops, op.InRange) → CursorInv d →
      d.org + d.len < 2 ^ 64 → runOps buf ops d = some d' →
      CursorInv d' ∧ d'.left ≤ d.left ∧ d'.org = d.org ∧ d'.len = d.len := by
  intro ops
  induction ops with
  | nil =>
    intro d d' _ hi _ h
    simp only [runOps, Option.some.injEq] at h
    subst h
    exact ⟨hi, Nat.le_refl _, rfl, rfl⟩
  | cons op ops ih =>
    intro d d' hops hi hfit h
    simp only [runOps] at h
    cases h1 : op.apply buf d with
    | none => rw [h1] at h; cases h
    | some d1 =>
      rw [h1] at h
      simp only [Option.some_bind] at h
      obtain ⟨k, ha⟩ := CursorOp.apply_adv buf d (hi.valid hfit) op
        (hops op (List.mem_cons_self _ _)) d1 h1
      obtain ⟨hi1, hl1, ho1, hn1⟩ := hi.adv hfit ha
      obtain ⟨hi2, hl2, ho2, hn2⟩ := ih d1 d' (fun o ho => hops o (List.mem_cons_of_mem _ ho))
        hi1 (by omega) h
      exact ⟨hi2, by omega, by omega, by omega⟩

/-! ## C9: the cursor invariant -/

/-- C9 (cursor invariant): a cursor made by `ebmlInit p n` over a buffer that
lies in the address space (`p + n < 2 ^ 64`) satisfies `left ≤ len` and
`pos = org + (len - left)`; so does every cursor `d` reached from it by any
sequence of `ebmlReadTag`, `ebmlUnserialize`, `ebmlUnserailizeUnsignedInt`,
`ebmlReadSubElement`, the four cluster handlers and `mkvClusterParse`,
whether they return `EBML_OK` or `EBML_ERROR`, with `org` and `len` unchanged;
and every further operation on `d` leaves a cursor that satisfies it again,
with `left` not larger than before. -/
theorem C9_cursor_invariant (buf : List Nat) (p n : Nat) (hfit : p + n < 2 ^ 64)
    (ops : List CursorOp) (hops : ∀ op ∈ ops, op.InRange) :
    CursorInv (ebmlInit p n) ∧
    ∀ d, runOps buf ops (ebmlInit p n) = some d →
      (d.left ≤ d.len ∧ d.pos = d.org + (d.len - d.left)) ∧ d.org = p ∧ d.len = n ∧
      ∀ op : CursorOp, op.InRange → ∀ d', op.apply buf d = some d' →
        (d'.left ≤ d'.len ∧ d'.pos = d'.org + (d'.len - d'.left)) ∧ d'.left ≤ d.left := by
  have h0 : CursorInv (ebmlInit p n) := by
    unfold CursorInv ebmlInit; simp
  refine ⟨h0, ?_⟩
  intro d hd
  obtain ⟨hi, _, ho, hn⟩ := runOps_inv buf ops (ebmlInit p n) d hops h0 hfit hd
  have ho' : d.org = p := ho
  have hn' : d.len = n := hn
  refine ⟨hi, ho', hn', ?_⟩
  intro op hop d' h
  have hfit' : d.org + d.len < 2 ^ 64 := by omega
  obtain ⟨k, ha⟩ := CursorOp.apply_adv buf d (hi.valid hfit') op hop d' h
  obtain ⟨hi1, hl1, _, _⟩ := hi.adv hfit' ha
  exact ⟨hi1, hl1⟩

/-- Witness of C9 on a Cluster whose SimpleBlock declares size 0: the top-level
cursor is read up to the SimpleBlock tag and handed to the SimpleBlock handler. -/
theorem C9_cursor_invariant_witness :
    runOps [0x1F, 0x43, 0xB6, 0x75, 0x86, 0xA3, 0x80, 0xA0, 0x82, 0x00, 0x00]
      [.readTag, .unsignedInt, .readTag] (ebmlInit 0 11) = some ⟨6, 0, 11, 5⟩ ∧
    CursorOp.apply [0x1F, 0x43, 0xB6, 0x75, 0x86, 0xA3, 0x80, 0xA0, 0x82, 0x00, 0x00]
      ⟨6, 0, 11, 5⟩ (.handleSimpleBlock ⟨0, 1, 0, [⟨0, 0, 0, 0, 0⟩]⟩) = some ⟨7, 0, 11, 4⟩ ∧
    ((4 : Nat) ≤ 11 ∧ (7 : Nat) = 0 + (11 - 4)) ∧ (4 : Nat) ≤ 5 :=
  ⟨by decide, by decide,
   ((C9_cursor_invariant [0x1F, 0x43, 0xB6, 0x75, 0x86, 0xA3, 0x80, 0xA0, 0x82, 0x00, 0x00]
      0 11 (by decide) [.readTag, .unsignedInt, .readTag]
      (fun _ h => by
        simp only [List.mem_cons, List.mem_singleton, List.not_mem_nil, or_false] at h
        rcases h with rfl | rfl | rfl <;> trivial)).2 ⟨6, 0, 11, 5⟩ (by decide)).2.2.2
      (.handleSimpleBlock ⟨0, 1, 0, [⟨0, 0, 0, 0, 0⟩]⟩) trivial ⟨7, 0, 11, 4⟩ (by decide)⟩

theorem actions_step (buf : List Nat) (c : MKVCluster) (d : EBMLData) (hv : d.Valid) :
    ∀ a ∈ actions, (a.2 buf c d).Step 1 c d := by
  intro a ha
  simp only [actions, List.mem_cons, List.mem_singleton, List.not_mem_nil, or_false] at ha
  rcases ha with rfl | rfl | rfl | rfl | rfl | rfl
  · exact mkvClusterHandleTimecode_step buf c d hv
  · exact mkvClusterHandleSimpleBlock_step buf c d hv
  · exact mkvClusterSkipSubElement_step buf c d hv
  · exact mkvClusterSkipInteger_step buf c d hv
  · exact mkvClusterSkipInteger_step buf c d hv
  · exact mkvClusterSkipSubElement_step buf c d hv

/-! ## C7 and C10: the block table and the top-level tag -/

/-- C7 (block-table invariant): `n_blocks ≤ allocated_blocks` holds after
`mkvClusterInit`; for every buffer, cluster and cursor (whose fields are
64-bit values) `mkvClusterParse` returns or aborts on a failed `assert`, and
whenever it or a handler of the table `actions` returns, with `EBML_OK` or
`EBML_ERROR`, the cluster it leaves has the same `allocated_blocks` and still
satisfies `n_blocks ≤ allocated_blocks` if it did before. -/
theorem C7_block_table_invariant (buf : List Nat) (c : MKVCluster) (d : EBMLData)
    (hv : d.pos < 2 ^ 64 ∧ d.left < 2 ^ 64) :
    (∀ (k : Nat) (junk : Nat → MKVSimpleBlock),
      (mkvClusterInit k junk).n_blocks ≤ (mkvClusterInit k junk).allocated_blocks) ∧
    (∃ r, mkvClusterParse buf c d = some r ∧
      ∀ c', r.cluster = some c' →
        c'.allocated_blocks = c.allocated_blocks ∧
        (c.n_blocks ≤ c.allocated_blocks → c'.n_blocks ≤ c'.allocated_blocks)) ∧
    (∀ a ∈ actions, ∀ c', (a.2 buf c d).cluster = some c' →
        c'.allocated_blocks = c.allocated_blocks ∧
        (c.n_blocks ≤ c.allocated_blocks → c'.n_blocks ≤ c'.allocated_blocks)) := by
  refine ⟨fun k junk => Nat.zero_le _, ?_, ?_⟩
  · obtain ⟨r, hr, hs⟩ := mkvClusterParse_returns buf c d hv
    exact ⟨r, hr, fun c' hc => hs.cluster hc⟩
  · intro a ha c' hc
    exact (actions_step buf c d hv a ha).cluster hc

/-- Witness of C7: the Cluster `Timecode 1000, SimpleBlock (1, 0, 0x80, DE AD BE EF)`
parsed into a fresh cluster of capacity 1. -/
theorem C7_block_table_invariant_witness :
    ∃ r, mkvClusterParse
        [0x1F, 0x43, 0xB6, 0x75, 0x8E, 0xE7, 0x82, 0x03, 0xE8,
         0xA3, 0x88, 0x81, 0x00, 0x00, 0x80, 0xDE, 0xAD, 0xBE, 0xEF]
        (mkvClusterInit 1 (fun _ => ⟨0, 0, 0, 0, 0⟩)) (ebmlInit 0 19) = some r ∧
      ∀ c', r.cluster = some c' →
        c'.allocated_blocks = (mkvClusterInit 1 (fun _ => ⟨0, 0, 0, 0, 0⟩)).allocated_blocks ∧
        ((mkvClusterInit 1 (fun _ => ⟨0, 0, 0, 0, 0⟩)).n_blocks ≤
            (mkvClusterInit 1 (fun _ => ⟨0, 0, 0, 0, 0⟩)).allocated_blocks →
          c'.n_blocks ≤ c'.allocated_blocks) :=
  (C7_block_table_invariant
    [0x1F, 0x43, 0xB6, 0x75, 0x8E, 0xE7, 0x82, 0x03, 0xE8,
     0xA3, 0x88, 0x81, 0x00, 0x00, 0x80, 0xDE, 0xAD, 0xBE, 0xEF]
    (mkvClusterInit 1 (fun _ => ⟨0, 0, 0, 0, 0⟩)) (ebmlInit 0 19) (by decide)).2.1

/-- C10 (top-level tag check): when the first element of the buffer decodes
(its tag, its size VINT, and the size does not exceed what remains) and the
tag is not `0x1F43B675`, `mkvClusterParse` returns `EBML_ERROR` with the
cluster, that is `timecode`, `n_blocks` and `blocks`, unchanged; and
`mkvClusterParse` returns `EBML_OK` only if the first tag read is
`0x1F43B675`. -/
theorem C10_top_level_tag_check (buf : List Nat) (c : MKVCluster) (d : EBMLData) :
    (∀ d1 d2 tag size, ebmlReadTag buf d = .OK d1 tag →
      ebmlUnserailizeUnsignedInt buf d1 = .OK d2 size → size ≤ d2.left → tag ≠ 0x1F43B675 →
      mkvClusterParse buf c d =
        some (.ERROR c { d2 with pos := add64 d2.pos size, left := sub64 d2.left size })) ∧
    (∀ c' d', mkvClusterParse buf c d = some (.OK c' d') →
      ∃ d1, ebmlReadTag buf d = .OK d1 0x1F43B675) := by
  constructor
  · intro d1 d2 tag size h1 h2 h3 h4
    have h4' : tag ≠ TagCluster := h4
    simp only [mkvClusterParse, ebmlReadSubElement, h1, h2, ebmlCheckLength, ge_iff_le, h3,
      decide_True, Bool.not_true, Bool.false_eq_true, if_false, ne_eq, h4', not_false_eq_true,
      if_true]
  · intro c' d' h
    unfold mkvClusterParse at h
    cases h1 : ebmlReadSubElement buf d with
    | ERROR d1 => rw [h1] at h; simp at h
    | OK d1 v =>
      obtain ⟨tag, subEl⟩ := v
      rw [h1] at h
      simp only at h
      by_cases ht : tag = TagCluster
      · subst ht
        unfold ebmlReadSubElement at h1
        cases h2 : ebmlReadTag buf d with
        | ERROR d2 => rw [h2] at h1; simp at h1
        | OK d2 tag2 =>
          rw [h2] at h1
          simp only at h1
          cases h3 : ebmlUnserailizeUnsignedInt buf d2 with
          | ERROR d3 => rw [h3] at h1; simp at h1
          | OK d3 E =>
            rw [h3] at h1
            simp only at h1
            split at h1
            · cases h1
            · simp only [Ret.OK.injEq, Prod.mk.injEq] at h1
              rw [h1.2.1]
              exact ⟨d2, rfl⟩
      · simp [ht] at h

/-- Witness of C10: a buffer that starts with a Timecode element is refused and
the cluster is untouched; the Cluster of the end-to-end scenario is accepted
and its first tag is `0x1F43B675`. -/
theorem C10_top_level_tag_check_witness :
    mkvClusterParse [0xE7, 0x81, 0x05] (mkvClusterInit 1 (fun _ => ⟨0, 0, 0, 0, 0⟩))
        (ebmlInit 0 3) =
      some (.ERROR (mkvClusterInit 1 (fun _ => ⟨0, 0, 0, 0, 0⟩))
        { (⟨2, 0, 3, 1⟩ : EBMLData) with pos := add64 2 1, left := sub64 1 1 }) ∧
    ∃ d1, ebmlReadTag
        [0x1F, 0x43, 0xB6, 0x75, 0x8E, 0xE7, 0x82, 0x03, 0xE8,
         0xA3, 0x88, 0x81, 0x00, 0x00, 0x80, 0xDE, 0xAD, 0xBE, 0xEF] (ebmlInit 0 19)
        = .OK d1 0x1F43B675 :=
  ⟨(C10_top_level_tag_check [0xE7, 0x81, 0x05] (mkvClusterInit 1 (fun _ => ⟨0, 0, 0, 0, 0⟩))
      (ebmlInit 0 3)).1 ⟨1, 0, 3, 2⟩ ⟨2, 0, 3, 1⟩ 0xE7 1 (by decide) (by decide) (by decide)
      (by decide),
   (C10_top_level_tag_check
      [0x1F, 0x43, 0xB6, 0x75, 0x8E, 0xE7, 0x82, 0x03, 0xE8,
       0xA3, 0x88, 0x81, 0x00, 0x00, 0x80, 0xDE, 0xAD, 0xBE, 0xEF]
      (mkvClusterInit 1 (fun _ => ⟨0, 0, 0, 0, 0⟩)) (ebmlInit 0 19)).2
      ⟨1000, 1, 1, [⟨1, 0, 0x80, 4, 15⟩]⟩ ⟨19, 0, 19, 0⟩ (by decide)⟩

/-! ## The element reader and the handlers on well-formed elements -/

theorem advance_advance (d : EBMLData) (a b : Nat) : advance (advance d a) b = advance d (a + b) := by
  simp [advance, Nat.add_assoc, Nat.sub_sub]

theorem ebmlReadTag_at {buf : List Nat} {data : EBMLData} {n tag : Nat}
    (hbuf : buf.length < 2 ^ 64) (h1 : 1 ≤ n) (h8 : n ≤ 8)
    (hlo : 2 ^ (8 - n) ≤ tag / 256 ^ (n - 1)) (hhi : tag / 256 ^ (n - 1) < 2 ^ (9 - n))
    (hat : BytesAt buf data.pos (encodeBE n tag)) (hleft : n ≤ data.left)
    (hl64 : data.left < 2 ^ 64) :
    ebmlReadTag buf data = .OK (advance data n) tag := by
  obtain ⟨m, rfl⟩ : ∃ m, n = m + 1 := ⟨n - 1, by omega⟩
  have hat' := hat
  rw [encodeBE, BytesAt_cons] at hat'
  have hm : m ≤ 7 := by omega
  simp only [Nat.add_sub_cancel] at hlo hhi
  have hb : tag / 256 ^ m % 256 = tag / 256 ^ m ∧ tag % 256 ^ (m + 1) = tag := by
    interval_cases m <;> simp at hlo hhi ⊢ <;> omega
  have hlen := ebmlReadIntLen_of_range buf data (by omega)
    (by rw [hat'.1.2, Nat.mod_mod, hb.1]) h1 h8 hlo hhi
  unfold ebmlReadTag
  simp only [hlen]
  rw [ebmlUnserialize_at hbuf h8 hat hleft hl64, hb.2]

theorem mkvClusterHandleTimecode_at {buf : List Nat} {c : MKVCluster} {d : EBMLData}
    {l n T : Nat} (hbuf : buf.length < 2 ^ 64) (hl1 : 1 ≤ l) (hl8 : l ≤ 8) (hn1 : 1 ≤ n)
    (hn8 : n ≤ 8) (hn : n < 2 ^ (7 * l)) (hT : T < 256 ^ n)
    (hat : BytesAt buf d.pos (encodeVint l n ++ encodeBE n T)) (hleft : l + n ≤ d.left)
    (hl64 : d.left < 2 ^ 64) :
    mkvClusterHandleTimecode buf c d = .OK { c with timecode := T } (advance d (l + n)) := by
  rw [BytesAt_append, encodeVint_length] at hat
  unfold mkvClusterHandleTimecode
  simp only [ebmlUnserailizeUnsignedInt_at hbuf hl1 hl8 hn hat.1 (by omega) hl64]
  have hs : n > 0 ∧ n ≤ 8 := ⟨hn1, hn8⟩
  simp only [hs, and_self, not_true_eq_false, if_false]
  rw [ebmlUnserialize_at hbuf hn8 (by simpa [advance] using hat.2) (by simp [advance]; omega)
    (by simp [advance]; omega)]
  simp only [advance_advance, Nat.mod_eq_of_lt hT]

theorem SimpleBlockSpec.body_length (b : SimpleBlockSpec) :
    b.body.length = b.m + 3 + b.payload.length := by
  simp [SimpleBlockSpec.body, encodeVint_length, encodeBE_length]; omega

theorem SimpleBlockSpec.element_length (b : SimpleBlockSpec) :
    b.element.length = 1 + b.l + (b.m + 3 + b.payload.length) := by
  simp [SimpleBlockSpec.element, encodeVint_length, b.body_length]; omega

theorem mkvClusterHandleSimpleBlock_at {buf : List Nat} {c : MKVCluster} {d : EBMLData}
    {b : SimpleBlockSpec} (hbuf : buf.length < 2 ^ 64) (hwf : b.WF)
    (hcap : c.n_blocks < c.allocated_blocks)
    (hat : BytesAt buf d.pos (encodeVint b.l b.body.length ++ b.body))
    (hleft : b.l + b.body.length ≤ d.left) (hl64 : d.left < 2 ^ 64) :
    mkvClusterHandleSimpleBlock buf c d =
      .OK { c with
              blocks := c.blocks.set c.n_blocks
                { track := b.track, timecode := b.timecode, flags := b.flags,
                  size := b.payload.length, data := d.pos + b.l + b.m + 3 },
              n_blocks := add64 c.n_blocks 1 }
          (advance d (b.l + b.body.length)) := by
  obtain ⟨⟨hl1, hl8⟩, ⟨hm1, hm8⟩, ht, ht32, htc, hf, hsz⟩ := hwf
  have hbl := b.body_length
  rw [BytesAt_append, encodeVint_length] at hat
  obtain ⟨hat1, hat2⟩ := hat
  have hpos : d.pos + b.l + b.body.length ≤ buf.length := by
    have := BytesAt_length_le hat2 (by
      intro h; rw [h, List.length_nil] at hbl; omega)
    omega
  unfold SimpleBlockSpec.body at hat2
  simp only [BytesAt_append, List.length_append, encodeVint_length, encodeBE_length] at hat2
  obtain ⟨⟨⟨hA, hB⟩, hC⟩, hD⟩ := hat2
  unfold mkvClusterHandleSimpleBlock
  have hcap' : ¬ (c.n_blocks ≥ c.allocated_blocks) := by omega
  simp only [hcap', if_false]
  rw [hbl] at hleft
  simp only [ebmlUnserailizeUnsignedInt_at hbuf hl1 hl8 (by rw [hbl]; exact hsz) hat1 (by omega) hl64]
  have hc1 : (advance d b.l).left ≥ b.body.length := by simp [advance]; omega
  simp only [ebmlCheckLength, hc1, decide_True, Bool.not_true, Bool.false_eq_true, if_false]
  simp only [@ebmlUnserailizeUnsignedInt_at buf (advance d b.l) b.m b.track hbuf hm1 hm8 ht
    (by simpa [advance] using hA) (by simp [advance]; omega) (by simp [advance]; omega)]
  have e2 := @ebmlUnserialize_at buf (advance (advance d b.l) b.m) 2 b.timecode
    hbuf (by omega) (by simpa [advance] using hB) (by simp [advance]; omega)
    (by simp [advance]; omega)
  simp only [Nat.cast_ofNat] at e2
  simp only [e2]
  have e1 := @ebmlUnserialize_at buf (advance (advance (advance d b.l) b.m) 2) 1
    b.flags hbuf (by omega)
    (by simpa [advance, Nat.add_assoc] using hC) (by simp [advance]; omega)
    (by simp [advance]; omega)
  simp only [Nat.cast_one] at e1
  simp only [e1]
  simp only [advance]
  rw [hbl]
  have q1 : sub64 (d.pos + b.l + b.m + 2 + 1) (d.pos + b.l) = b.m + 3 := by
    unfold sub64; omega
  have q2 : sub64 (b.m + 3 + b.payload.length) (b.m + 3) = b.payload.length := by
    unfold sub64; omega
  have q3 : add64 (d.pos + b.l + b.m + 2 + 1) b.payload.length
      = d.pos + (b.l + (b.m + 3 + b.payload.length)) := by
    unfold add64; omega
  have q4 : sub64 (d.left - b.l - b.m - 2 - 1) b.payload.length
      = d.left - (b.l + (b.m + 3 + b.payload.length)) := by
    unfold sub64; omega
  have q5 : b.track % 2 ^ 32 = b.track := Nat.mod_eq_of_lt ht32
  have q6 : b.timecode % 256 ^ 2 % 2 ^ 32 = b.timecode := by omega
  have q7 : b.flags % 256 ^ 1 % 2 ^ 32 = b.flags := by omega
  have q8 : d.pos + b.l + b.m + 2 + 1 = d.pos + b.l + b.m + 3 := by omega
  rw [q1, q2, q3, q4, q5, q6, q7, q8]

/-! ## The dispatch loop on well-formed children -/

theorem ebmlReadTag_byte {buf : List Nat} {data : EBMLData} {t : Nat}
    (hbuf : buf.length < 2 ^ 64) (hlo : 128 ≤ t) (hhi : t < 256)
    (hat : BytesAt buf data.pos [t]) (hleft : 1 ≤ data.left) (hl64 : data.left < 2 ^ 64) :
    ebmlReadTag buf data = .OK (advance data 1) t := by
  have e : encodeBE 1 t = [t] := by
    simp [encodeBE]; omega
  exact ebmlReadTag_at hbuf (Nat.le_refl 1) (by norm_num) (by simpa using hlo)
    (by simpa using hhi) (by rw [e]; exact hat) hleft hl64

theorem mkvClusterParseLoop_known {buf : List Nat} {fuel : Nat} {c c' : MKVCluster}
    {d d1 d' : EBMLData} {tag : EBMLTag} {h : Handler} (hfuel : 0 < fuel) (hne : d.left ≠ 0)
    (htag : ebmlReadTag buf d = .OK d1 tag)
    (hact : mkvClusterParseActions buf tag actions c d1 0 = afterHandler (h buf c d1))
    (hh : h buf c d1 = .OK c' d') :
    mkvClusterParseLoop buf fuel c d = mkvClusterParseLoop buf (fuel - 1) c' d' := by
  obtain ⟨f, rfl⟩ : ∃ f, fuel = f + 1 := ⟨fuel - 1, by omega⟩
  rw [mkvClusterParseLoop]
  simp only [ebmlEmpty, hne, decide_False, Bool.false_eq_true, if_false, htag, hact, hh,
    afterHandler, one_ne_zero, Nat.add_sub_cancel]

theorem mkvClusterParseLoop_timecode {buf : List Nat} {fuel : Nat} {c : MKVCluster}
    {d : EBMLData} {l n T : Nat} (hbuf : buf.length < 2 ^ 64) (hl1 : 1 ≤ l) (hl8 : l ≤ 8)
    (hn1 : 1 ≤ n) (hn8 : n ≤ 8) (hT : T < 256 ^ n)
    (hat : BytesAt buf d.pos (timecodeElement l n T)) (hleft : 1 + l + n ≤ d.left)
    (hl64 : d.left < 2 ^ 64) (hfuel : 0 < fuel) :
    mkvClusterParseLoop buf fuel c d =
      mkvClusterParseLoop buf (fuel - 1) { c with timecode := T } (advance d (1 + l + n)) := by
  unfold timecodeElement at hat
  rw [List.append_assoc, BytesAt_append] at hat
  have hn : n < 2 ^ (7 * l) := by
    have : 2 ^ 7 ≤ 2 ^ (7 * l) := Nat.pow_le_pow_right (by norm_num) (by omega)
    omega
  have htag := ebmlReadTag_byte (t := 0xE7) hbuf (by norm_num) (by norm_num) hat.1 (by omega) hl64
  have hh := @mkvClusterHandleTimecode_at buf c (advance d 1) l n T hbuf hl1 hl8 hn1 hn8 hn hT
    (by simpa [advance] using hat.2) (by simp [advance]; omega) (by simp [advance]; omega)
  rw [advance_advance, ← Nat.add_assoc] at hh
  refine mkvClusterParseLoop_known hfuel (by omega) htag ?_ hh
  rw [mkvClusterParseActions_actions]
  simp [TagTimecode]

theorem mkvClusterParseLoop_simpleBlock {buf : List Nat} {fuel : Nat} {c : MKVCluster}
    {d : EBMLData} {b : SimpleBlockSpec} (hbuf : buf.length < 2 ^ 64) (hwf : b.WF)
    (hcap : c.n_blocks < c.allocated_blocks)
    (hat : BytesAt buf d.pos b.element) (hleft : b.element.length ≤ d.left)
    (hl64 : d.left < 2 ^ 64) (hfuel : 0 < fuel) :
    mkvClusterParseLoop buf fuel c d =
      mkvClusterParseLoop buf (fuel - 1)
        { c with blocks := c.blocks.set c.n_blocks (b.block d.pos),
                 n_blocks := add64 c.n_blocks 1 }
        (advance d b.element.length) := by
  have hel := b.element_length
  have hbl := b.body_length
  unfold SimpleBlockSpec.element at hat
  rw [List.append_assoc, BytesAt_append] at hat
  have htag := ebmlReadTag_byte (t := 0xA3) hbuf (by norm_num) (by norm_num) hat.1 (by omega) hl64
  have hh := @mkvClusterHandleSimpleBlock_at buf c (advance d 1) b hbuf hwf hcap
    (by simpa [advance] using hat.2) (by simp [advance]; omega) (by simp [advance]; omega)
  rw [advance_advance] at hh
  have e1 : 1 + (b.l + b.body.length) = b.element.length := by omega
  have e2 : (advance d 1).pos + b.l + b.m + 3 = d.pos + 1 + b.l + b.m + 3 := by simp [advance]
  rw [e1, e2] at hh
  refine mkvClusterParseLoop_known hfuel (by omega) htag ?_ hh
  rw [mkvClusterParseActions_actions]
  simp [TagTimecode, TagSimpleBlock]

theorem mkvClusterParseLoop_full {buf : List Nat} {fuel : Nat} {c : MKVCluster}
    {d : EBMLData} (hcap : c.allocated_blocks ≤ c.n_blocks)
    (hat : BytesAt buf d.pos [0xA3]) (hbuf : buf.length < 2 ^ 64) (hleft : 1 ≤ d.left)
    (hl64 : d.left < 2 ^ 64) (hfuel : 0 < fuel) :
    mkvClusterParseLoop buf fuel c d = some (.ERROR c (advance d 1)) := by
  obtain ⟨f, rfl⟩ : ∃ f, fuel = f + 1 := ⟨fuel - 1, by omega⟩
  have htag := ebmlReadTag_byte (t := 0xA3) hbuf (by norm_num) (by norm_num) hat hleft hl64
  have hne : d.left ≠ 0 := by omega
  rw [mkvClusterParseLoop]
  simp only [ebmlEmpty, hne, decide_False, Bool.false_eq_true, if_false, htag,
    mkvClusterParseActions_actions]
  simp [TagTimecode, TagSimpleBlock, mkvClusterHandleSimpleBlock, hcap, afterHandler]

theorem mkvClusterParseLoop_unknown {buf : List Nat} {fuel : Nat} {c : MKVCluster}
    {d : EBMLData} {u tag : Nat} (hbuf : buf.length < 2 ^ 64) (hu1 : 1 ≤ u) (hu8 : u ≤ 8)
    (hlo : 2 ^ (8 - u) ≤ tag / 256 ^ (u - 1)) (hhi : tag / 256 ^ (u - 1) < 2 ^ (9 - u))
    (hunk : tag ∉ [0xE7, 0xA3, 0x5854, 0xA7, 0xAB, 0xA0])
    (hat : BytesAt buf d.pos (encodeBE u tag)) (hleft : u ≤ d.left)
    (hl64 : d.left < 2 ^ 64) (hfuel : 0 < fuel) :
    mkvClusterParseLoop buf fuel c d = some (.ERROR c (advance d u)) := by
  obtain ⟨f, rfl⟩ : ∃ f, fuel = f + 1 := ⟨fuel - 1, by omega⟩
  have htag := ebmlReadTag_at hbuf hu1 hu8 hlo hhi hat hleft hl64
  have hne : d.left ≠ 0 := by omega
  simp only [List.mem_cons, List.mem_singleton, List.not_mem_nil, or_false, not_or] at hunk
  obtain ⟨k1, k2, k3, k4, k5, k6⟩ := hunk
  rw [mkvClusterParseLoop]
  simp only [ebmlEmpty, hne, decide_False, Bool.false_eq_true, if_false, htag,
    mkvClusterParseActions_actions]
  simp [TagTimecode, TagSimpleBlock, TagSilentTracks, TagPosition, TagPrevSize, TagBlockGroup,
    k1, k2, k3, k4, k5, k6]

theorem mkvClusterParseLoop_empty {buf : List Nat} {fuel : Nat} {c : MKVCluster}
    {d : EBMLData} (hleft : d.left = 0) (hfuel : 0 < fuel) :
    mkvClusterParseLoop buf fuel c d = some (.OK c d) := by
  obtain ⟨f, rfl⟩ : ∃ f, fuel = f + 1 := ⟨fuel - 1, by omega⟩
  rw [mkvClusterParseLoop]
  simp [ebmlEmpty, hleft]

theorem clusterElement_length (g : Nat) (body : List Nat) :
    (clusterElement g body).length = 4 + g + body.length := by
  simp [clusterElement, encodeVint_length]; omega

theorem timecodeElement_length (l n T : Nat) : (timecodeElement l n T).length = 1 + l + n := by
  simp [timecodeElement, encodeVint_length, encodeBE_length]; omega

theorem BytesAt_zero_self (xs : List Nat) : BytesAt xs 0 xs := by
  simp [BytesAt]

theorem BytesAt_payload {buf : List Nat} {pos : Nat} {p : List Nat} (h : BytesAt buf pos p) :
    (buf.drop pos).take p.length = p :=
  (List.prefix_iff_eq_take.mp h).symm

theorem ebmlReadSubElement_cluster {buf : List Nat} {d : EBMLData} {g : Nat} {body : List Nat}
    (hbuf : buf.length < 2 ^ 64) (hg1 : 1 ≤ g) (hg8 : g ≤ 8) (hbody : body.length < 2 ^ (7 * g))
    (hat : BytesAt buf d.pos (clusterElement g body)) (hleft : 4 + g + body.length ≤ d.left)
    (hl64 : d.left < 2 ^ 64) :
    ebmlReadSubElement buf d =
      .OK (advance d (4 + g + body.length)) (TagCluster, ebmlInit (d.pos + 4 + g) body.length) := by
  unfold clusterElement at hat
  rw [List.append_assoc, BytesAt_append, BytesAt_append] at hat
  obtain ⟨h1, h2, h3⟩ := hat
  have hpos : d.pos + 4 + g + body.length ≤ buf.length := by
    by_cases hb : body = []
    · have := BytesAt_length_le h2 (by
        intro h; have := congrArg List.length h; rw [encodeVint_length] at this; simp at this; omega)
      rw [encodeVint_length] at this
      simp [hb] at this ⊢; omega
    · have := BytesAt_length_le h3 hb
      rw [encodeVint_length] at this
      simp at this; omega
  have e : encodeBE 4 0x1F43B675 = [0x1F, 0x43, 0xB6, 0x75] := by decide
  have htag := @ebmlReadTag_at buf d 4 0x1F43B675 hbuf (by norm_num) (by norm_num) (by norm_num)
    (by norm_num) (by rw [e]; exact h1) (by omega) hl64
  have hsz := @ebmlUnserailizeUnsignedInt_at buf (advance d 4) g body.length hbuf hg1 hg8 hbody
    (by simpa [advance] using h2) (by simp [advance]; omega) (by simp [advance]; omega)
  unfold ebmlReadSubElement
  simp only [htag, hsz]
  have hc : (advance (advance d 4) g).left ≥ body.length := by simp [advance]; omega
  simp only [ebmlCheckLength, hc, decide_True, Bool.not_true, Bool.false_eq_true, if_false]
  simp only [advance, TagCluster]
  have q1 : add64 (d.pos + 4 + g) body.length = d.pos + (4 + g + body.length) := by
    unfold add64; omega
  have q2 : sub64 (d.left - 4 - g) body.length = d.left - (4 + g + body.length) := by
    unfold sub64; omega
  rw [q1, q2]

theorem mkvClusterParse_cluster {buf : List Nat} {c : MKVCluster} {d : EBMLData} {g : Nat}
    {body : List Nat}
    (hbuf : buf.length < 2 ^ 64) (hg1 : 1 ≤ g) (hg8 : g ≤ 8) (hbody : body.length < 2 ^ (7 * g))
    (hat : BytesAt buf d.pos (clusterElement g body)) (hleft : 4 + g + body.length ≤ d.left)
    (hl64 : d.left < 2 ^ 64) :
    mkvClusterParse buf c d =
      match mkvClusterParseLoop buf (body.length + 1) c (ebmlInit (d.pos + 4 + g) body.length) with
      | none => none
      | some (.OK c' _) => some (.OK c' (advance d (4 + g + body.length)))
      | some (.ERROR c' _) => some (.ERROR c' (advance d (4 + g + body.length)))
      | some .ABORT => some .ABORT := by
  unfold mkvClusterParse
  simp only [ebmlReadSubElement_cluster hbuf hg1 hg8 hbody hat hleft hl64, ne_eq,
    not_true_eq_false, if_false]
  rfl

theorem cluster_body_at {buf : List Nat} {pos g : Nat} {body : List Nat}
    (hat : BytesAt buf pos (clusterElement g body)) : BytesAt buf (pos + 4 + g) body := by
  unfold clusterElement at hat
  rw [BytesAt_append, List.length_append, encodeVint_length] at hat
  have := hat.2
  simpa [Nat.add_assoc] using this

theorem pow7_le_pow56 {g : Nat} (hg8 : g ≤ 8) : 2 ^ (7 * g) ≤ 2 ^ 56 :=
  Nat.pow_le_pow_right (by norm_num) (by omega)

theorem SimpleBlockSpec.payload_at {buf : List Nat} {pos : Nat} {b : SimpleBlockSpec}
    (hat : BytesAt buf pos b.element) : BytesAt buf (b.block pos).data b.payload := by
  unfold SimpleBlockSpec.element SimpleBlockSpec.body at hat
  simp only [BytesAt_append, List.length_append, encodeVint_length, encodeBE_length,
    List.length_singleton] at hat
  have := hat.2.2
  simp only [SimpleBlockSpec.block]
  have e : pos + 1 + b.l + b.m + 3 = pos + (1 + b.l) + (b.m + 2 + 1) := by omega
  rw [e]; exact this

/-! ## C1: the end-to-end scenario -/

/-- C1 (end-to-end decode): let the buffer hold exactly one Cluster element
(tag `0x1F43B675`, `g`-octet size VINT) whose body is a Timecode element
carrying `T` big-endian in `n` bytes (`1 ≤ n ≤ 8`), followed by a SimpleBlock
element carrying the track `t < 2 ^ 32` as an `m`-octet VINT, the 16-bit
timecode `tc`, the flags byte `f` and the payload `p`.  Parsed into a fresh
cluster of capacity `k ≥ 1`, `mkvClusterParse` returns `EBML_OK`, the caller's
cursor is at the end of the buffer, `timecode = T`, `n_blocks = 1`, and
`blocks[0]` has the track `t`, the timecode `tc`, the flags `f` and a payload
slice `(data, size)` whose bytes in the buffer are exactly `p`. -/
theorem C1_end_to_end_decode (T n l t m tc f s g k : Nat) (p buf : List Nat)
    (junk : Nat → MKVSimpleBlock)
    (hn1 : 1 ≤ n) (hn8 : n ≤ 8) (hT : T < 256 ^ n) (hl1 : 1 ≤ l) (hl8 : l ≤ 8)
    (hm1 : 1 ≤ m) (hm8 : m ≤ 8) (ht : t < 2 ^ (7 * m)) (ht32 : t < 2 ^ 32)
    (htc : tc < 2 ^ 16) (hf : f < 2 ^ 8)
    (hs1 : 1 ≤ s) (hs8 : s ≤ 8) (hsz : m + 3 + p.length < 2 ^ (7 * s))
    (hg1 : 1 ≤ g) (hg8 : g ≤ 8)
    (hbody : (timecodeElement l n T ++ SimpleBlockSpec.element ⟨s, m, t, tc, f, p⟩).length
      < 2 ^ (7 * g))
    (hk : 1 ≤ k)
    (hbuf : buf = clusterElement g
      (timecodeElement l n T ++ SimpleBlockSpec.element ⟨s, m, t, tc, f, p⟩)) :
    ∃ c' blk, mkvClusterParse buf (mkvClusterInit k junk) (ebmlInit 0 buf.length)
        = some (.OK c' (advance (ebmlInit 0 buf.length) buf.length)) ∧
      c'.timecode = T ∧ c'.n_blocks = 1 ∧ c'.blocks[0]? = some blk ∧
      blk.track = t ∧ blk.timecode = tc ∧ blk.flags = f ∧
      blk.size = p.length ∧ (buf.drop blk.data).take blk.size = p := by
  have hwf : SimpleBlockSpec.WF ⟨s, m, t, tc, f, p⟩ :=
    ⟨⟨hs1, hs8⟩, ⟨hm1, hm8⟩, ht, ht32, htc, hf, hsz⟩
  generalize hb : (⟨s, m, t, tc, f, p⟩ : SimpleBlockSpec) = b at hwf hbody hbuf
  have hp : p = b.payload := by rw [← hb]
  have htr : t = b.track := by rw [← hb]
  have htc' : tc = b.timecode := by rw [← hb]
  have hf' : f = b.flags := by rw [← hb]
  have h56 := pow7_le_pow56 hg8
  have hlen : buf.length = 4 + g + (timecodeElement l n T ++ b.element).length := by
    rw [hbuf, clusterElement_length]
  have hblen : (timecodeElement l n T ++ b.element).length = 1 + l + n + b.element.length := by
    rw [List.length_append, timecodeElement_length]
  have hb64 : buf.length < 2 ^ 64 := by omega
  have hat : BytesAt buf 0 (clusterElement g (timecodeElement l n T ++ b.element)) := by
    rw [hbuf]; exact BytesAt_zero_self _
  have hbodyat := cluster_body_at hat
  rw [BytesAt_append, timecodeElement_length] at hbodyat
  obtain ⟨hat1, hat2⟩ := hbodyat
  have hparse := @mkvClusterParse_cluster buf (mkvClusterInit k junk) (ebmlInit 0 buf.length) g
    (timecodeElement l n T ++ b.element) hb64 hg1 hg8 hbody hat (by simp [ebmlInit, timecodeElement_length]; omega)
    (by simpa [ebmlInit] using hb64)
  have hel := b.element_length
  have step1 := @mkvClusterParseLoop_timecode buf
    ((timecodeElement l n T ++ b.element).length + 1) (mkvClusterInit k junk)
    (ebmlInit ((ebmlInit 0 buf.length).pos + 4 + g) (timecodeElement l n T ++ b.element).length)
    l n T hb64 hl1 hl8 hn1 hn8 hT (by simpa [ebmlInit] using hat1) (by simp [ebmlInit, timecodeElement_length])
    (by simp [ebmlInit, timecodeElement_length]; omega) (by omega)
  have step2 := @mkvClusterParseLoop_simpleBlock buf
    ((timecodeElement l n T ++ b.element).length + 1 - 1)
    { mkvClusterInit k junk with timecode := T }
    (advance (ebmlInit ((ebmlInit 0 buf.length).pos + 4 + g)
      (timecodeElement l n T ++ b.element).length) (1 + l + n))
    b hb64 hwf (by simp [mkvClusterInit]; omega) (by simpa [ebmlInit, advance] using hat2)
    (by simp [ebmlInit, advance, timecodeElement_length]) (by simp [ebmlInit, advance, timecodeElement_length]; omega) (by omega)
  have step3 := @mkvClusterParseLoop_empty buf
    ((timecodeElement l n T ++ b.element).length + 1 - 1 - 1)
    { mkvClusterInit k junk with
        timecode := T,
        blocks := (mkvClusterInit k junk).blocks.set 0 (b.block (0 + 4 + g + (1 + l + n))),
        n_blocks := add64 0 1 }
    (advance (advance (ebmlInit ((ebmlInit 0 buf.length).pos + 4 + g)
      (timecodeElement l n T ++ b.element).length) (1 + l + n)) b.element.length)
    (by simp [ebmlInit, advance, timecodeElement_length]) (by omega)
  have hloop := step1.trans (step2.trans step3)
  rw [hparse, hloop, ← hlen]
  refine ⟨_, b.block (0 + 4 + g + (1 + l + n)), rfl, ?_, ?_, ?_, ?_, ?_, ?_, ?_, ?_⟩
  · rfl
  · rfl
  · show ((mkvClusterInit k junk).blocks.set 0 (b.block (0 + 4 + g + (1 + l + n))))[0]? = _
    rw [List.getElem?_set_self]
    simp [mkvClusterInit]; omega
  · exact htr.symm
  · exact htc'.symm
  · exact hf'.symm
  · rw [hp]; rfl
  · rw [hp]
    exact BytesAt_payload (SimpleBlockSpec.payload_at hat2)

/-- Witness of C1: `T = 1000`, track 1, block timecode 0, flags `0x80`,
payload `DE AD BE EF`, all VINTs of one octet, capacity 1. -/
theorem C1_end_to_end_decode_witness :
    ∃ c' blk, mkvClusterParse
        [0x1F, 0x43, 0xB6, 0x75, 0x8E, 0xE7, 0x82, 0x03, 0xE8,
         0xA3, 0x88, 0x81, 0x00, 0x00, 0x80, 0xDE, 0xAD, 0xBE, 0xEF]
        (mkvClusterInit 1 (fun _ => ⟨0, 0, 0, 0, 0⟩))
        (ebmlInit 0 [0x1F, 0x43, 0xB6, 0x75, 0x8E, 0xE7, 0x82, 0x03, 0xE8,
          0xA3, 0x88, 0x81, 0x00, 0x00, 0x80, 0xDE, 0xAD, 0xBE, 0xEF].length)
        = some (.OK c' (advance
            (ebmlInit 0 [0x1F, 0x43, 0xB6, 0x75, 0x8E, 0xE7, 0x82, 0x03, 0xE8,
              0xA3, 0x88, 0x81, 0x00, 0x00, 0x80, 0xDE, 0xAD, 0xBE, 0xEF].length)
            [0x1F, 0x43, 0xB6, 0x75, 0x8E, 0xE7, 0x82, 0x03, 0xE8,
              0xA3, 0x88, 0x81, 0x00, 0x00, 0x80, 0xDE, 0xAD, 0xBE, 0xEF].length)) ∧
      c'.timecode = 1000 ∧ c'.n_blocks = 1 ∧ c'.blocks[0]? = some blk ∧
      blk.track = 1 ∧ blk.timecode = 0 ∧ blk.flags = 0x80 ∧
      blk.size = [0xDE, 0xAD, 0xBE, 0xEF].length ∧
      ([0x1F, 0x43, 0xB6, 0x75, 0x8E, 0xE7, 0x82, 0x03, 0xE8,
        0xA3, 0x88, 0x81, 0x00, 0x00, 0x80, 0xDE, 0xAD, 0xBE, 0xEF].drop blk.data).take blk.size
        = [0xDE, 0xAD, 0xBE, 0xEF] :=
  C1_end_to_end_decode 1000 2 1 1 1 0 0x80 1 1 1 [0xDE, 0xAD, 0xBE, 0xEF]
    [0x1F, 0x43, 0xB6, 0x75, 0x8E, 0xE7, 0x82, 0x03, 0xE8,
     0xA3, 0x88, 0x81, 0x00, 0x00, 0x80, 0xDE, 0xAD, 0xBE, 0xEF]
    (fun _ => ⟨0, 0, 0, 0, 0⟩)
    (by decide) (by decide) (by decide) (by decide) (by decide) (by decide) (by decide)
    (by decide) (by decide) (by decide) (by decide) (by decide) (by decide) (by decide)
    (by decide) (by decide) (by decide) (by decide) (by decide)


/-! ## C5: an unknown child tag -/

/-- C5 (unknown child tag): let the buffer hold one Cluster element whose body
is a well-formed Timecode element with the value `T`, followed by a child that
starts with a `u`-octet tag `tag` that is none of `0xE7`, `0xA3`, `0x5854`,
`0xA7`, `0xAB`, `0xA0`, followed by any bytes `rest`.  Then `mkvClusterParse`
returns `EBML_ERROR` (the unknown element is not skipped), and the cluster it
leaves is the cluster it was given with `timecode = T`. -/
theorem C5_unknown_child_tag (T n l u tag g : Nat) (rest buf : List Nat) (c : MKVCluster)
    (hn1 : 1 ≤ n) (hn8 : n ≤ 8) (hT : T < 256 ^ n) (hl1 : 1 ≤ l) (hl8 : l ≤ 8)
    (hu1 : 1 ≤ u) (hu8 : u ≤ 8)
    (hlo : 2 ^ (8 - u) ≤ tag / 256 ^ (u - 1)) (hhi : tag / 256 ^ (u - 1) < 2 ^ (9 - u))
    (hunk : tag ∉ [0xE7, 0xA3, 0x5854, 0xA7, 0xAB, 0xA0])
    (hg1 : 1 ≤ g) (hg8 : g ≤ 8)
    (hbody : (timecodeElement l n T ++ (encodeBE u tag ++ rest)).length < 2 ^ (7 * g))
    (hbuf : buf = clusterElement g (timecodeElement l n T ++ (encodeBE u tag ++ rest))) :
    mkvClusterParse buf c (ebmlInit 0 buf.length) =
      some (.ERROR { c with timecode := T } (advance (ebmlInit 0 buf.length) buf.length)) := by
  have h56 := pow7_le_pow56 hg8
  have hlen : buf.length = 4 + g + (timecodeElement l n T ++ (encodeBE u tag ++ rest)).length := by
    rw [hbuf, clusterElement_length]
  have hblen : (timecodeElement l n T ++ (encodeBE u tag ++ rest)).length
      = 1 + l + n + (u + rest.length) := by
    simp only [List.length_append, timecodeElement_length, encodeBE_length]
  have hb64 : buf.length < 2 ^ 64 := by omega
  have hat : BytesAt buf 0 (clusterElement g (timecodeElement l n T ++ (encodeBE u tag ++ rest))) := by
    rw [hbuf]; exact BytesAt_zero_self _
  have hbodyat := cluster_body_at hat
  rw [BytesAt_append, timecodeElement_length, BytesAt_append] at hbodyat
  obtain ⟨hat1, hat2, _⟩ := hbodyat
  have hparse := @mkvClusterParse_cluster buf c (ebmlInit 0 buf.length) g
    (timecodeElement l n T ++ (encodeBE u tag ++ rest)) hb64 hg1 hg8 hbody hat
    (by simp only [ebmlInit]; omega) (by simpa [ebmlInit] using hb64)
  have step1 := @mkvClusterParseLoop_timecode buf
    ((timecodeElement l n T ++ (encodeBE u tag ++ rest)).length + 1) c
    (ebmlInit ((ebmlInit 0 buf.length).pos + 4 + g)
      (timecodeElement l n T ++ (encodeBE u tag ++ rest)).length)
    l n T hb64 hl1 hl8 hn1 hn8 hT (by simpa [ebmlInit] using hat1)
    (by simp only [ebmlInit]; omega) (by simp only [ebmlInit]; omega) (by omega)
  have step2 := @mkvClusterParseLoop_unknown buf
    ((timecodeElement l n T ++ (encodeBE u tag ++ rest)).length + 1 - 1)
    { c with timecode := T }
    (advance (ebmlInit ((ebmlInit 0 buf.length).pos + 4 + g)
      (timecodeElement l n T ++ (encodeBE u tag ++ rest)).length) (1 + l + n))
    u tag hb64 hu1 hu8 hlo hhi hunk (by simpa [ebmlInit, advance] using hat2)
    (by simp only [ebmlInit, advance]; omega) (by simp only [ebmlInit, advance]; omega)
    (by omega)
  rw [hparse, step1.trans step2, ← hlen]

/-- Witness of C5: Timecode 5, then the tag `0xEC` (Void) that the walker does
not know, into a cluster that held timecode 0. -/
theorem C5_unknown_child_tag_witness :
    mkvClusterParse [0x1F, 0x43, 0xB6, 0x75, 0x86, 0xE7, 0x81, 0x05, 0xEC, 0x81, 0x00]
        ⟨0, 1, 0, [⟨0, 0, 0, 0, 0⟩]⟩
        (ebmlInit 0 [0x1F, 0x43, 0xB6, 0x75, 0x86, 0xE7, 0x81, 0x05, 0xEC, 0x81, 0x00].length) =
      some (.ERROR { (⟨0, 1, 0, [⟨0, 0, 0, 0, 0⟩]⟩ : MKVCluster) with timecode := 5 }
        (advance
          (ebmlInit 0 [0x1F, 0x43, 0xB6, 0x75, 0x86, 0xE7, 0x81, 0x05, 0xEC, 0x81, 0x00].length)
          [0x1F, 0x43, 0xB6, 0x75, 0x86, 0xE7, 0x81, 0x05, 0xEC, 0x81, 0x00].length)) :=
  C5_unknown_child_tag 5 1 1 1 0xEC 1 [0x81, 0x00]
    [0x1F, 0x43, 0xB6, 0x75, 0x86, 0xE7, 0x81, 0x05, 0xEC, 0x81, 0x00] ⟨0, 1, 0, [⟨0, 0, 0, 0, 0⟩]⟩
    (by decide) (by decide) (by decide) (by decide) (by decide) (by decide) (by decide)
    (by decide) (by decide) (by decide) (by decide) (by decide) (by decide) (by decide)

/-! ## A run of SimpleBlock children -/

theorem encodeBlocks_append (xs ys : List SimpleBlockSpec) :
    encodeBlocks (xs ++ ys) = encodeBlocks xs ++ encodeBlocks ys := by
  induction xs with
  | nil => rfl
  | cons x xs ih => simp [encodeBlocks, ih]

theorem blocksOf_length (bs : List SimpleBlockSpec) (pos : Nat) :
    (blocksOf bs pos).length = bs.length := by
  induction bs generalizing pos with
  | nil => rfl
  | cons b bs ih => simp [blocksOf, ih]

theorem advance_zero (d : EBMLData) : advance d 0 = d := rfl

theorem mkvClusterParseLoop_blocks (buf : List Nat) (hbuf : buf.length < 2 ^ 64) :
    ∀ (bs : List SimpleBlockSpec) (c : MKVCluster) (d : EBMLData) (fuel : Nat),
      (∀ b ∈ bs, b.WF) → BytesAt buf d.pos (encodeBlocks bs) →
      (encodeBlocks bs).length ≤ d.left → d.left < 2 ^ 64 → d.left < fuel →
      c.n_blocks + bs.length ≤ c.allocated_blocks → c.allocated_blocks ≤ c.blocks.length →
      c.allocated_blocks < 2 ^ 64 →
      ∃ c', mkvClusterParseLoop buf fuel c d =
          mkvClusterParseLoop buf (fuel - bs.length) c' (advance d (encodeBlocks bs).length) ∧
        c'.timecode = c.timecode ∧ c'.allocated_blocks = c.allocated_blocks ∧
        c'.n_blocks = c.n_blocks + bs.length ∧ c'.blocks.length = c.blocks.length ∧
        (∀ i, i < c.n_blocks → c'.blocks[i]? = c.blocks[i]?) ∧
        (∀ j, j < bs.length → c'.blocks[c.n_blocks + j]? = (blocksOf bs d.pos)[j]?) := by
  intro bs
  induction bs with
  | nil =>
    intro c d fuel _ _ _ _ _ _ _ _
    exact ⟨c, rfl, rfl, rfl, rfl, rfl, fun _ _ => rfl, fun j hj => absurd hj (Nat.not_lt_zero _)⟩
  | cons b bs ih =>
    intro c d fuel hwf hat hleft hl64 hfuel hcap hlen h64
    have hwfb : b.WF := hwf b (List.mem_cons_self _ _)
    have hel := b.element_length
    simp only [encodeBlocks, List.length_append, List.length_cons] at hat hleft hcap ⊢
    rw [BytesAt_append] at hat
    have step := @mkvClusterParseLoop_simpleBlock buf fuel c d b hbuf hwfb (by omega) hat.1
      (by omega) hl64 (by omega)
    have hn1 : add64 c.n_blocks 1 = c.n_blocks + 1 := add64_of_lt (by omega)
    rw [hn1] at step
    obtain ⟨c', hloop, h1, h2, h3, h4, h5, h6⟩ := ih
      { c with blocks := c.blocks.set c.n_blocks (b.block d.pos), n_blocks := c.n_blocks + 1 }
      (advance d b.element.length) (fuel - 1)
      (fun x hx => hwf x (List.mem_cons_of_mem _ hx))
      (by simpa [advance] using hat.2) (by simp only [advance]; omega)
      (by simp only [advance]; omega) (by simp only [advance]; omega)
      (by simp only; omega) (by simpa using hlen) h64
    refine ⟨c', ?_, h1, h2, ?_, ?_, ?_, ?_⟩
    · rw [step, hloop, advance_advance]
      congr 1
      omega
    · simp only at h3; omega
    · simpa using h4
    · intro i hi
      rw [h5 i (by simp only; omega)]
      simp only
      rw [List.getElem?_set_ne (by omega)]
    · intro j hj
      cases j with
      | zero =>
        rw [Nat.add_zero, h5 c.n_blocks (by simp only; omega)]
        simp only [blocksOf]
        rw [List.getElem?_set_self (by omega)]
        simp
      | succ j =>
        have := h6 j (by omega)
        simp only [advance] at this
        simp only [blocksOf, List.getElem?_cons_succ]
        rw [← this]
        congr 1
        omega

theorem encodeBlocks_length_ge (bs : List SimpleBlockSpec) :
    bs.length ≤ (encodeBlocks bs).length := by
  induction bs with
  | nil => exact Nat.le_refl _
  | cons b bs ih =>
    have := b.element_length
    simp only [encodeBlocks, List.length_append, List.length_cons]
    omega

/-! ## C6: capacity enforcement -/

/-- C6 (capacity enforcement): let the buffer hold one Cluster element whose
body is `k + 1` well-formed SimpleBlock elements, the `k` elements `bs`
followed by `last`.  Parsed into the cluster made by `mkvClusterInit k`,
`mkvClusterParse` returns `EBML_ERROR`, and the cluster it leaves has
`n_blocks = k`, the capacity `k`, and as its block table the `k` blocks of
`bs` in order, each with its payload offset in the buffer. -/
theorem C6_capacity_enforcement (k g : Nat) (bs : List SimpleBlockSpec) (last : SimpleBlockSpec)
    (buf : List Nat) (junk : Nat → MKVSimpleBlock)
    (hk : bs.length = k) (hwf : ∀ b ∈ bs ++ [last], b.WF) (hg1 : 1 ≤ g) (hg8 : g ≤ 8)
    (hbody : (encodeBlocks (bs ++ [last])).length < 2 ^ (7 * g))
    (hbuf : buf = clusterElement g (encodeBlocks (bs ++ [last]))) :
    ∃ c', mkvClusterParse buf (mkvClusterInit k junk) (ebmlInit 0 buf.length) =
        some (.ERROR c' (advance (ebmlInit 0 buf.length) buf.length)) ∧
      c'.n_blocks = k ∧ c'.allocated_blocks = k ∧ c'.blocks = blocksOf bs (4 + g) := by
  have h56 := pow7_le_pow56 hg8
  have hlen : buf.length = 4 + g + (encodeBlocks (bs ++ [last])).length := by
    rw [hbuf, clusterElement_length]
  have hb64 : buf.length < 2 ^ 64 := by omega
  have hat : BytesAt buf 0 (clusterElement g (encodeBlocks (bs ++ [last]))) := by
    rw [hbuf]; exact BytesAt_zero_self _
  have hparse := @mkvClusterParse_cluster buf (mkvClusterInit k junk) (ebmlInit 0 buf.length) g
    (encodeBlocks (bs ++ [last])) hb64 hg1 hg8 hbody hat
    (by simp only [ebmlInit]; omega) (by simpa [ebmlInit] using hb64)
  have hbodyat := cluster_body_at hat
  have hge := encodeBlocks_length_ge bs
  have hlast := last.element_length
  have henc : encodeBlocks (bs ++ [last]) = encodeBlocks bs ++ last.element := by
    rw [encodeBlocks_append]; simp [encodeBlocks]
  rw [henc] at hbodyat hparse hbody hlen
  rw [List.length_append] at hbody hlen
  rw [BytesAt_append] at hbodyat
  obtain ⟨hat1, hat2⟩ := hbodyat
  have hat3 : BytesAt buf (0 + 4 + g + (encodeBlocks bs).length) [0xA3] := by
    unfold SimpleBlockSpec.element at hat2
    rw [List.append_assoc, BytesAt_append] at hat2
    exact hat2.1
  obtain ⟨c', hloop, _, h2, h3, h4, _, h6⟩ := mkvClusterParseLoop_blocks buf hb64 bs
    (mkvClusterInit k junk)
    (ebmlInit ((ebmlInit 0 buf.length).pos + 4 + g) (encodeBlocks bs ++ last.element).length)
    ((encodeBlocks bs ++ last.element).length + 1)
    (fun b hb => hwf b (List.mem_append_left _ hb)) (by simpa [ebmlInit] using hat1)
    (by simp [ebmlInit]) (by simp only [ebmlInit, List.length_append]; omega)
    (by simp only [ebmlInit]; omega) (by simp only [mkvClusterInit]; omega)
    (by simp [mkvClusterInit]) (by simp only [mkvClusterInit]; omega)
  have hfull := @mkvClusterParseLoop_full buf ((encodeBlocks bs ++ last.element).length + 1 - bs.length)
    c' (advance (ebmlInit ((ebmlInit 0 buf.length).pos + 4 + g)
      (encodeBlocks bs ++ last.element).length) (encodeBlocks bs).length)
    (by rw [h2, h3]; simp only [mkvClusterInit]; omega)
    (by simpa [ebmlInit, advance] using hat3) hb64
    (by simp only [ebmlInit, advance, List.length_append]; omega)
    (by simp only [ebmlInit, advance, List.length_append]; omega)
    (by simp only [List.length_append]; omega)
  rw [hparse, hloop, hfull, List.length_append, ← hlen]
  refine ⟨c', rfl, ?_, ?_, ?_⟩
  · rw [h3]; simp only [mkvClusterInit]; omega
  · rw [h2]; rfl
  · apply List.ext_getElem?
    intro i
    by_cases hi : i < bs.length
    · have := h6 i hi
      simp only [mkvClusterInit, ebmlInit, Nat.zero_add] at this
      rw [this]
    · have hl1 : c'.blocks.length = k := by rw [h4]; simp [mkvClusterInit]
      rw [List.getElem?_eq_none (by omega), List.getElem?_eq_none (by rw [blocksOf_length]; omega)]

/-- Witness of C6: capacity 1 and two SimpleBlock elements,
`A3 85 81 00 00 80 AA` and `A3 84 82 00 00 00`. -/
theorem C6_capacity_enforcement_witness :
    ∃ c', mkvClusterParse
        [0x1F, 0x43, 0xB6, 0x75, 0x8D, 0xA3, 0x85, 0x81, 0x00, 0x00, 0x80, 0xAA,
         0xA3, 0x84, 0x82, 0x00, 0x00, 0x00]
        (mkvClusterInit 1 (fun _ => ⟨0, 0, 0, 0, 0⟩))
        (ebmlInit 0 [0x1F, 0x43, 0xB6, 0x75, 0x8D, 0xA3, 0x85, 0x81, 0x00, 0x00, 0x80, 0xAA,
         0xA3, 0x84, 0x82, 0x00, 0x00, 0x00].length) =
        some (.ERROR c' (advance
          (ebmlInit 0 [0x1F, 0x43, 0xB6, 0x75, 0x8D, 0xA3, 0x85, 0x81, 0x00, 0x00, 0x80, 0xAA,
            0xA3, 0x84, 0x82, 0x00, 0x00, 0x00].length)
          [0x1F, 0x43, 0xB6, 0x75, 0x8D, 0xA3, 0x85, 0x81, 0x00, 0x00, 0x80, 0xAA,
            0xA3, 0x84, 0x82, 0x00, 0x00, 0x00].length)) ∧
      c'.n_blocks = 1 ∧ c'.allocated_blocks = 1 ∧
      c'.blocks = blocksOf [⟨1, 1, 1, 0, 0x80, [0xAA]⟩] (4 + 1) :=
  C6_capacity_enforcement 1 1 [⟨1, 1, 1, 0, 0x80, [0xAA]⟩] ⟨1, 1, 2, 0, 0, []⟩
    [0x1F, 0x43, 0xB6, 0x75, 0x8D, 0xA3, 0x85, 0x81, 0x00, 0x00, 0x80, 0xAA,
     0xA3, 0x84, 0x82, 0x00, 0x00, 0x00]
    (fun _ => ⟨0, 0, 0, 0, 0⟩) (by decide) (by decide) (by decide) (by decide) (by decide)
    (by decide)

/-! ## C8: payload slices -/

/-- C8 (payload slices stay inside the buffer) fails on the code: the Cluster
`1F 43 B6 75 86 | A3 80 | A0 82 00 00` holds a SimpleBlock whose declared size
is 0, followed by a BlockGroup.  `mkvClusterHandleSimpleBlock` reads the block
header out of the four bytes that follow the empty element, computes
`binaryLength = 0 - 4` in `size_t`, and steps the cursor back over them.
`mkvClusterParse` returns `EBML_OK` with one block whose payload slice starts at
offset 11, the end of the 11-byte buffer, and has size `2 ^ 64 - 4`. -/
theorem C8_payload_slice_leaves_buffer :
    mkvClusterParse [0x1F, 0x43, 0xB6, 0x75, 0x86, 0xA3, 0x80, 0xA0, 0x82, 0x00, 0x00]
        (mkvClusterInit 1 (fun _ => ⟨0, 0, 0, 0, 0⟩)) (ebmlInit 0 11) =
      some (.OK ⟨0, 1, 1, [⟨0x20, 0x8200, 0, 2 ^ 64 - 4, 11⟩]⟩ ⟨11, 0, 11, 0⟩) ∧
    ¬ (11 + (2 ^ 64 - 4) ≤ [0x1F, 0x43, 0xB6, 0x75, 0x86, 0xA3, 0x80, 0xA0, 0x82, 0x00, 0x00].length) := by
  decide

/-! ## C12 and C11: the length descriptor and the element reader -/

theorem log2_byte {d : Nat} (h : d < 256) (h0 : d ≠ 0) :
    Nat.log2 d ≤ 7 ∧ 2 ^ (8 - (8 - Nat.log2 d)) ≤ d ∧ d < 2 ^ (9 - (8 - Nat.log2 d)) := by
  have h1 : Nat.log2 d < 8 := (Nat.log2_lt h0).2 (by norm_num; omega)
  have e1 : 8 - (8 - Nat.log2 d) = Nat.log2 d := by omega
  have e2 : 9 - (8 - Nat.log2 d) = Nat.log2 d + 1 := by omega
  rw [e1, e2]
  exact ⟨by omega, Nat.log2_self_le h0, Nat.lt_log2_self⟩

theorem ebmlReadIntLenScan_zero : ebmlReadIntLenScan 0 = none := by rfl

/-- C12 (length-descriptor failure condition): `ebmlReadIntLen` returns
`EBML_ERROR` if and only if the cursor is empty or its next byte is `0x00`; on
a non-empty cursor with a non-zero next byte `d` it returns `EBML_OK` with
`len = 8 - floor(log2 d)`, which lies in 1..8, and leaves the cursor as it
was; `d = 1` gives 8. -/
theorem C12_length_descriptor_failure (buf : List Nat) (data : EBMLData) :
    ((ebmlReadIntLen buf data).status = .EBML_ERROR ↔
      data.left = 0 ∨ buf.getD data.pos 0 % 256 = 0) ∧
    (data.left ≠ 0 → buf.getD data.pos 0 % 256 ≠ 0 →
      ebmlReadIntLen buf data =
        .OK data ((8 - Nat.log2 (buf.getD data.pos 0 % 256) : Nat) : Int) ∧
      1 ≤ 8 - Nat.log2 (buf.getD data.pos 0 % 256) ∧
      8 - Nat.log2 (buf.getD data.pos 0 % 256) ≤ 8) ∧
    (data.left ≠ 0 → buf.getD data.pos 0 % 256 = 1 → ebmlReadIntLen buf data = .OK data 8) := by
  have hd : buf.getD data.pos 0 % 256 < 256 := Nat.mod_lt _ (by norm_num)
  have hok : data.left ≠ 0 → buf.getD data.pos 0 % 256 ≠ 0 →
      ebmlReadIntLen buf data =
        .OK data ((8 - Nat.log2 (buf.getD data.pos 0 % 256) : Nat) : Int) := by
    intro h0 hz
    obtain ⟨hl, hlo, hhi⟩ := log2_byte hd hz
    exact ebmlReadIntLen_of_range buf data (by omega) rfl (by omega) (by omega) hlo hhi
  refine ⟨?_, ?_, ?_⟩
  · constructor
    · intro h
      by_contra hc
      rw [not_or] at hc
      rw [hok hc.1 hc.2] at h
      cases h
    · rintro (h0 | hz)
      · rw [ebmlReadIntLen_empty buf data h0]; rfl
      · unfold ebmlReadIntLen
        split
        · rfl
        · rw [hz, ebmlReadIntLenScan_zero]; rfl
  · intro h0 hz
    obtain ⟨hl, _, _⟩ := log2_byte hd hz
    exact ⟨hok h0 hz, by omega, by omega⟩
  · intro h0 hz
    exact ebmlReadIntLen_of_range buf data (by omega) hz (by norm_num) (by norm_num)
      (by norm_num) (by norm_num)


/-- Witness of C12: the byte `0x1F` has `log2 = 4` and announces 4 octets, the
byte `0x01` announces 8, and the byte `0x00` is refused. -/
theorem C12_length_descriptor_failure_witness :
    (ebmlReadIntLen [0x1F] (ebmlInit 0 1) =
        .OK (ebmlInit 0 1) ((8 - Nat.log2 ([0x1F].getD (ebmlInit 0 1).pos 0 % 256) : Nat) : Int) ∧
      1 ≤ 8 - Nat.log2 ([0x1F].getD (ebmlInit 0 1).pos 0 % 256) ∧
      8 - Nat.log2 ([0x1F].getD (ebmlInit 0 1).pos 0 % 256) ≤ 8) ∧
    Nat.log2 0x1F = 4 ∧
    ebmlReadIntLen [0x01] (ebmlInit 0 1) = .OK (ebmlInit 0 1) 8 ∧
    (ebmlReadIntLen [0x00] (ebmlInit 0 1)).status = .EBML_ERROR :=
  ⟨(C12_length_descriptor_failure [0x1F] (ebmlInit 0 1)).2.1 (by decide) (by decide),
   by simp [Nat.log2],
   (C12_length_descriptor_failure [0x01] (ebmlInit 0 1)).2.2 (by decide) (by decide),
   (C12_length_descriptor_failure [0x00] (ebmlInit 0 1)).1.2 (Or.inr (by decide))⟩

theorem ebmlReadSubElement_ok_iff (buf : List Nat) (d : EBMLData) :
    (ebmlReadSubElement buf d).status = .EBML_OK ↔
      ∃ d1 tag d2 size, ebmlReadTag buf d = .OK d1 tag ∧
        ebmlUnserailizeUnsignedInt buf d1 = .OK d2 size ∧ size ≤ d2.left := by
  unfold ebmlReadSubElement
  cases h1 : ebmlReadTag buf d with
  | ERROR d1 => simp [Ret.status]
  | OK d1 tag =>
    cases h2 : ebmlUnserailizeUnsignedInt buf d1 with
    | ERROR d2 => simp [h2, Ret.status]
    | OK d2 size =>
      by_cases hc : size ≤ d2.left
      · simp only [h2, ebmlCheckLength, ge_iff_le, hc, decide_True, Bool.not_true,
          Bool.false_eq_true, if_false, Ret.status, true_iff]
        exact ⟨d1, tag, d2, size, rfl, h2, hc⟩
      · simp only [h2, ebmlCheckLength, ge_iff_le, hc, decide_False, Bool.not_false, if_true,
          Ret.status]
        constructor
        · intro h; cases h
        · rintro ⟨_, _, _, _, e1, e2, e3⟩
          cases e1
          rw [h2] at e2
          cases e2
          exact absurd e3 hc

/-- C11 (element read): on a cursor whose fields are 64-bit values,
`ebmlReadSubElement` returns `EBML_OK` exactly when the tag decodes, then the
size VINT decodes, and the declared size does not exceed the bytes that remain
after them.  When the tag (of `a` bytes) and the size (of `b` bytes) decode:
if the declared size exceeds what remains the call returns `EBML_ERROR`;
otherwise it returns the raw tag and the sub-cursor `ebmlInit` at the byte
right after the size field with `len = left = size`, and the parent cursor
has moved forward by exactly `a + b + size` bytes. -/
theorem C11_element_read (buf : List Nat) (d : EBMLData)
    (hv : d.pos < 2 ^ 64 ∧ d.left < 2 ^ 64) :
    ((ebmlReadSubElement buf d).status = .EBML_OK ↔
      ∃ d1 tag d2 size, ebmlReadTag buf d = .OK d1 tag ∧
        ebmlUnserailizeUnsignedInt buf d1 = .OK d2 size ∧ size ≤ d2.left) ∧
    ∀ d1 tag d2 size, ebmlReadTag buf d = .OK d1 tag →
      ebmlUnserailizeUnsignedInt buf d1 = .OK d2 size →
      (d2.left < size → ebmlReadSubElement buf d = .ERROR d2) ∧
      (size ≤ d2.left →
        ∃ a b d', (1 ≤ a ∧ a ≤ 8) ∧ (1 ≤ b ∧ b ≤ 8) ∧
          d1.pos = (d.pos + a) % 2 ^ 64 ∧ d2.pos = (d.pos + (a + b)) % 2 ^ 64 ∧
          d2.left = d.left - (a + b) ∧
          ebmlReadSubElement buf d = .OK d' (tag, ebmlInit d2.pos size) ∧
          (ebmlInit d2.pos size).pos = d2.pos ∧ (ebmlInit d2.pos size).len = size ∧
          (ebmlInit d2.pos size).left = size ∧
          a + b + size ≤ d.left ∧ d'.left = d.left - (a + b + size) ∧
          d'.pos = (d.pos + (a + b + size)) % 2 ^ 64 ∧ d'.org = d.org ∧ d'.len = d.len) := by
  refine ⟨ebmlReadSubElement_ok_iff buf d, ?_⟩
  intro d1 tag d2 size h1 h2
  have hv' : d.Valid := hv
  rcases ebmlReadTag_cases buf d hv' with e | ⟨d1', tag', a, e, ha1, ha8, ha⟩
  · rw [e] at h1; cases h1
  rw [h1] at e
  cases e
  have hv1 := ha.valid_after hv'
  rcases ebmlUnserailizeUnsignedInt_cases buf d1 hv1 with e | ⟨d2', size', b, e, hb1, hb8, hb⟩
  · rw [e] at h2; cases h2
  rw [h2] at e
  cases e
  have hab := ha.comp hb
  constructor
  · intro hlt
    have hc : ¬ (d2.left ≥ size) := by omega
    simp [ebmlReadSubElement, h1, h2, ebmlCheckLength, hc]
  · intro hle
    have hs := hab.skip hv' hle
    refine ⟨a, b, _, ⟨ha1, ha8⟩, ⟨hb1, hb8⟩, ha.2.2.2.2, hab.2.2.2.2, hab.2.2.2.1, ?_, rfl, rfl,
      rfl, hs.2.2.1, hs.2.2.2.1, hs.2.2.2.2, hs.1, hs.2.1⟩
    have hc : d2.left ≥ size := hle
    simp [ebmlReadSubElement, h1, h2, ebmlCheckLength, hc]

/-- Witness of C11: a Cluster header declaring 2 body bytes, on a buffer that
holds 3 more bytes and on one that holds only 1. -/
theorem C11_element_read_witness :
    (ebmlReadSubElement [0x1F, 0x43, 0xB6, 0x75, 0x82, 0xAA, 0xBB, 0xCC] (ebmlInit 0 8)).status
      = .EBML_OK ∧
    ebmlReadSubElement [0x1F, 0x43, 0xB6, 0x75, 0x82, 0xAA, 0xBB, 0xCC] (ebmlInit 0 8)
      = .OK ⟨7, 0, 8, 1⟩ (0x1F43B675, ⟨5, 5, 2, 2⟩) ∧
    ebmlReadSubElement [0x1F, 0x43, 0xB6, 0x75, 0x82, 0xAA] (ebmlInit 0 6) = .ERROR ⟨5, 0, 6, 1⟩ :=
  ⟨(C11_element_read [0x1F, 0x43, 0xB6, 0x75, 0x82, 0xAA, 0xBB, 0xCC] (ebmlInit 0 8)
      (by decide)).1.2 ⟨⟨4, 0, 8, 4⟩, 0x1F43B675, ⟨5, 0, 8, 3⟩, 2, by decide, by decide, by decide⟩,
   by decide,
   ((C11_element_read [0x1F, 0x43, 0xB6, 0x75, 0x82, 0xAA] (ebmlInit 0 6) (by decide)).2
      ⟨4, 0, 6, 2⟩ 0x1F43B675 ⟨5, 0, 6, 1⟩ 2 (by decide) (by decide)).1 (by decide)⟩

/-! ## C13 and C14: the values that the decoder returns -/

theorem beFold_eq (xs : List Nat) : ∀ ret : Nat,
    xs.foldl (fun acc b => acc * 256 + b % 256) ret = ret * 256 ^ xs.length + beValue xs := by
  induction xs with
  | nil => intro ret; simp [beValue]
  | cons x xs ih =>
    intro ret
    simp only [List.foldl_cons, List.length_cons, beValue]
    rw [ih, ih (0 * 256 + x % 256)]
    simp only [beValue]
    rw [pow_succ]; ring

theorem beValue_cons (x : Nat) (xs : List Nat) :
    beValue (x :: xs) = x % 256 * 256 ^ xs.length + beValue xs := by
  have := beFold_eq xs (0 * 256 + x % 256)
  simp only [beValue, List.foldl_cons] at this ⊢
  rw [this]; ring

theorem beValue_lt (xs : List Nat) : beValue xs < 256 ^ xs.length := by
  induction xs with
  | nil => simp [beValue]
  | cons x xs ih =>
    rw [beValue_cons, List.length_cons, pow_succ]
    have : x % 256 < 256 := Nat.mod_lt _ (by norm_num)
    nlinarith

theorem take_drop_succ {buf : List Nat} {pos n : Nat} (h : pos < buf.length) :
    (buf.drop pos).take (n + 1) = buf.getD pos 0 :: (buf.drop (pos + 1)).take n := by
  rw [List.drop_eq_getElem_cons h, List.take_succ_cons, List.getD_eq_getElem _ _ h]

theorem ebmlReadBytes_value (buf : List Nat) (hbuf : buf.length < 2 ^ 64) :
    ∀ (n : Nat) (d : EBMLData) (ret : Nat), d.pos + n ≤ buf.length → n ≤ d.left →
      d.left < 2 ^ 64 → (ret + 1) * 256 ^ n ≤ 2 ^ 64 →
      ebmlReadBytes buf n d ret =
        (advance d n, ret * 256 ^ n + beValue ((buf.drop d.pos).take n)) := by
  intro n
  induction n with
  | zero => intro d ret _ _ _ _; simp [ebmlReadBytes, advance, beValue]
  | succ n ih =>
    intro d ret hin hleft hl64 hret
    have hpos : 0 < 256 ^ n := Nat.pow_pos (by norm_num)
    have hret1 : ret * 256 < 2 ^ 64 := by
      have : (ret + 1) * 256 ≤ (ret + 1) * 256 ^ (n + 1) := by
        apply Nat.mul_le_mul_left
        rw [pow_succ]; exact Nat.le_mul_of_pos_left _ hpos
      omega
    have hb : buf.getD d.pos 0 % 256 < 256 := Nat.mod_lt _ (by norm_num)
    have hlt : d.pos < buf.length := by omega
    unfold ebmlReadBytes
    simp only [ebmlRead8_at ⟨hlt, rfl⟩ (by omega) hl64 hbuf, Nat.mod_mod]
    rw [shl8_or hret1 hb]
    rw [ih (advance d 1) _ (by simp only [advance]; omega) (by simp only [advance]; omega)
      (by simp only [advance]; omega) ?_]
    · rw [advance_advance, take_drop_succ hlt, beValue_cons]
      have hlen : ((buf.drop (d.pos + 1)).take n).length = n := by
        rw [List.length_take, List.length_drop]; omega
      simp only [advance, hlen, Prod.mk.injEq, EBMLData.mk.injEq, true_and]
      refine ⟨⟨by omega, by omega⟩, ?_⟩
      rw [pow_succ]; ring
    · calc (ret * 256 + buf.getD d.pos 0 % 256 + 1) * 256 ^ n
          ≤ (ret * 256 + 256) * 256 ^ n := Nat.mul_le_mul_right _ (by omega)
        _ = (ret + 1) * 256 ^ (n + 1) := by rw [pow_succ]; ring
        _ ≤ 2 ^ 64 := hret

theorem ebmlReadIntLen_ok {buf : List Nat} {data d' : EBMLData} {len : Int}
    (h : ebmlReadIntLen buf data = .OK d' len) :
    d' = data ∧ 1 ≤ data.left ∧ buf.getD data.pos 0 % 256 ≠ 0 ∧
      len = ((8 - Nat.log2 (buf.getD data.pos 0 % 256) : Nat) : Int) := by
  have hd : buf.getD data.pos 0 % 256 < 256 := Nat.mod_lt _ (by norm_num)
  by_cases h0 : data.left = 0
  · rw [ebmlReadIntLen_empty buf data h0] at h; cases h
  by_cases hz : buf.getD data.pos 0 % 256 = 0
  · unfold ebmlReadIntLen at h
    rw [hz, ebmlReadIntLenScan_zero] at h
    split at h <;> cases h
  obtain ⟨hl, hlo, hhi⟩ := log2_byte hd hz
  rw [ebmlReadIntLen_of_range buf data (by omega) rfl (by omega) (by omega) hlo hhi] at h
  cases h
  exact ⟨rfl, by omega, hz, rfl⟩

theorem ebmlUnserialize_value {buf : List Nat} {data : EBMLData} {n : Nat}
    (hbuf : buf.length < 2 ^ 64) (h8 : n ≤ 8) (hin : data.pos + n ≤ buf.length)
    (hleft : n ≤ data.left) (hl64 : data.left < 2 ^ 64) :
    ebmlUnserialize buf data (n : Int) =
      .OK (advance data n) (beValue ((buf.drop data.pos).take n)) := by
  unfold ebmlUnserialize ebmlCheckLength
  have h1 : intToSize (n : Int) = n := intToSize_ofNat (by omega)
  have h2 : (0 + 1) * 256 ^ n ≤ 2 ^ 64 := by
    have : 256 ^ n ≤ 256 ^ 8 := Nat.pow_le_pow_right (by norm_num) h8
    norm_num at this ⊢; omega
  simp [h1, hleft, ebmlReadBytes_value buf hbuf n data 0 hin hleft hl64 h2]

/-- C13 (tags are read raw): on a cursor that lies in the buffer, whose next
byte `d` is not zero and which holds at least `n = 8 - floor(log2 d)` bytes,
`ebmlReadTag` returns `EBML_OK`, moves the cursor forward by exactly `n`
bytes, and returns the big-endian value of those `n` bytes, length-marker bits
included. -/
theorem C13_tags_are_read_raw (buf : List Nat) (data : EBMLData)
    (hbuf : buf.length < 2 ^ 64) (hin : data.pos + data.left ≤ buf.length)
    (hd : buf.getD data.pos 0 % 256 ≠ 0)
    (hn : 8 - Nat.log2 (buf.getD data.pos 0 % 256) ≤ data.left) :
    ebmlReadTag buf data =
      .OK (advance data (8 - Nat.log2 (buf.getD data.pos 0 % 256)))
        (beValue ((buf.drop data.pos).take (8 - Nat.log2 (buf.getD data.pos 0 % 256)))) := by
  have hd256 : buf.getD data.pos 0 % 256 < 256 := Nat.mod_lt _ (by norm_num)
  obtain ⟨hl, hlo, hhi⟩ := log2_byte hd256 hd
  have hlen := ebmlReadIntLen_of_range buf data (by omega) rfl (by omega) (by omega) hlo hhi
  unfold ebmlReadTag
  simp only [hlen]
  exact ebmlUnserialize_value hbuf (by omega) (by omega) hn (by omega)

/-- Witness of C13: `1F 43 B6 75` gives `0x1F43B675`, `E7` gives `0xE7`,
`58 54` gives `0x5854`. -/
theorem C13_tags_are_read_raw_witness :
    ebmlReadTag [0x1F, 0x43, 0xB6, 0x75] (ebmlInit 0 4) =
      .OK (advance (ebmlInit 0 4) (8 - Nat.log2 ([0x1F, 0x43, 0xB6, 0x75].getD (ebmlInit 0 4).pos 0 % 256)))
        (beValue (([0x1F, 0x43, 0xB6, 0x75].drop (ebmlInit 0 4).pos).take
          (8 - Nat.log2 ([0x1F, 0x43, 0xB6, 0x75].getD (ebmlInit 0 4).pos 0 % 256)))) ∧
    ebmlReadTag [0x1F, 0x43, 0xB6, 0x75] (ebmlInit 0 4) = .OK ⟨4, 0, 4, 0⟩ 0x1F43B675 ∧
    ebmlReadTag [0xE7] (ebmlInit 0 1) = .OK ⟨1, 0, 1, 0⟩ 0xE7 ∧
    ebmlReadTag [0x58, 0x54] (ebmlInit 0 2) = .OK ⟨2, 0, 2, 0⟩ 0x5854 :=
  ⟨C13_tags_are_read_raw [0x1F, 0x43, 0xB6, 0x75] (ebmlInit 0 4) (by decide) (by decide)
      (by decide) (by simp [Nat.log2, ebmlInit]),
   by decide, by decide, by decide⟩

theorem ebmlUnserailizeUnsignedInt_value {buf : List Nat} {data d' : EBMLData} {v : Nat}
    (hbuf : buf.length < 2 ^ 64) (hin : data.pos + data.left ≤ buf.length)
    (hok : ebmlUnserailizeUnsignedInt buf data = .OK d' v) :
    ∃ n : Nat, (1 ≤ n ∧ n ≤ 8) ∧ n = 8 - Nat.log2 (buf.getD data.pos 0 % 256) ∧
      buf.getD data.pos 0 % 256 ≠ 0 ∧ n ≤ data.left ∧
      ebmlReadIntLen buf data = .OK data (n : Int) ∧ d' = advance data n ∧
      v = (buf.getD data.pos 0 % 256) % 2 ^ (8 - n) * 256 ^ (n - 1) +
        beValue ((buf.drop (data.pos + 1)).take (n - 1)) ∧
      v = beValue ((buf.drop data.pos).take n) % 2 ^ (7 * n) ∧ v < 2 ^ (7 * n) := by
  have hd256 : buf.getD data.pos 0 % 256 < 256 := Nat.mod_lt _ (by norm_num)
  unfold ebmlUnserailizeUnsignedInt at hok
  cases hlen : ebmlReadIntLen buf data with
  | ERROR d1 => rw [hlen] at hok; cases hok
  | OK d1 len =>
    obtain ⟨hd1, hleft1, hz, hlenv⟩ := ebmlReadIntLen_ok hlen
    subst hd1
    obtain ⟨hl, hlo, hhi⟩ := log2_byte hd256 hz
    generalize hn : 8 - Nat.log2 (buf.getD d1.pos 0 % 256) = n at hlenv hlo hhi
    have hn1 : 1 ≤ n := by omega
    have hn8 : n ≤ 8 := by omega
    subst hlenv
    rw [hlen] at hok
    simp only [ebmlCheckLength] at hok
    have hsz : intToSize (n : Int) = n := intToSize_ofNat (by omega)
    rw [hsz] at hok
    by_cases hc : d1.left ≥ n
    · simp only [hc, decide_True, Bool.not_true, Bool.false_eq_true, if_false] at hok
      have hlt : d1.pos < buf.length := by omega
      have hl64 : d1.left < 2 ^ 64 := by omega
      have hr := @ebmlRead8_at buf d1 _ ⟨hlt, rfl⟩ hleft1 hl64 hbuf
      rw [hr] at hok
      simp only [Nat.mod_mod] at hok
      obtain ⟨m, rfl⟩ : ∃ m, n = m + 1 := ⟨n - 1, by omega⟩
      have e1 : (((m + 1 : Nat) : Int) - 1).toNat = m := by omega
      have e2 : (((m + 1 : Nat) : Int)).toNat = m + 1 := by omega
      have e3 : (if ((m + 1 : Nat) : Int) ≠ 8 then
          buf.getD d1.pos 0 % 256 &&& 255 >>> (m + 1) else 0) =
          buf.getD d1.pos 0 % 256 % 2 ^ (8 - (m + 1)) := by
        by_cases h : m + 1 = 8
        · have : m = 7 := by omega
          subst this
          simp [Nat.mod_one]
        · have h' : ((m + 1 : Nat) : Int) ≠ 8 := by omega
          rw [if_pos h']
          exact and_mask_eq_mod (by omega) (by omega) _
      rw [e1, e2, e3] at hok
      have hm : m ≤ 7 := by omega
      have hfit : (buf.getD d1.pos 0 % 256 % 2 ^ (8 - (m + 1)) + 1) * 256 ^ m ≤ 2 ^ 64 := by
        interval_cases m <;> simp <;> omega
      rw [ebmlReadBytes_value buf hbuf m (advance d1 1) _ (by simp only [advance]; omega)
        (by simp only [advance]; omega) (by simp only [advance]; omega) hfit] at hok
      simp only [Ret.OK.injEq, advance_advance] at hok
      obtain ⟨hd', hv⟩ := hok
      have hR := beValue_lt ((buf.drop (d1.pos + 1)).take m)
      have hlenR : ((buf.drop (d1.pos + 1)).take m).length = m := by
        rw [List.length_take, List.length_drop]; omega
      rw [hlenR] at hR
      have hall : beValue ((buf.drop d1.pos).take (m + 1)) =
          buf.getD d1.pos 0 % 256 * 256 ^ m + beValue ((buf.drop (d1.pos + 1)).take m) := by
        rw [take_drop_succ hlt, beValue_cons, hlenR]
      simp only [advance] at hv
      refine ⟨m + 1, ⟨hn1, hn8⟩, rfl, hz, hc, rfl, ?_, ?_, ?_, ?_⟩
      · rw [← hd', Nat.add_comm 1 m]
      · rw [← hv]; simp
      · rw [hall, ← hv]
        generalize beValue ((buf.drop (d1.pos + 1)).take m) = R at hR hv ⊢
        generalize buf.getD d1.pos 0 % 256 = b at hlo hhi hv ⊢
        interval_cases m <;> simp at hlo hhi hR ⊢ <;> omega
      · rw [← hv]
        generalize beValue ((buf.drop (d1.pos + 1)).take m) = R at hR hv ⊢
        generalize buf.getD d1.pos 0 % 256 = b at hlo hhi hv ⊢
        interval_cases m <;> simp at hlo hhi hR ⊢ <;> omega
    · simp only [hc, decide_False, Bool.not_false, if_true] at hok
      cases hok

/-- C14 (size-VINT reference value): on a cursor that lies in the buffer,
whenever `ebmlUnserailizeUnsignedInt` returns `EBML_OK` with the value `v`,
the descriptor announced some `n` in 1..8, the cursor moved forward by exactly
`n` bytes, and `v` is the big-endian value of those `n` bytes modulo
`2 ^ (7 * n)`: for `n ≤ 7` the first byte keeps its low `8 - n` bits, for
`n = 8` the first byte is dropped and `v` is the value of the next 7 bytes.
Hence `v < 2 ^ (7 * n) ≤ 2 ^ 56`. -/
theorem C14_size_vint_reference_value (buf : List Nat) (data d' : EBMLData) (v : Nat)
    (hbuf : buf.length < 2 ^ 64) (hin : data.pos + data.left ≤ buf.length)
    (hok : ebmlUnserailizeUnsignedInt buf data = .OK d' v) :
    ∃ n : Nat, (1 ≤ n ∧ n ≤ 8) ∧ ebmlReadIntLen buf data = .OK data (n : Int) ∧
      d' = advance data n ∧
      v = beValue ((buf.drop data.pos).take n) % 2 ^ (7 * n) ∧
      (n ≤ 7 → v = beValue
        ((buf.getD data.pos 0 % 2 ^ (8 - n)) :: (buf.drop (data.pos + 1)).take (n - 1))) ∧
      (n = 8 → v = beValue ((buf.drop (data.pos + 1)).take 7)) ∧
      v < 2 ^ (7 * n) ∧ 2 ^ (7 * n) ≤ 2 ^ 56 := by
  obtain ⟨n, ⟨hn1, hn8⟩, _, _, hleft, hlen, hd', hv, hmod, hlt⟩ :=
    ebmlUnserailizeUnsignedInt_value hbuf hin hok
  refine ⟨n, ⟨hn1, hn8⟩, hlen, hd', hmod, ?_, ?_, hlt, pow7_le_pow56 hn8⟩
  · intro h7
    have hlenR : ((buf.drop (data.pos + 1)).take (n - 1)).length = n - 1 := by
      rw [List.length_take, List.length_drop]; omega
    rw [beValue_cons, hlenR, hv]
    congr 2
    generalize buf.getD data.pos 0 = b
    interval_cases n <;> simp <;> omega
  · intro h8
    subst h8
    rw [hv]
    simp [Nat.mod_one]

/-- Witness of C14: `5F FF` is a 2-octet VINT; the marker bit of `0x5F` is
dropped and the value is `0x1FFF`. -/
theorem C14_size_vint_reference_value_witness :
    ∃ n : Nat, (1 ≤ n ∧ n ≤ 8) ∧
      ebmlReadIntLen [0x5F, 0xFF] (ebmlInit 0 2) = .OK (ebmlInit 0 2) (n : Int) ∧
      (⟨2, 0, 2, 0⟩ : EBMLData) = advance (ebmlInit 0 2) n ∧
      0x1FFF = beValue (([0x5F, 0xFF].drop (ebmlInit 0 2).pos).take n) % 2 ^ (7 * n) ∧
      (n ≤ 7 → 0x1FFF = beValue
        (([0x5F, 0xFF].getD (ebmlInit 0 2).pos 0 % 2 ^ (8 - n)) ::
          ([0x5F, 0xFF].drop ((ebmlInit 0 2).pos + 1)).take (n - 1))) ∧
      (n = 8 → 0x1FFF = beValue (([0x5F, 0xFF].drop ((ebmlInit 0 2).pos + 1)).take 7)) ∧
      0x1FFF < 2 ^ (7 * n) ∧ 2 ^ (7 * n) ≤ 2 ^ 56 :=
  C14_size_vint_reference_value [0x5F, 0xFF] (ebmlInit 0 2) ⟨2, 0, 2, 0⟩ 0x1FFF
    (by decide) (by decide) (by decide)

theorem mkvClusterHandleSimpleBlock_ok {buf : List Nat} {c c' : MKVCluster} {d d' : EBMLData}
    (hv : d.Valid) (hok : mkvClusterHandleSimpleBlock buf c d = .OK c' d') :
    c.n_blocks < c.allocated_blocks ∧
    ∃ d1 size a blk, ebmlUnserailizeUnsignedInt buf d = .OK d1 size ∧ (1 ≤ a ∧ a ≤ 8) ∧
      Adv a d d1 ∧ size ≤ d1.left ∧ Adv size d1 d' ∧
      c' = { c with blocks := c.blocks.set c.n_blocks blk, n_blocks := add64 c.n_blocks 1 } := by
  unfold mkvClusterHandleSimpleBlock at hok
  simp only at hok
  split at hok
  · cases hok
  · rename_i hcap
    refine ⟨by omega, ?_⟩
    rcases ebmlUnserailizeUnsignedInt_cases buf d hv with h | ⟨d1, E, a, h, ha1, ha8, ha⟩
    · simp only [h] at hok; cases hok
    · simp only [h, ebmlCheckLength] at hok
      have hv1 := ha.valid_after hv
      by_cases hc : d1.left ≥ E
      · simp only [hc, decide_True, Bool.not_true, Bool.false_eq_true, if_false] at hok
        rcases ebmlUnserailizeUnsignedInt_cases buf d1 hv1 with h2 | ⟨d2, track, m, h2, hm1, hm8, hb⟩
        · simp only [h2] at hok; cases hok
        · simp only [h2] at hok
          have hv2 := hb.valid_after hv1
          rcases ebmlUnserialize_cases buf d2 2 hv2 (by norm_num) (by norm_num)
            with h3 | ⟨d3, tc, h3, hc3⟩
          · simp only [h3] at hok; cases hok
          · simp only [h3] at hok
            have hv3 := hc3.valid_after hv2
            rcases ebmlUnserialize_cases buf d3 1 hv3 (by norm_num) (by norm_num)
              with h4 | ⟨d4, fl, h4, hc4⟩
            · simp only [h4] at hok; cases hok
            · simp only [h4, Run.OK.injEq] at hok
              have h14 : Adv (m + 3) d1 d4 := by
                have := (hb.comp hc3).comp hc4
                simpa using this
              have hp := simpleBlock_payload_adv (E := E) hv1 h14 hc
              obtain ⟨hc', hd'⟩ := hok
              rw [hd'] at hp
              exact ⟨d1, E, a, _, h, ⟨ha1, ha8⟩, ha, hc, hp, hc'.symm⟩
      · simp only [hc, decide_False, Bool.not_false, if_true] at hok
        cases hok

/-! ## C15 and C16: what the SimpleBlock and the skip handlers consume -/

/-- C15 (SimpleBlock consumes exactly its declared size): whenever
`mkvClusterHandleSimpleBlock` returns `EBML_OK` on a cursor whose fields are
64-bit values, the cluster had `n_blocks < allocated_blocks`, the size VINT
decoded to some `size` over `a` bytes with `size` not larger than what
remained after it, and the cursor the handler leaves is exactly `a + size`
bytes past where it started: `left_after = left_after_size_field - size`.
This holds for every declared size, also one smaller than the block header. -/
theorem C15_simple_block_consumes_declared_size (buf : List Nat) (c c' : MKVCluster)
    (d d' : EBMLData) (hv : d.pos < 2 ^ 64 ∧ d.left < 2 ^ 64)
    (hok : mkvClusterHandleSimpleBlock buf c d = .OK c' d') :
    c.n_blocks < c.allocated_blocks ∧
    ∃ d1 size a, ebmlUnserailizeUnsignedInt buf d = .OK d1 size ∧ (1 ≤ a ∧ a ≤ 8) ∧
      d1.left = d.left - a ∧ d1.pos = (d.pos + a) % 2 ^ 64 ∧ size ≤ d1.left ∧
      d'.left = d1.left - size ∧ d'.pos = (d1.pos + size) % 2 ^ 64 ∧
      a + size ≤ d.left ∧ d'.left = d.left - (a + size) ∧
      d'.pos = (d.pos + (a + size)) % 2 ^ 64 := by
  obtain ⟨hcap, d1, size, a, _, h, ha, h1, hsz, h2, _⟩ := mkvClusterHandleSimpleBlock_ok hv hok
  have h12 := h1.comp h2
  exact ⟨hcap, d1, size, a, h, ha, h1.2.2.2.1, h1.2.2.2.2, hsz, h2.2.2.2.1, h2.2.2.2.2,
    h12.2.2.1, h12.2.2.2.1, h12.2.2.2.2⟩

/-- Witness of C15: a SimpleBlock that declares size 0, in front of a
BlockGroup.  The cursor starts at the size field with 5 bytes left and ends
1 + 0 bytes further with 4 bytes left. -/
theorem C15_simple_block_consumes_declared_size_witness :
    (0 : Nat) < 1 ∧
    ∃ d1 size a, ebmlUnserailizeUnsignedInt
        [0x1F, 0x43, 0xB6, 0x75, 0x86, 0xA3, 0x80, 0xA0, 0x82, 0x00, 0x00] ⟨6, 5, 6, 5⟩
        = .OK d1 size ∧ (1 ≤ a ∧ a ≤ 8) ∧
      d1.left = 5 - a ∧ d1.pos = (6 + a) % 2 ^ 64 ∧ size ≤ d1.left ∧
      4 = d1.left - size ∧ 7 = (d1.pos + size) % 2 ^ 64 ∧
      a + size ≤ 5 ∧ 4 = 5 - (a + size) ∧ 7 = (6 + (a + size)) % 2 ^ 64 :=
  C15_simple_block_consumes_declared_size
    [0x1F, 0x43, 0xB6, 0x75, 0x86, 0xA3, 0x80, 0xA0, 0x82, 0x00, 0x00]
    ⟨0, 1, 0, [⟨0, 0, 0, 0, 0⟩]⟩ ⟨0, 1, 1, [⟨0x20, 0x8200, 0, 2 ^ 64 - 4, 11⟩]⟩
    ⟨6, 5, 6, 5⟩ ⟨7, 5, 6, 4⟩ (by decide) (by decide)

/-- C16 (skipped elements leave the cluster untouched): the tags `0x5854`
(SilentTracks) and `0xA0` (BlockGroup) are dispatched to
`mkvClusterSkipSubElement`.  When it returns `EBML_OK` the cluster is the one
it was given, whatever bytes the element body holds, and the cursor is exactly
(size-field bytes + declared size) further; when it returns `EBML_ERROR` the
cluster is the one it was given; and it returns `EBML_ERROR` when the declared
size exceeds the bytes that remain after the size field. -/
theorem C16_skipped_elements_leave_cluster (buf : List Nat) (c : MKVCluster) (d : EBMLData)
    (hv : d.pos < 2 ^ 64 ∧ d.left < 2 ^ 64) :
    (∀ tag : EBMLTag, tag = 0x5854 ∨ tag = 0xA0 →
      mkvClusterParseActions buf tag actions c d 0 =
        afterHandler (mkvClusterSkipSubElement buf c d)) ∧
    (∀ c' d', mkvClusterSkipSubElement buf c d = .OK c' d' →
      c' = c ∧ ∃ d1 size a, ebmlUnserailizeUnsignedInt buf d = .OK d1 size ∧
        (1 ≤ a ∧ a ≤ 8) ∧ d1.left = d.left - a ∧ size ≤ d1.left ∧
        a + size ≤ d.left ∧ d'.left = d.left - (a + size) ∧
        d'.pos = (d.pos + (a + size)) % 2 ^ 64) ∧
    (∀ c' d', mkvClusterSkipSubElement buf c d = .ERROR c' d' → c' = c) ∧
    (∀ d1 size, ebmlUnserailizeUnsignedInt buf d = .OK d1 size → d1.left < size →
      mkvClusterSkipSubElement buf c d = .ERROR c d1) := by
  have hv' : d.Valid := hv
  refine ⟨?_, ?_, ?_, ?_⟩
  · intro tag ht
    rw [mkvClusterParseActions_actions]
    rcases ht with rfl | rfl <;>
      simp [TagTimecode, TagSimpleBlock, TagSilentTracks, TagPosition, TagPrevSize, TagBlockGroup]
  · intro c' d' hok
    unfold mkvClusterSkipSubElement at hok
    rcases ebmlUnserailizeUnsignedInt_cases buf d hv' with h | ⟨d1, E, a, h, ha1, ha8, ha⟩
    · simp only [h] at hok; cases hok
    · simp only [h, ebmlCheckLength] at hok
      by_cases hc : d1.left ≥ E
      · simp only [hc, decide_True, Bool.not_true, Bool.false_eq_true, if_false,
          Run.OK.injEq] at hok
        have hs := ha.skip hv' hc
        rw [hok.2] at hs
        exact ⟨hok.1.symm, d1, E, a, h, ⟨ha1, ha8⟩, ha.2.2.2.1, hc, hs.2.2.1, hs.2.2.2.1,
          hs.2.2.2.2⟩
      · simp only [hc, decide_False, Bool.not_false, if_true] at hok
        cases hok
  · intro c' d' herr
    unfold mkvClusterSkipSubElement at herr
    cases h : ebmlUnserailizeUnsignedInt buf d with
    | ERROR d1 => simp only [h, Run.ERROR.injEq] at herr; exact herr.1.symm
    | OK d1 E =>
      simp only [h] at herr
      split at herr
      · simp only [Run.ERROR.injEq] at herr; exact herr.1.symm
      · cases herr
  · intro d1 size h hlt
    have hc : ¬ (d1.left ≥ size) := by omega
    simp [mkvClusterSkipSubElement, h, ebmlCheckLength, hc]

/-- Witness of C16: a Cluster whose only child is a BlockGroup that holds the
SimpleBlock element `A3 85 81 00 00 80 AA`.  The BlockGroup is skipped and the
parse ends with `EBML_OK` and an empty block table; on a buffer cut after the
BlockGroup's size field the skip fails. -/
theorem C16_skipped_elements_leave_cluster_witness :
    mkvClusterParseActions
        [0x1F, 0x43, 0xB6, 0x75, 0x89, 0xA0, 0x87, 0xA3, 0x85, 0x81, 0x00, 0x00, 0x80, 0xAA]
        0xA0 actions (mkvClusterInit 1 (fun _ => ⟨0, 0, 0, 0, 0⟩)) ⟨6, 5, 9, 8⟩ 0 =
      afterHandler (mkvClusterSkipSubElement
        [0x1F, 0x43, 0xB6, 0x75, 0x89, 0xA0, 0x87, 0xA3, 0x85, 0x81, 0x00, 0x00, 0x80, 0xAA]
        (mkvClusterInit 1 (fun _ => ⟨0, 0, 0, 0, 0⟩)) ⟨6, 5, 9, 8⟩) ∧
    mkvClusterSkipSubElement
        [0x1F, 0x43, 0xB6, 0x75, 0x89, 0xA0, 0x87, 0xA3, 0x85, 0x81, 0x00, 0x00, 0x80, 0xAA]
        (mkvClusterInit 1 (fun _ => ⟨0, 0, 0, 0, 0⟩)) ⟨6, 5, 9, 8⟩ =
      .OK (mkvClusterInit 1 (fun _ => ⟨0, 0, 0, 0, 0⟩)) ⟨14, 5, 9, 0⟩ ∧
    mkvClusterParse
        [0x1F, 0x43, 0xB6, 0x75, 0x89, 0xA0, 0x87, 0xA3, 0x85, 0x81, 0x00, 0x00, 0x80, 0xAA]
        (mkvClusterInit 1 (fun _ => ⟨0, 0, 0, 0, 0⟩)) (ebmlInit 0 14) =
      some (.OK (mkvClusterInit 1 (fun _ => ⟨0, 0, 0, 0, 0⟩)) ⟨14, 0, 14, 0⟩) ∧
    mkvClusterSkipSubElement [0xA0, 0x87, 0xA3] (mkvClusterInit 1 (fun _ => ⟨0, 0, 0, 0, 0⟩))
        ⟨1, 0, 3, 2⟩ =
      .ERROR (mkvClusterInit 1 (fun _ => ⟨0, 0, 0, 0, 0⟩)) ⟨2, 0, 3, 1⟩ :=
  ⟨(C16_skipped_elements_leave_cluster
      [0x1F, 0x43, 0xB6, 0x75, 0x89, 0xA0, 0x87, 0xA3, 0x85, 0x81, 0x00, 0x00, 0x80, 0xAA]
      (mkvClusterInit 1 (fun _ => ⟨0, 0, 0, 0, 0⟩)) ⟨6, 5, 9, 8⟩ (by decide)).1 0xA0
      (Or.inr rfl),
   by decide, by decide,
   (C16_skipped_elements_leave_cluster [0xA0, 0x87, 0xA3]
      (mkvClusterInit 1 (fun _ => ⟨0, 0, 0, 0, 0⟩)) ⟨1, 0, 3, 2⟩ (by decide)).2.2.2
      ⟨2, 0, 3, 1⟩ 7 (by decide) (by decide)⟩

/-! ## The passes of the dispatch loop -/

theorem mkvClusterParseLoop_succ (buf : List Nat) (fuel : Nat) (c : MKVCluster) (d : EBMLData) :
    mkvClusterParseLoop buf (fuel + 1) c d =
      match mkvClusterParseIter buf c d with
      | .done r => some r
      | .next c' d' => mkvClusterParseLoop buf fuel c' d' := by
  rw [mkvClusterParseLoop, mkvClusterParseIter]
  split
  · rfl
  · cases ebmlReadTag buf d with
    | ERROR d1 => rfl
    | OK d1 tag =>
      simp only
      rcases mkvClusterParseActions buf tag actions c d1 0 with ⟨r, found⟩
      cases r with
      | ABORT => rfl
      | ERROR c2 d2 => rfl
      | OK c2 d2 =>
        simp only
        split <;> rfl

theorem mkvClusterParseIter_next {buf : List Nat} {c c' : MKVCluster} {d d' : EBMLData}
    (hv : d.Valid) (h : mkvClusterParseIter buf c d = .next c' d') :
    ClusterStep c c' ∧ ∃ k, 2 ≤ k ∧ Adv k d d' := by
  unfold mkvClusterParseIter at h
  split at h
  · cases h
  · rcases ebmlReadTag_cases buf d hv with e | ⟨d1, tag, n, e, hn1, _, ha⟩
    · rw [e] at h; cases h
    · rw [e] at h
      simp only at h
      have hv1 := ha.valid_after hv
      obtain ⟨_, hs1, _⟩ := handlers_step buf tag c d1 hv1
      rcases hr : mkvClusterParseActions buf tag actions c d1 0 with ⟨r, found⟩
      rw [hr] at h hs1
      cases r with
      | ABORT => cases h
      | ERROR c2 d2 => cases h
      | OK c2 d2 =>
        simp only at h hs1
        split at h
        · cases h
        · rename_i hf
          cases h
          obtain ⟨h1, k, hk, h2⟩ := hs1 hf
          exact ⟨h1, n + k, by omega, ha.comp h2⟩

theorem mkvClusterParseLoop_fuel (buf : List Nat) :
    ∀ (fuel fuel' : Nat) (c : MKVCluster) (d : EBMLData), d.Valid →
      d.left < fuel → d.left < fuel' →
      mkvClusterParseLoop buf fuel c d = mkvClusterParseLoop buf fuel' c d := by
  intro fuel
  induction fuel with
  | zero => intro fuel' c d _ h; omega
  | succ fuel ih =>
    intro fuel' c d hv h1 h2
    obtain ⟨f', rfl⟩ : ∃ f', fuel' = f' + 1 := ⟨fuel' - 1, by omega⟩
    rw [mkvClusterParseLoop_succ, mkvClusterParseLoop_succ]
    cases hi : mkvClusterParseIter buf c d with
    | done r => rfl
    | next c' d' =>
      obtain ⟨_, k, hk, ha⟩ := mkvClusterParseIter_next hv hi
      have : d'.left < d.left := by unfold Adv at ha; omega
      exact ih f' c' d' (ha.valid_after hv) (by omega) (by omega)

/-! ## C18: termination of the dispatch loop -/

/-- C18 (termination of the dispatch loop): with `mkvClusterParseIter` the body
of the `while` loop (first part), every pass that does not return leaves the
sub-cursor with strictly fewer bytes than it started with (second part).  So
the loop started with `left` bytes returns within `left + 1` evaluations of
its condition, with the same result for every larger bound, and it returns
`EBML_OK` only with a sub-cursor whose `left` is 0 (third part); and
`mkvClusterParse` returns or aborts on a failed `assert` for every buffer,
cluster and cursor whose fields are 64-bit values (fourth part). -/
theorem C18_dispatch_loop_terminates (buf : List Nat) (c : MKVCluster) (d : EBMLData)
    (hv : d.pos < 2 ^ 64 ∧ d.left < 2 ^ 64) :
    (∀ fuel, mkvClusterParseLoop buf (fuel + 1) c d =
      match mkvClusterParseIter buf c d with
      | .done r => some r
      | .next c' d' => mkvClusterParseLoop buf fuel c' d') ∧
    (∀ c' d', mkvClusterParseIter buf c d = .next c' d' →
      d'.left < d.left ∧ d'.pos < 2 ^ 64 ∧ d'.left < 2 ^ 64) ∧
    (∀ fuel, d.left < fuel →
      ∃ r, mkvClusterParseLoop buf fuel c d = some r ∧
        mkvClusterParseLoop buf (d.left + 1) c d = some r ∧
        ∀ c' d', r = .OK c' d' → d'.left = 0) ∧
    ∃ r, mkvClusterParse buf c d = some r := by
  have hv' : d.Valid := hv
  refine ⟨fun fuel => mkvClusterParseLoop_succ buf fuel c d, ?_, ?_, ?_⟩
  · intro c' d' h
    obtain ⟨_, k, hk, ha⟩ := mkvClusterParseIter_next hv' h
    have hv2 := ha.valid_after hv'
    exact ⟨by unfold Adv at ha; omega, hv2.1, hv2.2⟩
  · intro fuel hf
    obtain ⟨r, hr, _, hdone⟩ := mkvClusterParseLoop_step buf fuel c d hv' hf
    refine ⟨r, hr, ?_, hdone⟩
    rw [← hr]
    exact mkvClusterParseLoop_fuel buf _ _ c d hv' (Nat.lt_succ_self _) hf
  · obtain ⟨r, hr, _⟩ := mkvClusterParse_returns buf c d hv'
    exact ⟨r, hr⟩

/-- Witness of C18 on the Cluster of the end-to-end scenario: the first pass of
the loop handles the Timecode element and leaves 10 of the 14 body bytes. -/
theorem C18_dispatch_loop_terminates_witness :
    ((10 : Nat) < 14 ∧ (9 : Nat) < 2 ^ 64 ∧ (10 : Nat) < 2 ^ 64) ∧
    ∃ r, mkvClusterParse
        [0x1F, 0x43, 0xB6, 0x75, 0x8E, 0xE7, 0x82, 0x03, 0xE8,
         0xA3, 0x88, 0x81, 0x00, 0x00, 0x80, 0xDE, 0xAD, 0xBE, 0xEF]
        (mkvClusterInit 1 (fun _ => ⟨0, 0, 0, 0, 0⟩)) (ebmlInit 0 19) = some r :=
  ⟨(C18_dispatch_loop_terminates
      [0x1F, 0x43, 0xB6, 0x75, 0x8E, 0xE7, 0x82, 0x03, 0xE8,
         0xA3, 0x88, 0x81, 0x00, 0x00, 0x80, 0xDE, 0xAD, 0xBE, 0xEF]
      (mkvClusterInit 1 (fun _ => ⟨0, 0, 0, 0, 0⟩)) ⟨5, 5, 14, 14⟩ (by decide)).2.1
      ⟨1000, 1, 0, [⟨0, 0, 0, 0, 0⟩]⟩ ⟨9, 5, 14, 10⟩ (by decide),
   (C18_dispatch_loop_terminates
      [0x1F, 0x43, 0xB6, 0x75, 0x8E, 0xE7, 0x82, 0x03, 0xE8,
         0xA3, 0x88, 0x81, 0x00, 0x00, 0x80, 0xDE, 0xAD, 0xBE, 0xEF]
      (mkvClusterInit 1 (fun _ => ⟨0, 0, 0, 0, 0⟩)) (ebmlInit 0 19) (by decide)).2.2.2⟩

/-! ## C17: the width of integer children -/

theorem mkvClusterParse_ok {buf : List Nat} {c c' : MKVCluster} {d d' : EBMLData}
    (h : mkvClusterParse buf c d = some (.OK c' d')) :
    ∃ subEl sub', ebmlReadSubElement buf d = .OK d' (TagCluster, subEl) ∧
      mkvClusterParseLoop buf (subEl.left + 1) c subEl = some (.OK c' sub') := by
  unfold mkvClusterParse at h
  cases h1 : ebmlReadSubElement buf d with
  | ERROR d1 => rw [h1] at h; simp at h
  | OK d1 v =>
    obtain ⟨tag, subEl⟩ := v
    rw [h1] at h
    simp only at h
    by_cases ht : tag = TagCluster
    · subst ht
      simp only [ne_eq, not_true_eq_false, if_false] at h
      cases h2 : mkvClusterParseLoop buf (subEl.left + 1) c subEl with
      | none => rw [h2] at h; cases h
      | some r =>
        rw [h2] at h
        cases r with
        | ABORT => simp at h
        | ERROR c2 d2 => simp at h
        | OK c2 d2 =>
          simp only [Option.some.injEq, Run.OK.injEq] at h
          obtain ⟨rfl, rfl⟩ := h
          exact ⟨subEl, d2, rfl, h2⟩
    · simp [ht] at h

theorem mkvClusterParseIters_loop (buf : List Nat) :
    ∀ (j fuel : Nat) (c0 c : MKVCluster) (d0 d : EBMLData) (r : Run),
      mkvClusterParseLoop buf fuel c0 d0 = some r →
      mkvClusterParseIters buf j c0 d0 = some (c, d) →
      ∃ fuel', mkvClusterParseLoop buf (fuel' + 1) c d = some r := by
  intro j
  induction j with
  | zero =>
    intro fuel c0 c d0 d r hl hi
    simp only [mkvClusterParseIters, Option.some.injEq, Prod.mk.injEq] at hi
    obtain ⟨rfl, rfl⟩ := hi
    cases fuel with
    | zero => simp [mkvClusterParseLoop] at hl
    | succ f => exact ⟨f, hl⟩
  | succ j ih =>
    intro fuel c0 c d0 d r hl hi
    cases fuel with
    | zero => simp [mkvClusterParseLoop] at hl
    | succ f =>
      rw [mkvClusterParseLoop_succ] at hl
      simp only [mkvClusterParseIters] at hi
      cases hit : mkvClusterParseIter buf c0 d0 with
      | done r' => rw [hit] at hi; cases hi
      | next c1 d1 =>
        rw [hit] at hi hl
        exact ih f c1 c d1 d r hl hi

theorem mkvClusterParseIter_bad_integer {buf : List Nat} {c : MKVCluster} {d d1 d2 : EBMLData}
    {tag : EBMLTag} {s : Nat} (hne : d.left ≠ 0) (h1 : ebmlReadTag buf d = .OK d1 tag)
    (ht : tag = 0xE7 ∨ tag = 0xA7 ∨ tag = 0xAB)
    (h2 : ebmlUnserailizeUnsignedInt buf d1 = .OK d2 s) (hs : ¬ (1 ≤ s ∧ s ≤ 8)) :
    mkvClusterParseIter buf c d = .done .ABORT := by
  have hs' : ¬ (s > 0 ∧ s ≤ 8) := hs
  unfold mkvClusterParseIter
  simp only [ebmlEmpty, hne, decide_False, Bool.false_eq_true, if_false, h1,
    mkvClusterParseActions_actions]
  rcases ht with rfl | rfl | rfl <;>
    simp [TagTimecode, TagSimpleBlock, TagSilentTracks, TagPosition, TagPrevSize,
      TagBlockGroup, mkvClusterHandleTimecode, mkvClusterSkipInteger, h2, hs', afterHandler]

theorem Adv.in_buffer {k : Nat} {buf : List Nat} {d d' : EBMLData} (hbuf : buf.length < 2 ^ 64)
    (hin : d.pos + d.left ≤ buf.length) (h : Adv k d d') :
    d' = advance d k ∧ d'.pos + d'.left ≤ buf.length := by
  obtain ⟨h1, h2, h3, h4, h5⟩ := h
  have h6 : d'.pos = d.pos + k := by omega
  refine ⟨?_, by omega⟩
  cases d; cases d'
  simp only [advance, EBMLData.mk.injEq] at *
  omega

/-- C17 (integer children must be 1 to 8 bytes wide): let `d` be a cursor in
the buffer, positioned after the tag of a Timecode, Position or PrevSize child.
A declared size of 0 or above 8 fails the `assert` of
`mkvClusterHandleTimecode` and of `mkvClusterSkipInteger` (first part).  For a
declared size `s` in 1..8 with `s` bytes available, the Timecode handler stores
the big-endian value of those `s` bytes in `timecode` and the Position and
PrevSize handler leaves the cluster as it was (second part).  Either handler
returns `EBML_OK` only for a declared size in 1..8 (third part).  And whenever
`mkvClusterParse` returns `EBML_OK`, at the start of every pass of its loop
where the tag read is `0xE7`, `0xA7` or `0xAB`, the declared size that follows
is in 1..8 (fourth part). -/
theorem C17_integer_children_width (buf : List Nat) (c : MKVCluster) (d data : EBMLData)
    (hbuf : buf.length < 2 ^ 64) (hin : d.pos + d.left ≤ buf.length) :
    (∀ d1 s, ebmlUnserailizeUnsignedInt buf d = .OK d1 s → s = 0 ∨ 8 < s →
      mkvClusterHandleTimecode buf c d = .ABORT ∧ mkvClusterSkipInteger buf c d = .ABORT) ∧
    (∀ d1 s, ebmlUnserailizeUnsignedInt buf d = .OK d1 s → 1 ≤ s → s ≤ 8 → s ≤ d1.left →
      mkvClusterHandleTimecode buf c d =
        .OK { c with timecode := beValue ((buf.drop d1.pos).take s) } (advance d1 s) ∧
      mkvClusterSkipInteger buf c d = .OK c (advance d1 s)) ∧
    (∀ c' d', mkvClusterHandleTimecode buf c d = .OK c' d' ∨
        mkvClusterSkipInteger buf c d = .OK c' d' →
      ∃ d1 s, ebmlUnserailizeUnsignedInt buf d = .OK d1 s ∧ 1 ≤ s ∧ s ≤ 8) ∧
    (∀ cf df, mkvClusterParse buf c data = some (.OK cf df) →
      ∃ subEl, ebmlReadSubElement buf data = .OK df (0x1F43B675, subEl) ∧
        ∀ j cj dj, mkvClusterParseIters buf j c subEl = some (cj, dj) →
          ∀ d1 tag d2 s, dj.left ≠ 0 → ebmlReadTag buf dj = .OK d1 tag →
            tag = 0xE7 ∨ tag = 0xA7 ∨ tag = 0xAB →
            ebmlUnserailizeUnsignedInt buf d1 = .OK d2 s → 1 ≤ s ∧ s ≤ 8) := by
  have hvd : d.Valid := ⟨by omega, by omega⟩
  refine ⟨?_, ?_, ?_, ?_⟩
  · intro d1 s h hs
    have hs' : ¬ (s > 0 ∧ s ≤ 8) := by omega
    simp [mkvClusterHandleTimecode, mkvClusterSkipInteger, h, hs']
  · intro d1 s h hs1 hs8 hleft
    have hs' : s > 0 ∧ s ≤ 8 := ⟨hs1, hs8⟩
    rcases ebmlUnserailizeUnsignedInt_cases buf d hvd with e | ⟨d1', s', a, e, _, _, ha⟩
    · rw [e] at h; cases h
    rw [h] at e
    cases e
    obtain ⟨_, hin1⟩ := ha.in_buffer hbuf hin
    have hval := @ebmlUnserialize_value buf d1 s hbuf hs8 (by omega) hleft (by omega)
    simp [mkvClusterHandleTimecode, mkvClusterSkipInteger, h, hs', hval]
  · intro c' d' hok
    cases h : ebmlUnserailizeUnsignedInt buf d with
    | ERROR d1 =>
      rcases hok with hok | hok
      · simp [mkvClusterHandleTimecode, h] at hok
      · simp [mkvClusterSkipInteger, h] at hok
    | OK d1 s =>
      refine ⟨d1, s, rfl, ?_⟩
      by_contra hs
      have hs' : ¬ (s > 0 ∧ s ≤ 8) := by omega
      rcases hok with hok | hok
      · simp [mkvClusterHandleTimecode, h, hs'] at hok
      · simp [mkvClusterSkipInteger, h, hs'] at hok
  · intro cf df hok
    obtain ⟨subEl, sub', hsub, hloop⟩ := mkvClusterParse_ok hok
    refine ⟨subEl, hsub, ?_⟩
    intro j cj dj hj d1 tag d2 s hne h1 ht h2
    by_contra hs
    obtain ⟨fuel', hl⟩ := mkvClusterParseIters_loop buf j _ c cj subEl dj _ hloop hj
    rw [mkvClusterParseLoop_succ, mkvClusterParseIter_bad_integer hne h1 ht h2 hs] at hl
    cases hl

/-- Witness of C17: the Timecode element `E7 82 03 E8` of the end-to-end
scenario is stored as 1000; a Timecode element that declares size 0 aborts the
handlers and the parse. -/
theorem C17_integer_children_width_witness :
    (mkvClusterHandleTimecode
        [0x1F, 0x43, 0xB6, 0x75, 0x8E, 0xE7, 0x82, 0x03, 0xE8,
         0xA3, 0x88, 0x81, 0x00, 0x00, 0x80, 0xDE, 0xAD, 0xBE, 0xEF]
        (mkvClusterInit 1 (fun _ => ⟨0, 0, 0, 0, 0⟩)) ⟨6, 5, 14, 13⟩ =
      .OK { (mkvClusterInit 1 (fun _ => ⟨0, 0, 0, 0, 0⟩)) with
              timecode := beValue (([0x1F, 0x43, 0xB6, 0x75, 0x8E, 0xE7, 0x82, 0x03, 0xE8,
         0xA3, 0x88, 0x81, 0x00, 0x00, 0x80, 0xDE, 0xAD, 0xBE, 0xEF].drop (⟨7, 5, 14, 12⟩ : EBMLData).pos).take 2) }
          (advance ⟨7, 5, 14, 12⟩ 2) ∧
      mkvClusterSkipInteger
        [0x1F, 0x43, 0xB6, 0x75, 0x8E, 0xE7, 0x82, 0x03, 0xE8,
         0xA3, 0x88, 0x81, 0x00, 0x00, 0x80, 0xDE, 0xAD, 0xBE, 0xEF]
        (mkvClusterInit 1 (fun _ => ⟨0, 0, 0, 0, 0⟩)) ⟨6, 5, 14, 13⟩ =
      .OK (mkvClusterInit 1 (fun _ => ⟨0, 0, 0, 0, 0⟩)) (advance ⟨7, 5, 14, 12⟩ 2)) ∧
    beValue [0x03, 0xE8] = 1000 ∧
    (mkvClusterHandleTimecode [0x1F, 0x43, 0xB6, 0x75, 0x82, 0xE7, 0x80]
        (mkvClusterInit 1 (fun _ => ⟨0, 0, 0, 0, 0⟩)) ⟨6, 5, 2, 1⟩ = .ABORT ∧
      mkvClusterSkipInteger [0x1F, 0x43, 0xB6, 0x75, 0x82, 0xE7, 0x80]
        (mkvClusterInit 1 (fun _ => ⟨0, 0, 0, 0, 0⟩)) ⟨6, 5, 2, 1⟩ = .ABORT) ∧
    mkvClusterParse [0x1F, 0x43, 0xB6, 0x75, 0x82, 0xE7, 0x80] (mkvClusterInit 1 (fun _ => ⟨0, 0, 0, 0, 0⟩)) (ebmlInit 0 7) = some .ABORT :=
  ⟨(C17_integer_children_width
      [0x1F, 0x43, 0xB6, 0x75, 0x8E, 0xE7, 0x82, 0x03, 0xE8,
         0xA3, 0x88, 0x81, 0x00, 0x00, 0x80, 0xDE, 0xAD, 0xBE, 0xEF]
      (mkvClusterInit 1 (fun _ => ⟨0, 0, 0, 0, 0⟩)) ⟨6, 5, 14, 13⟩ (ebmlInit 0 19) (by decide) (by decide)).2.1
      ⟨7, 5, 14, 12⟩ 2 (by decide) (by decide) (by decide) (by decide),
   by decide,
   (C17_integer_children_width [0x1F, 0x43, 0xB6, 0x75, 0x82, 0xE7, 0x80]
      (mkvClusterInit 1 (fun _ => ⟨0, 0, 0, 0, 0⟩)) ⟨6, 5, 2, 1⟩ (ebmlInit 0 7) (by decide) (by decide)).1
      ⟨7, 5, 2, 0⟩ 0 (by decide) (Or.inl rfl),
   by decide⟩

/-! ## Well-formed children of every kind -/

theorem mkvClusterSkipSubElement_at {buf : List Nat} {c : MKVCluster} {d : EBMLData}
    {l n : Nat} (hbuf : buf.length < 2 ^ 64) (hin : d.pos + d.left ≤ buf.length)
    (hl1 : 1 ≤ l) (hl8 : l ≤ 8) (hn : n < 2 ^ (7 * l))
    (hat : BytesAt buf d.pos (encodeVint l n)) (hleft : l + n ≤ d.left) :
    mkvClusterSkipSubElement buf c d = .OK c (advance d (l + n)) := by
  unfold mkvClusterSkipSubElement
  simp only [ebmlUnserailizeUnsignedInt_at hbuf hl1 hl8 hn hat (by omega) (by omega)]
  have hc : (advance d l).left ≥ n := by simp only [advance]; omega
  simp only [ebmlCheckLength, hc, decide_True, Bool.not_true, Bool.false_eq_true, if_false]
  have q1 : add64 (advance d l).pos n = d.pos + (l + n) := by
    simp only [advance]; unfold add64; omega
  have q2 : sub64 (advance d l).left n = d.left - (l + n) := by
    simp only [advance]; unfold sub64; omega
  rw [q1, q2]
  rfl

theorem mkvClusterSkipInteger_at {buf : List Nat} {c : MKVCluster} {d : EBMLData}
    {l n : Nat} (hbuf : buf.length < 2 ^ 64) (hin : d.pos + d.left ≤ buf.length)
    (hl1 : 1 ≤ l) (hl8 : l ≤ 8) (hn1 : 1 ≤ n) (hn8 : n ≤ 8)
    (hat : BytesAt buf d.pos (encodeVint l n)) (hleft : l + n ≤ d.left) :
    mkvClusterSkipInteger buf c d = .OK c (advance d (l + n)) := by
  have hn : n < 2 ^ (7 * l) := by
    have : 2 ^ 7 ≤ 2 ^ (7 * l) := Nat.pow_le_pow_right (by norm_num) (by omega)
    omega
  unfold mkvClusterSkipInteger
  simp only [ebmlUnserailizeUnsignedInt_at hbuf hl1 hl8 hn hat (by omega) (by omega)]
  have hs : n > 0 ∧ n ≤ 8 := ⟨hn1, hn8⟩
  simp only [hs, and_self, not_true_eq_false, if_false]
  rw [@ebmlUnserialize_value buf (advance d l) n hbuf hn8 (by simp only [advance]; omega)
    (by simp only [advance]; omega) (by simp only [advance]; omega)]
  simp only [advance_advance]

theorem mkvClusterParseLoop_skipped {buf : List Nat} {fuel : Nat} {c : MKVCluster}
    {d : EBMLData} {u tag l : Nat} {body : List Nat}
    (hbuf : buf.length < 2 ^ 64) (hin : d.pos + d.left ≤ buf.length)
    (hu : (u = 1 ∧ tag = 0xA0) ∨ (u = 2 ∧ tag = 0x5854))
    (hl1 : 1 ≤ l) (hl8 : l ≤ 8) (hn : body.length < 2 ^ (7 * l))
    (hat : BytesAt buf d.pos (encodeBE u tag ++ (encodeVint l body.length ++ body)))
    (hleft : u + (l + body.length) ≤ d.left) (hfuel : 0 < fuel) :
    mkvClusterParseLoop buf fuel c d =
      mkvClusterParseLoop buf (fuel - 1) c (advance d (u + (l + body.length))) := by
  rw [BytesAt_append, encodeBE_length, BytesAt_append] at hat
  have htag : ebmlReadTag buf d = .OK (advance d u) tag := by
    rcases hu with ⟨rfl, rfl⟩ | ⟨rfl, rfl⟩
    · exact ebmlReadTag_at hbuf (by norm_num) (by norm_num) (by norm_num) (by norm_num) hat.1
        (by omega) (by omega)
    · exact ebmlReadTag_at hbuf (by norm_num) (by norm_num) (by norm_num) (by norm_num) hat.1
        (by omega) (by omega)
  have hh := @mkvClusterSkipSubElement_at buf c (advance d u) l body.length hbuf
    (by simp only [advance]; omega) hl1 hl8 hn (by simpa [advance] using hat.2.1)
    (by simp only [advance]; omega)
  rw [advance_advance] at hh
  have hu1 : 1 ≤ u := by omega
  refine @mkvClusterParseLoop_known buf fuel c c d (advance d u) _ tag mkvClusterSkipSubElement
    hfuel (by omega) htag ?_ hh
  rw [mkvClusterParseActions_actions]
  rcases hu with ⟨_, rfl⟩ | ⟨_, rfl⟩ <;>
    simp [TagTimecode, TagSimpleBlock, TagSilentTracks, TagPosition, TagPrevSize, TagBlockGroup]

theorem mkvClusterParseLoop_integer {buf : List Nat} {fuel : Nat} {c : MKVCluster}
    {d : EBMLData} {tag l : Nat} {bytes : List Nat}
    (hbuf : buf.length < 2 ^ 64) (hin : d.pos + d.left ≤ buf.length)
    (ht : tag = 0xA7 ∨ tag = 0xAB)
    (hl1 : 1 ≤ l) (hl8 : l ≤ 8) (hn1 : 1 ≤ bytes.length) (hn8 : bytes.length ≤ 8)
    (hat : BytesAt buf d.pos ([tag] ++ (encodeVint l bytes.length ++ bytes)))
    (hleft : 1 + (l + bytes.length) ≤ d.left) (hfuel : 0 < fuel) :
    mkvClusterParseLoop buf fuel c d =
      mkvClusterParseLoop buf (fuel - 1) c (advance d (1 + (l + bytes.length))) := by
  rw [BytesAt_append, BytesAt_append] at hat
  have htag : ebmlReadTag buf d = .OK (advance d 1) tag := by
    rcases ht with rfl | rfl
    · exact ebmlReadTag_byte hbuf (by norm_num) (by norm_num) hat.1 (by omega) (by omega)
    · exact ebmlReadTag_byte hbuf (by norm_num) (by norm_num) hat.1 (by omega) (by omega)
  have hh := @mkvClusterSkipInteger_at buf c (advance d 1) l bytes.length hbuf
    (by simp only [advance]; omega) hl1 hl8 hn1 hn8 (by simpa [advance] using hat.2.1)
    (by simp only [advance]; omega)
  rw [advance_advance] at hh
  refine @mkvClusterParseLoop_known buf fuel c c d (advance d 1) _ tag mkvClusterSkipInteger
    hfuel (by omega) htag ?_ hh
  rw [mkvClusterParseActions_actions]
  rcases ht with rfl | rfl <;>
    simp [TagTimecode, TagSimpleBlock, TagSilentTracks, TagPosition, TagPrevSize, TagBlockGroup]

theorem Child.element_length_pos (ch : Child) : 1 ≤ ch.element.length := by
  cases ch <;>
    simp [Child.element, timecodeElement, SimpleBlockSpec.element]

theorem mkvClusterParseLoop_child {buf : List Nat} {fuel : Nat} {c : MKVCluster}
    {d : EBMLData} {ch : Child} (hbuf : buf.length < 2 ^ 64)
    (hin : d.pos + d.left ≤ buf.length) (hwf : ch.WF)
    (hcap : ∀ b, ch = .simpleBlock b → c.n_blocks < c.allocated_blocks)
    (h64 : c.allocated_blocks < 2 ^ 64)
    (hat : BytesAt buf d.pos ch.element) (hleft : ch.element.length ≤ d.left)
    (hfuel : 0 < fuel) :
    mkvClusterParseLoop buf fuel c d =
      mkvClusterParseLoop buf (fuel - 1) (ch.apply d.pos c) (advance d ch.element.length) := by
  have hl64 : d.left < 2 ^ 64 := by omega
  cases ch with
  | timecode l n T =>
    obtain ⟨⟨hl1, hl8⟩, ⟨hn1, hn8⟩, hT⟩ := hwf
    simp only [Child.element, Child.apply, timecodeElement_length] at hat hleft ⊢
    exact mkvClusterParseLoop_timecode hbuf hl1 hl8 hn1 hn8 hT hat hleft hl64 hfuel
  | simpleBlock b =>
    have hc := hcap b rfl
    have hn1 : add64 c.n_blocks 1 = c.n_blocks + 1 := add64_of_lt (by omega)
    simp only [Child.element, Child.apply] at hat hleft ⊢
    rw [← hn1]
    exact mkvClusterParseLoop_simpleBlock hbuf hwf hc hat hleft hl64 hfuel
  | silentTracks l body =>
    obtain ⟨⟨hl1, hl8⟩, hn⟩ := hwf
    have e : encodeBE 2 0x5854 = [0x58, 0x54] := by decide
    simp only [Child.element, Child.apply, List.length_append, List.length_cons,
      List.length_nil, encodeVint_length] at hat hleft ⊢
    rw [← e] at hat
    exact mkvClusterParseLoop_skipped hbuf hin (Or.inr ⟨rfl, rfl⟩) hl1 hl8 hn hat
      (by omega) hfuel
  | position l bytes =>
    obtain ⟨⟨hl1, hl8⟩, hn1, hn8⟩ := hwf
    simp only [Child.element, Child.apply, List.length_append, List.length_cons,
      List.length_nil, encodeVint_length] at hat hleft ⊢
    exact mkvClusterParseLoop_integer hbuf hin (Or.inl rfl) hl1 hl8 hn1 hn8 hat
      (by omega) hfuel
  | prevSize l bytes =>
    obtain ⟨⟨hl1, hl8⟩, hn1, hn8⟩ := hwf
    simp only [Child.element, Child.apply, List.length_append, List.length_cons,
      List.length_nil, encodeVint_length] at hat hleft ⊢
    exact mkvClusterParseLoop_integer hbuf hin (Or.inr rfl) hl1 hl8 hn1 hn8 hat
      (by omega) hfuel
  | blockGroup l body =>
    obtain ⟨⟨hl1, hl8⟩, hn⟩ := hwf
    have e : encodeBE 1 0xA0 = [0xA0] := by decide
    simp only [Child.element, Child.apply, List.length_append, List.length_cons,
      List.length_nil, encodeVint_length] at hat hleft ⊢
    rw [← e] at hat
    exact mkvClusterParseLoop_skipped hbuf hin (Or.inl ⟨rfl, rfl⟩) hl1 hl8 hn hat
      (by omega) hfuel

theorem Child.apply_facts (ch : Child) (pos : Nat) (c : MKVCluster)
    (hcap : ∀ b, ch = .simpleBlock b → c.n_blocks < c.blocks.length) :
    (ch.apply pos c).allocated_blocks = c.allocated_blocks ∧
    (ch.apply pos c).n_blocks = c.n_blocks + (ch.blocks pos).length ∧
    (ch.apply pos c).blocks.length = c.blocks.length ∧
    (∀ i, i < c.n_blocks → (ch.apply pos c).blocks[i]? = c.blocks[i]?) ∧
    (∀ j, j < (ch.blocks pos).length →
      (ch.apply pos c).blocks[c.n_blocks + j]? = (ch.blocks pos)[j]?) := by
  cases ch with
  | simpleBlock b =>
    have := hcap b rfl
    refine ⟨rfl, rfl, by simp [Child.apply], ?_, ?_⟩
    · intro i hi
      simp only [Child.apply]
      rw [List.getElem?_set_ne (by omega)]
    · intro j hj
      simp only [Child.blocks, List.length_singleton] at hj
      have : j = 0 := by omega
      subst this
      simp only [Child.apply, Child.blocks, Nat.add_zero]
      rw [List.getElem?_set_self (by omega)]
      rfl
  | timecode l n T =>
    exact ⟨rfl, rfl, rfl, fun _ _ => rfl, fun j hj => absurd hj (Nat.not_lt_zero _)⟩
  | silentTracks l body =>
    exact ⟨rfl, rfl, rfl, fun _ _ => rfl, fun j hj => absurd hj (Nat.not_lt_zero _)⟩
  | position l bytes =>
    exact ⟨rfl, rfl, rfl, fun _ _ => rfl, fun j hj => absurd hj (Nat.not_lt_zero _)⟩
  | prevSize l bytes =>
    exact ⟨rfl, rfl, rfl, fun _ _ => rfl, fun j hj => absurd hj (Nat.not_lt_zero _)⟩
  | blockGroup l body =>
    exact ⟨rfl, rfl, rfl, fun _ _ => rfl, fun j hj => absurd hj (Nat.not_lt_zero _)⟩

theorem Child.blocks_length_le (ch : Child) (pos : Nat) : (ch.blocks pos).length ≤ 1 := by
  cases ch <;> simp [Child.blocks]

theorem Child.blocks_pos {ch : Child} {pos : Nat} (h : 0 < (ch.blocks pos).length) :
    ∃ b, ch = .simpleBlock b := by
  cases ch with
  | simpleBlock b => exact ⟨b, rfl⟩
  | timecode l n T => simp [Child.blocks] at h
  | silentTracks l body => simp [Child.blocks] at h
  | position l bytes => simp [Child.blocks] at h
  | prevSize l bytes => simp [Child.blocks] at h
  | blockGroup l body => simp [Child.blocks] at h

theorem mkvClusterParseLoop_children (buf : List Nat) (hbuf : buf.length < 2 ^ 64) :
    ∀ (cs : List Child) (c : MKVCluster) (d : EBMLData) (fuel : Nat),
      (∀ ch ∈ cs, ch.WF) → BytesAt buf d.pos (encodeChildren cs) →
      d.left = (encodeChildren cs).length → d.pos + d.left ≤ buf.length → d.left < fuel →
      c.n_blocks ≤ c.allocated_blocks → c.allocated_blocks ≤ c.blocks.length →
      c.allocated_blocks < 2 ^ 64 →
      ∃ r c', mkvClusterParseLoop buf fuel c d = some r ∧ r.cluster = some c' ∧
        (r.status = some .EBML_OK ↔
          c.n_blocks + (childBlocks cs d.pos).length ≤ c.allocated_blocks) ∧
        c'.allocated_blocks = c.allocated_blocks ∧
        c'.n_blocks = min (c.n_blocks + (childBlocks cs d.pos).length) c.allocated_blocks ∧
        c'.blocks.length = c.blocks.length ∧
        (∀ i, i < c.n_blocks → c'.blocks[i]? = c.blocks[i]?) ∧
        (∀ j, c.n_blocks + j < c'.n_blocks →
          c'.blocks[c.n_blocks + j]? = (childBlocks cs d.pos)[j]?) := by
  intro cs
  induction cs with
  | nil =>
    intro c d fuel _ _ hleft _ hfuel hn _ _
    simp only [encodeChildren, List.length_nil] at hleft
    refine ⟨_, c, mkvClusterParseLoop_empty hleft (by omega), rfl, ?_, rfl, ?_, rfl,
      fun _ _ => rfl, ?_⟩
    · simp [Run.status, childBlocks, hn]
    · simp only [childBlocks, List.length_nil, Nat.add_zero]; omega
    · intro j hj; omega
  | cons ch cs ih =>
    intro c d fuel hwf hat hleft hin hfuel hn hlen h64
    have hwfc : ch.WF := hwf ch (List.mem_cons_self _ _)
    have hel := ch.element_length_pos
    simp only [encodeChildren, List.length_append] at hat hleft
    rw [BytesAt_append] at hat
    simp only [childBlocks, List.length_append]
    by_cases hfull : 0 < (ch.blocks d.pos).length ∧ c.allocated_blocks ≤ c.n_blocks
    · obtain ⟨b, rfl⟩ := Child.blocks_pos hfull.1
      have hat1 : BytesAt buf d.pos [0xA3] := by
        have := hat.1
        simp only [Child.element, SimpleBlockSpec.element, List.append_assoc] at this
        rw [BytesAt_append] at this
        exact this.1
      refine ⟨_, c, mkvClusterParseLoop_full hfull.2 hat1 hbuf (by omega) (by omega)
        (by omega), rfl, ?_, rfl, ?_, rfl, fun _ _ => rfl, ?_⟩
      · simp only [Run.status]
        constructor
        · intro h; cases h
        · intro h; omega
      · omega
      · intro j hj; omega
    · have hcap : ∀ b, ch = .simpleBlock b → c.n_blocks < c.allocated_blocks := by
        intro b hb
        subst hb
        simp only [Child.blocks, List.length_singleton] at hfull
        omega
      have step := @mkvClusterParseLoop_child buf fuel c d ch hbuf hin hwfc hcap h64 hat.1
        (by omega) (by omega)
      obtain ⟨f1, f2, f3, f4, f5⟩ := Child.apply_facts ch d.pos c
        (fun b hb => by have := hcap b hb; omega)
      have hb1 := ch.blocks_length_le d.pos
      have hcap1 : c.n_blocks + (ch.blocks d.pos).length ≤ c.allocated_blocks := by
        by_cases h0 : 0 < (ch.blocks d.pos).length
        · obtain ⟨b, hb⟩ := Child.blocks_pos h0
          have := hcap b hb
          omega
        · omega
      obtain ⟨r, c', hloop, hcl, hst, g1, g2, g3, g4, g5⟩ := ih (ch.apply d.pos c)
        (advance d ch.element.length) (fuel - 1)
        (fun x hx => hwf x (List.mem_cons_of_mem _ hx))
        (by simpa [advance] using hat.2) (by simp only [advance]; omega)
        (by simp only [advance]; omega) (by simp only [advance]; omega)
        (by omega) (by omega) (by omega)
      simp only [advance] at hst g2 g5
      rw [f2] at hst g2 g4 g5
      rw [f1] at hst g1 g2
      refine ⟨r, c', step.trans hloop, hcl, ?_, g1, ?_, g3.trans f3, ?_, ?_⟩
      · rw [hst]; omega
      · rw [g2]; omega
      · intro i hi
        rw [g4 i (by omega), f4 i hi]
      · intro j hj
        by_cases hj0 : j < (ch.blocks d.pos).length
        · rw [g4 (c.n_blocks + j) (by omega), f5 j hj0, List.getElem?_append_left hj0]
        · have hj' : (ch.blocks d.pos).length ≤ j := by omega
          have := g5 (j - (ch.blocks d.pos).length) (by omega)
          rw [List.getElem?_append_right hj', ← this]
          congr 1
          omega

theorem ClusterGrow.rfl' (c : MKVCluster) : ClusterGrow c c :=
  ⟨rfl, Nat.le_refl _, fun _ _ => rfl⟩

theorem ClusterGrow.chain {c c' c'' : MKVCluster} (h1 : ClusterGrow c c')
    (h2 : ClusterGrow c' c'') : ClusterGrow c c'' := by
  obtain ⟨a1, b1, e1⟩ := h1
  obtain ⟨a2, b2, e2⟩ := h2
  exact ⟨a2.trans a1, Nat.le_trans b1 b2, fun i hi => (e2 i (by omega)).trans (e1 i hi)⟩

theorem mkvClusterHandleTimecode_grow {buf : List Nat} {c c' : MKVCluster} {d : EBMLData}
    (h : (mkvClusterHandleTimecode buf c d).cluster = some c') : ClusterGrow c c' := by
  unfold mkvClusterHandleTimecode at h
  cases h1 : ebmlUnserailizeUnsignedInt buf d with
  | ERROR d1 => simp only [h1, Run.cluster, Option.some.injEq] at h; subst h; exact .rfl' c
  | OK d1 s =>
    simp only [h1] at h
    split at h
    · cases h
    · cases h2 : ebmlUnserialize buf d1 (s : Int) with
      | ERROR d2 => simp only [h2, Run.cluster, Option.some.injEq] at h; subst h; exact .rfl' c
      | OK d2 v =>
        simp only [h2, Run.cluster, Option.some.injEq] at h
        subst h
        exact ⟨rfl, Nat.le_refl _, fun _ _ => rfl⟩

theorem mkvClusterSkipInteger_grow {buf : List Nat} {c c' : MKVCluster} {d : EBMLData}
    (h : (mkvClusterSkipInteger buf c d).cluster = some c') : ClusterGrow c c' := by
  unfold mkvClusterSkipInteger at h
  cases h1 : ebmlUnserailizeUnsignedInt buf d with
  | ERROR d1 => simp only [h1, Run.cluster, Option.some.injEq] at h; subst h; exact .rfl' c
  | OK d1 s =>
    simp only [h1] at h
    split at h
    · cases h
    · cases h2 : ebmlUnserialize buf d1 (s : Int) with
      | ERROR d2 => simp only [h2, Run.cluster, Option.some.injEq] at h; subst h; exact .rfl' c
      | OK d2 v => simp only [h2, Run.cluster, Option.some.injEq] at h; subst h; exact .rfl' c

theorem mkvClusterSkipSubElement_grow {buf : List Nat} {c c' : MKVCluster} {d : EBMLData}
    (h : (mkvClusterSkipSubElement buf c d).cluster = some c') : ClusterGrow c c' := by
  unfold mkvClusterSkipSubElement at h
  cases h1 : ebmlUnserailizeUnsignedInt buf d with
  | ERROR d1 => simp only [h1, Run.cluster, Option.some.injEq] at h; subst h; exact .rfl' c
  | OK d1 s =>
    simp only [h1] at h
    split at h
    · simp only [Run.cluster, Option.some.injEq] at h; subst h; exact .rfl' c
    · simp only [Run.cluster, Option.some.injEq] at h; subst h; exact .rfl' c

theorem mkvClusterHandleSimpleBlock_grow {buf : List Nat} {c c' : MKVCluster} {d : EBMLData}
    (h64 : c.allocated_blocks < 2 ^ 64)
    (h : (mkvClusterHandleSimpleBlock buf c d).cluster = some c') : ClusterGrow c c' := by
  unfold mkvClusterHandleSimpleBlock at h
  simp only at h
  split at h
  · simp only [Run.cluster, Option.some.injEq] at h; subst h; exact .rfl' c
  · rename_i hcap
    cases h1 : ebmlUnserailizeUnsignedInt buf d with
    | ERROR d1 => simp only [h1, Run.cluster, Option.some.injEq] at h; subst h; exact .rfl' c
    | OK d1 E =>
      simp only [h1] at h
      split at h
      · simp only [Run.cluster, Option.some.injEq] at h; subst h; exact .rfl' c
      · cases h2 : ebmlUnserailizeUnsignedInt buf d1 with
        | ERROR d2 =>
          simp only [h2, Run.cluster, Option.some.injEq] at h; subst h; exact .rfl' c
        | OK d2 track =>
          simp only [h2] at h
          cases h3 : ebmlUnserialize buf d2 2 with
          | ERROR d3 =>
            simp only [h3, Run.cluster, Option.some.injEq] at h; subst h; exact .rfl' c
          | OK d3 tc =>
            simp only [h3] at h
            cases h4 : ebmlUnserialize buf d3 1 with
            | ERROR d4 =>
              simp only [h4, Run.cluster, Option.some.injEq] at h; subst h; exact .rfl' c
            | OK d4 fl =>
              simp only [h4, Run.cluster, Option.some.injEq] at h
              subst h
              refine ⟨rfl, ?_, ?_⟩
              · show c.n_blocks ≤ add64 c.n_blocks 1
                rw [add64_of_lt (by omega)]; omega
              · intro i hi
                show (c.blocks.set c.n_blocks _)[i]? = _
                rw [List.getElem?_set_ne (by omega)]

theorem mkvClusterParseActions_grow {buf : List Nat} {tag : EBMLTag} {c c' : MKVCluster}
    {d : EBMLData} (h64 : c.allocated_blocks < 2 ^ 64)
    (h : (mkvClusterParseActions buf tag actions c d 0).1.cluster = some c') :
    ClusterGrow c c' := by
  rw [mkvClusterParseActions_actions] at h
  split at h
  · rw [afterHandler_fst] at h; exact mkvClusterHandleTimecode_grow h
  split at h
  · rw [afterHandler_fst] at h; exact mkvClusterHandleSimpleBlock_grow h64 h
  split at h
  · rw [afterHandler_fst] at h; exact mkvClusterSkipSubElement_grow h
  split at h
  · rw [afterHandler_fst] at h; exact mkvClusterSkipInteger_grow h
  split at h
  · rw [afterHandler_fst] at h; exact mkvClusterSkipInteger_grow h
  split at h
  · rw [afterHandler_fst] at h; exact mkvClusterSkipSubElement_grow h
  · simp only [Run.cluster, Option.some.injEq] at h; subst h; exact .rfl' c

theorem mkvClusterParseIter_grow {buf : List Nat} {c : MKVCluster} {d : EBMLData}
    (h64 : c.allocated_blocks < 2 ^ 64) :
    (∀ c' d', mkvClusterParseIter buf c d = .next c' d' → ClusterGrow c c') ∧
    (∀ r c', mkvClusterParseIter buf c d = .done r → r.cluster = some c' →
      ClusterGrow c c') := by
  unfold mkvClusterParseIter
  split
  · refine ⟨(fun _ _ h => by cases h), fun r c' h hc => ?_⟩
    cases h
    simp only [Run.cluster, Option.some.injEq] at hc; subst hc; exact .rfl' c
  · cases h1 : ebmlReadTag buf d with
    | ERROR d1 =>
      refine ⟨(fun _ _ h => by cases h), fun r c' h hc => ?_⟩
      cases h
      simp only [Run.cluster, Option.some.injEq] at hc; subst hc; exact .rfl' c
    | OK d1 tag =>
      simp only
      have key := @mkvClusterParseActions_grow buf tag c
      rcases hr : mkvClusterParseActions buf tag actions c d1 0 with ⟨r, found⟩
      cases r with
      | ABORT =>
        refine ⟨(fun _ _ h => by cases h), fun r c' h hc => ?_⟩
        cases h; cases hc
      | ERROR c2 d2 =>
        refine ⟨(fun _ _ h => by cases h), fun r c' h hc => ?_⟩
        simp only [Iter.done.injEq] at h
        subst h
        simp only [Run.cluster, Option.some.injEq] at hc
        subst hc
        exact key (d := d1) h64 (by rw [hr]; rfl)
      | OK c2 d2 =>
        simp only
        have hg : ClusterGrow c c2 := key (d := d1) h64 (by rw [hr]; rfl)
        split
        · refine ⟨(fun _ _ h => by cases h), fun r c' h hc => ?_⟩
          simp only [Iter.done.injEq] at h
          subst h
          simp only [Run.cluster, Option.some.injEq] at hc
          subst hc
          exact hg
        · refine ⟨fun c' d' h => ?_, fun _ _ h => by cases h⟩
          simp only [Iter.next.injEq] at h
          rw [← h.1]
          exact hg

theorem mkvClusterParseLoop_grow (buf : List Nat) :
    ∀ (fuel : Nat) (c c' : MKVCluster) (d : EBMLData) (r : Run),
      c.allocated_blocks < 2 ^ 64 → mkvClusterParseLoop buf fuel c d = some r →
      r.cluster = some c' → ClusterGrow c c' := by
  intro fuel
  induction fuel with
  | zero => intro c c' d r _ h; simp [mkvClusterParseLoop] at h
  | succ fuel ih =>
    intro c c' d r h64 h hc
    rw [mkvClusterParseLoop_succ] at h
    obtain ⟨k1, k2⟩ := @mkvClusterParseIter_grow buf c d h64
    cases hi : mkvClusterParseIter buf c d with
    | done r' =>
      rw [hi] at h
      simp only [Option.some.injEq] at h
      subst h
      exact k2 _ c' hi hc
    | next c1 d1 =>
      rw [hi] at h
      have g1 := k1 c1 d1 hi
      exact g1.chain (ih c1 c' d1 r (by rw [g1.1]; exact h64) h hc)

theorem mkvClusterParse_grow {buf : List Nat} {c c' : MKVCluster} {d : EBMLData} {r : Run}
    (h64 : c.allocated_blocks < 2 ^ 64) (h : mkvClusterParse buf c d = some r)
    (hc : r.cluster = some c') : ClusterGrow c c' := by
  unfold mkvClusterParse at h
  cases h1 : ebmlReadSubElement buf d with
  | ERROR d1 =>
    simp only [h1, Option.some.injEq] at h
    subst h
    simp only [Run.cluster, Option.some.injEq] at hc; subst hc; exact .rfl' c
  | OK d1 v =>
    obtain ⟨tag, subEl⟩ := v
    simp only [h1] at h
    split at h
    · simp only [Option.some.injEq] at h
      subst h
      simp only [Run.cluster, Option.some.injEq] at hc; subst hc; exact .rfl' c
    · cases h2 : mkvClusterParseLoop buf (subEl.left + 1) c subEl with
      | none => rw [h2] at h; cases h
      | some r2 =>
        rw [h2] at h
        have key := mkvClusterParseLoop_grow buf _ c c' subEl r2 h64 h2
        cases r2 with
        | ABORT =>
          simp only [Option.some.injEq] at h
          subst h; cases hc
        | ERROR c2 d2 =>
          simp only [Option.some.injEq] at h
          subst h
          exact key hc
        | OK c2 d2 =>
          simp only [Option.some.injEq] at h
          subst h
          exact key hc


/-! ## C19: the block table is append-only and ordered -/

/-- C19 (the block table is append-only and ordered): for every buffer, every
cluster (with a capacity that is a `size_t` value) and every cursor (with
64-bit fields), `mkvClusterParse` returns or aborts, and when it returns, with
`EBML_OK` or `EBML_ERROR`, the first `n_blocks` slots of the cluster it was
given are unchanged and `n_blocks` has not decreased (first part).  When the
buffer is a Cluster element whose body is a sequence `cs` of well-formed
children of the six known kinds, the blocks written from index `n_blocks` on
are the blocks of the SimpleBlock children of `cs`, in the order of `cs`, one
per direct SimpleBlock child, as far as the capacity allows; the parse returns
`EBML_OK` exactly when they all fit (second part). -/
theorem C19_block_table_append_only (buf : List Nat) (c : MKVCluster) (d : EBMLData)
    (h64 : c.allocated_blocks < 2 ^ 64) (hv : d.pos < 2 ^ 64 ∧ d.left < 2 ^ 64) :
    (∃ r, mkvClusterParse buf c d = some r ∧
      ∀ c', r.cluster = some c' →
        c.n_blocks ≤ c'.n_blocks ∧ ∀ i, i < c.n_blocks → c'.blocks[i]? = c.blocks[i]?) ∧
    (∀ (g : Nat) (cs : List Child), buf = clusterElement g (encodeChildren cs) →
      d = ebmlInit 0 buf.length → 1 ≤ g → g ≤ 8 → (encodeChildren cs).length < 2 ^ (7 * g) →
      (∀ ch ∈ cs, ch.WF) → c.n_blocks ≤ c.allocated_blocks →
      c.allocated_blocks ≤ c.blocks.length →
      ∃ r c', mkvClusterParse buf c d = some r ∧ r.cluster = some c' ∧
        (r.status = some .EBML_OK ↔
          c.n_blocks + (childBlocks cs (4 + g)).length ≤ c.allocated_blocks) ∧
        c'.n_blocks = min (c.n_blocks + (childBlocks cs (4 + g)).length) c.allocated_blocks ∧
        ∀ j, c.n_blocks + j < c'.n_blocks →
          c'.blocks[c.n_blocks + j]? = (childBlocks cs (4 + g))[j]?) := by
  constructor
  · obtain ⟨r, hr, _⟩ := mkvClusterParse_returns buf c d hv
    refine ⟨r, hr, fun c' hc => ?_⟩
    have := mkvClusterParse_grow h64 hr hc
    exact ⟨this.2.1, this.2.2⟩
  · intro g cs hbuf hd hg1 hg8 hbody hwf hn hlen
    have h56 := pow7_le_pow56 hg8
    have hblen : buf.length = 4 + g + (encodeChildren cs).length := by
      rw [hbuf, clusterElement_length]
    have hb64 : buf.length < 2 ^ 64 := by omega
    have hat : BytesAt buf 0 (clusterElement g (encodeChildren cs)) := by
      rw [hbuf]; exact BytesAt_zero_self _
    have hbodyat := cluster_body_at hat
    subst hd
    have hparse := @mkvClusterParse_cluster buf c (ebmlInit 0 buf.length) g (encodeChildren cs)
      hb64 hg1 hg8 hbody hat (by simp only [ebmlInit]; omega) (by simpa [ebmlInit] using hb64)
    obtain ⟨r, c', hloop, hcl, hst, _, hnb, _, _, hord⟩ := mkvClusterParseLoop_children buf hb64
      cs c (ebmlInit ((ebmlInit 0 buf.length).pos + 4 + g) (encodeChildren cs).length)
      ((encodeChildren cs).length + 1) hwf (by simpa [ebmlInit] using hbodyat) rfl
      (by simp only [ebmlInit]; omega) (by simp only [ebmlInit]; omega) hn hlen h64
    simp only [ebmlInit, Nat.zero_add] at hst hnb hord
    rw [hparse, hloop]
    cases r with
    | ABORT => cases hcl
    | ERROR c2 d2 =>
      simp only [Run.cluster, Option.some.injEq] at hcl
      subst hcl
      exact ⟨_, c2, rfl, rfl, hst, hnb, hord⟩
    | OK c2 d2 =>
      simp only [Run.cluster, Option.some.injEq] at hcl
      subst hcl
      exact ⟨_, c2, rfl, rfl, hst, hnb, hord⟩

/-- Witness of C19: a cluster that already holds one block, capacity 3, and a
Cluster with the children Timecode, SimpleBlock, BlockGroup (holding the bytes
of a SimpleBlock), SimpleBlock.  The old block stays at index 0 and the two
direct SimpleBlock children are at indices 1 and 2. -/
theorem C19_block_table_append_only_witness :
    mkvClusterParse
        [0x1F, 0x43, 0xB6, 0x75, 0x98, 0xE7, 0x82, 0x03, 0xE8,
         0xA3, 0x88, 0x81, 0x00, 0x00, 0x80, 0xDE, 0xAD, 0xBE, 0xEF,
         0xA0, 0x82, 0xA3, 0x80, 0xA3, 0x84, 0x82, 0x00, 0x00, 0x00]
        ⟨7, 3, 1, [⟨9, 9, 9, 9, 9⟩, ⟨0, 0, 0, 0, 0⟩, ⟨0, 0, 0, 0, 0⟩]⟩ (ebmlInit 0 29) =
      some (.OK ⟨1000, 3, 3, [⟨9, 9, 9, 9, 9⟩, ⟨1, 0, 0x80, 4, 15⟩, ⟨2, 0, 0, 0, 29⟩]⟩
        ⟨29, 0, 29, 0⟩) ∧
    childBlocks [.timecode 1 2 1000, .simpleBlock ⟨1, 1, 1, 0, 0x80, [0xDE, 0xAD, 0xBE, 0xEF]⟩,
        .blockGroup 1 [0xA3, 0x80], .simpleBlock ⟨1, 1, 2, 0, 0, []⟩] (4 + 1) =
      [⟨1, 0, 0x80, 4, 15⟩, ⟨2, 0, 0, 0, 29⟩] ∧
    ∃ r c', mkvClusterParse
        [0x1F, 0x43, 0xB6, 0x75, 0x98, 0xE7, 0x82, 0x03, 0xE8,
         0xA3, 0x88, 0x81, 0x00, 0x00, 0x80, 0xDE, 0xAD, 0xBE, 0xEF,
         0xA0, 0x82, 0xA3, 0x80, 0xA3, 0x84, 0x82, 0x00, 0x00, 0x00]
        ⟨7, 3, 1, [⟨9, 9, 9, 9, 9⟩, ⟨0, 0, 0, 0, 0⟩, ⟨0, 0, 0, 0, 0⟩]⟩ (ebmlInit 0 29) = some r ∧
      r.cluster = some c' ∧
      (r.status = some .EBML_OK ↔
        1 + (childBlocks [.timecode 1 2 1000,
          .simpleBlock ⟨1, 1, 1, 0, 0x80, [0xDE, 0xAD, 0xBE, 0xEF]⟩,
          .blockGroup 1 [0xA3, 0x80], .simpleBlock ⟨1, 1, 2, 0, 0, []⟩] (4 + 1)).length ≤ 3) ∧
      c'.n_blocks = min (1 + (childBlocks [.timecode 1 2 1000,
          .simpleBlock ⟨1, 1, 1, 0, 0x80, [0xDE, 0xAD, 0xBE, 0xEF]⟩,
          .blockGroup 1 [0xA3, 0x80], .simpleBlock ⟨1, 1, 2, 0, 0, []⟩] (4 + 1)).length) 3 ∧
      ∀ j, 1 + j < c'.n_blocks →
        c'.blocks[1 + j]? = (childBlocks [.timecode 1 2 1000,
          .simpleBlock ⟨1, 1, 1, 0, 0x80, [0xDE, 0xAD, 0xBE, 0xEF]⟩,
          .blockGroup 1 [0xA3, 0x80], .simpleBlock ⟨1, 1, 2, 0, 0, []⟩] (4 + 1))[j]? :=
  ⟨by decide, by decide,
   (C19_block_table_append_only
      [0x1F, 0x43, 0xB6, 0x75, 0x98, 0xE7, 0x82, 0x03, 0xE8,
       0xA3, 0x88, 0x81, 0x00, 0x00, 0x80, 0xDE, 0xAD, 0xBE, 0xEF,
       0xA0, 0x82, 0xA3, 0x80, 0xA3, 0x84, 0x82, 0x00, 0x00, 0x00]
      ⟨7, 3, 1, [⟨9, 9, 9, 9, 9⟩, ⟨0, 0, 0, 0, 0⟩, ⟨0, 0, 0, 0, 0⟩]⟩ (ebmlInit 0 29)
      (by decide) (by decide)).2 1
      [.timecode 1 2 1000, .simpleBlock ⟨1, 1, 1, 0, 0x80, [0xDE, 0xAD, 0xBE, 0xEF]⟩,
        .blockGroup 1 [0xA3, 0x80], .simpleBlock ⟨1, 1, 2, 0, 0, []⟩]
      (by decide) (by decide) (by decide) (by decide) (by decide) (by decide) (by decide)
      (by decide)⟩

/-! ## Reads stay within the remaining bytes of the cursor -/

theorem SameBytes.part {buf1 buf2 : List Nat} {pos n k m : Nat} (h : SameBytes buf1 buf2 pos n)
    (hk : k + m ≤ n) : SameBytes buf1 buf2 (pos + k) m := by
  intro i hi
  have := h (k + i) (by omega)
  rwa [← Nat.add_assoc] at this

theorem Window.cursor_valid {buf1 buf2 : List Nat} {d : EBMLData} (h : Window buf1 buf2 d) :
    d.Valid := by
  unfold Window at h; unfold EBMLData.Valid; omega

theorem Window.shrink {buf1 buf2 : List Nat} {d d' : EBMLData} {k : Nat}
    (h : Window buf1 buf2 d) (ha : Adv k d d') : Window buf1 buf2 d' := by
  obtain ⟨h1, h2⟩ := h
  obtain ⟨_, _, hk, hl, hp⟩ := ha
  have hp' : d'.pos = d.pos + k := by omega
  refine ⟨by omega, ?_⟩
  rw [hp', hl]
  exact h2.part (by omega)

theorem ebmlReadBytes_fst (buf1 buf2 : List Nat) : ∀ (n : Nat) (d : EBMLData) (r1 r2 : Nat),
    (ebmlReadBytes buf1 n d r1).1 = (ebmlReadBytes buf2 n d r2).1 := by
  intro n
  induction n with
  | zero => intro d r1 r2; rfl
  | succ n ih =>
    intro d r1 r2
    simp only [ebmlReadBytes, ebmlRead8]
    exact ih _ _ _

theorem ebmlReadBytes_snd {buf1 buf2 : List Nat} : ∀ (n : Nat) (d1 d2 : EBMLData) (ret : Nat),
    d2.pos = d1.pos → d1.pos + n < 2 ^ 64 → SameBytes buf1 buf2 d1.pos n →
    (ebmlReadBytes buf1 n d1 ret).2 = (ebmlReadBytes buf2 n d2 ret).2 := by
  intro n
  induction n with
  | zero => intro d1 d2 ret _ _ _; rfl
  | succ n ih =>
    intro d1 d2 ret hpos hlt hs
    simp only [ebmlReadBytes, ebmlRead8]
    have h0 := hs 0 (by omega)
    rw [Nat.add_zero] at h0
    rw [hpos, h0]
    apply ih
    · simp only [hpos]
    · simp only [add64]; omega
    · have e : add64 d1.pos 1 = d1.pos + 1 := add64_of_lt (by omega)
      simp only [e]
      exact hs.part (by omega)

theorem ebmlReadIntLen_same {buf1 buf2 : List Nat} {d : EBMLData} (hw : Window buf1 buf2 d) :
    ebmlReadIntLen buf1 d = ebmlReadIntLen buf2 d := by
  unfold ebmlReadIntLen ebmlCheckLength
  by_cases h : d.left ≥ 1
  · have h0 := hw.2 0 (by omega)
    rw [Nat.add_zero] at h0
    rw [h0]
  · simp [h]

theorem ebmlUnserialize_same {buf1 buf2 : List Nat} {d : EBMLData} {len : Int}
    (hw : Window buf1 buf2 d) (hlo : -2 ^ 31 ≤ len) (hhi : len < 2 ^ 31) :
    ebmlUnserialize buf1 d len = ebmlUnserialize buf2 d len := by
  unfold ebmlUnserialize ebmlCheckLength
  by_cases h : d.left ≥ intToSize len
  · simp only [h, decide_True, Bool.not_true, Bool.false_eq_true, if_false]
    have hn : len.toNat ≤ d.left := by unfold intToSize at h; omega
    rw [ebmlReadBytes_fst buf1 buf2 len.toNat d 0 0,
      ebmlReadBytes_snd len.toNat d d 0 rfl (by have := hw.1; omega) (hw.2.part (k := 0) (by omega))]
  · simp [h]

theorem ebmlReadTag_same {buf1 buf2 : List Nat} {d : EBMLData} (hw : Window buf1 buf2 d) :
    ebmlReadTag buf1 d = ebmlReadTag buf2 d := by
  unfold ebmlReadTag
  rw [ebmlReadIntLen_same hw]
  rcases ebmlReadIntLen_cases buf2 d with h | ⟨len, h, h1, h8, _⟩
  · rw [h]
  · rw [h]
    exact ebmlUnserialize_same hw (by omega) (by omega)

theorem ebmlUnserailizeUnsignedInt_same {buf1 buf2 : List Nat} {d : EBMLData}
    (hw : Window buf1 buf2 d) :
    ebmlUnserailizeUnsignedInt buf1 d = ebmlUnserailizeUnsignedInt buf2 d := by
  unfold ebmlUnserailizeUnsignedInt
  rw [ebmlReadIntLen_same hw]
  rcases ebmlReadIntLen_cases buf2 d with h | ⟨len, h, h1, h8, hl⟩
  · rw [h]
  · rw [h]
    simp only [ebmlCheckLength]
    by_cases hc : d.left ≥ intToSize len
    · simp only [hc, decide_True, Bool.not_true, Bool.false_eq_true, if_false]
      have hsz : intToSize len = len.toNat := by unfold intToSize; omega
      have h0 := hw.2 0 (by omega)
      rw [Nat.add_zero] at h0
      have e8 : ebmlRead8 buf1 d = ebmlRead8 buf2 d := by simp only [ebmlRead8, h0]
      rw [e8]
      have hv := hw.cursor_valid
      have h1a : Adv 1 d (ebmlRead8 buf2 d).2 := ebmlRead8_adv buf2 d hv (by omega)
      have hw1 := hw.shrink h1a
      rw [ebmlReadBytes_fst buf1 buf2 (len - 1).toNat (ebmlRead8 buf2 d).2 _ _,
        ebmlReadBytes_snd (len - 1).toNat (ebmlRead8 buf2 d).2 (ebmlRead8 buf2 d).2 _ rfl
          (by have := hw1.1; unfold Adv at h1a; omega)
          (hw1.2.part (k := 0) (by unfold Adv at h1a; omega))]
    · simp [hc]

theorem mkvClusterHandleTimecode_same {buf1 buf2 : List Nat} (c : MKVCluster) {d : EBMLData}
    (hw : Window buf1 buf2 d) :
    mkvClusterHandleTimecode buf1 c d = mkvClusterHandleTimecode buf2 c d := by
  unfold mkvClusterHandleTimecode
  rw [ebmlUnserailizeUnsignedInt_same hw]
  rcases ebmlUnserailizeUnsignedInt_cases buf2 d hw.cursor_valid with h | ⟨d1, size, a, h, _, _, ha⟩
  · simp only [h]
  · simp only [h]
    split
    · rfl
    · rename_i hs
      have hs' : size > 0 ∧ size ≤ 8 := by simpa using hs
      rw [ebmlUnserialize_same (hw.shrink ha) (by omega) (by omega)]

theorem mkvClusterSkipInteger_same {buf1 buf2 : List Nat} (c : MKVCluster) {d : EBMLData}
    (hw : Window buf1 buf2 d) :
    mkvClusterSkipInteger buf1 c d = mkvClusterSkipInteger buf2 c d := by
  unfold mkvClusterSkipInteger
  rw [ebmlUnserailizeUnsignedInt_same hw]
  rcases ebmlUnserailizeUnsignedInt_cases buf2 d hw.cursor_valid with h | ⟨d1, size, a, h, _, _, ha⟩
  · simp only [h]
  · simp only [h]
    split
    · rfl
    · rename_i hs
      have hs' : size > 0 ∧ size ≤ 8 := by simpa using hs
      rw [ebmlUnserialize_same (hw.shrink ha) (by omega) (by omega)]

theorem mkvClusterSkipSubElement_same {buf1 buf2 : List Nat} (c : MKVCluster) {d : EBMLData}
    (hw : Window buf1 buf2 d) :
    mkvClusterSkipSubElement buf1 c d = mkvClusterSkipSubElement buf2 c d := by
  unfold mkvClusterSkipSubElement
  rw [ebmlUnserailizeUnsignedInt_same hw]

theorem mkvClusterHandleSimpleBlock_same {buf1 buf2 : List Nat} (c : MKVCluster) {d : EBMLData}
    (hw : Window buf1 buf2 d) :
    mkvClusterHandleSimpleBlock buf1 c d = mkvClusterHandleSimpleBlock buf2 c d := by
  unfold mkvClusterHandleSimpleBlock
  simp only
  split
  · rfl
  · rw [ebmlUnserailizeUnsignedInt_same hw]
    rcases ebmlUnserailizeUnsignedInt_cases buf2 d hw.cursor_valid with h | ⟨d1, E, a, h, _, _, ha⟩
    · simp only [h]
    · simp only [h]
      have hw1 := hw.shrink ha
      split
      · rfl
      · rw [ebmlUnserailizeUnsignedInt_same hw1]
        rcases ebmlUnserailizeUnsignedInt_cases buf2 d1 hw1.cursor_valid with
          h2 | ⟨d2, track, m, h2, _, _, hb⟩
        · simp only [h2]
        · simp only [h2]
          have hw2 := hw1.shrink hb
          rw [ebmlUnserialize_same hw2 (by norm_num) (by norm_num)]
          rcases ebmlUnserialize_cases buf2 d2 2 hw2.cursor_valid (by norm_num) (by norm_num) with
            h3 | ⟨d3, tc, h3, hc3⟩
          · simp only [h3]
          · simp only [h3]
            have hw3 := hw2.shrink hc3
            rw [ebmlUnserialize_same hw3 (by norm_num) (by norm_num)]

theorem mkvClusterParseActions_same {buf1 buf2 : List Nat} (tag : EBMLTag) (c : MKVCluster)
    {d : EBMLData} (hw : Window buf1 buf2 d) :
    mkvClusterParseActions buf1 tag actions c d 0 =
      mkvClusterParseActions buf2 tag actions c d 0 := by
  rw [mkvClusterParseActions_actions, mkvClusterParseActions_actions,
    mkvClusterHandleTimecode_same c hw, mkvClusterHandleSimpleBlock_same c hw,
    mkvClusterSkipSubElement_same c hw, mkvClusterSkipInteger_same c hw]

theorem mkvClusterParseLoop_same {buf1 buf2 : List Nat} :
    ∀ (fuel : Nat) (c : MKVCluster) (d : EBMLData), Window buf1 buf2 d →
      mkvClusterParseLoop buf1 fuel c d = mkvClusterParseLoop buf2 fuel c d := by
  intro fuel
  induction fuel with
  | zero => intro c d _; rfl
  | succ fuel ih =>
    intro c d hw
    unfold mkvClusterParseLoop
    split
    · rfl
    · rw [ebmlReadTag_same hw]
      rcases ebmlReadTag_cases buf2 d hw.cursor_valid with h | ⟨d1, tag, n, h, _, _, ha⟩
      · simp only [h]
      · simp only [h]
        have hw1 := hw.shrink ha
        rw [mkvClusterParseActions_same tag c hw1]
        obtain ⟨hs0, _, _⟩ := handlers_step buf2 tag c d1 hw1.cursor_valid
        rcases hr : mkvClusterParseActions buf2 tag actions c d1 0 with ⟨r, found⟩
        rw [hr] at hs0
        cases r with
        | ABORT => rfl
        | ERROR c2 d2 => rfl
        | OK c2 d2 =>
          simp only
          split
          · rfl
          · obtain ⟨_, k, _, h2⟩ := hs0
            exact ih c2 d2 (hw1.shrink h2)


theorem ebmlReadIntLen_shift {buf1 buf2 : List Nat} {d1 d2 e1 : EBMLData} {len : Int}
    (h : ebmlReadIntLen buf1 d1 = .OK e1 len) (hpos : d2.pos = d1.pos) (hl : 1 ≤ d2.left)
    (hs : SameBytes buf1 buf2 d1.pos 1) : ebmlReadIntLen buf2 d2 = .OK d2 len := by
  have h0 := hs 0 (by omega)
  rw [Nat.add_zero] at h0
  unfold ebmlReadIntLen ebmlCheckLength at h ⊢
  have hl' : d2.left ≥ 1 := hl
  simp only [hl', decide_True, Bool.not_true, Bool.false_eq_true, if_false, hpos, ← h0]
  split at h
  · cases h
  · split at h
    · rename_i len' hscan
      cases h
      simp only [hscan]
    · cases h

theorem ebmlReadTag_shift {buf1 buf2 : List Nat} {d1 d2 e1 : EBMLData} {tag : Nat}
    (h : ebmlReadTag buf1 d1 = .OK e1 tag) (hv1 : d1.pos + d1.left < 2 ^ 64)
    (hv2 : d2.left < 2 ^ 64) (hpos : d2.pos = d1.pos) :
    ∃ a, 1 ≤ a ∧ a ≤ 8 ∧ Adv a d1 e1 ∧
      (a ≤ d2.left → SameBytes buf1 buf2 d1.pos a →
        ∃ e2, ebmlReadTag buf2 d2 = .OK e2 tag ∧ Adv a d2 e2) := by
  have hvd1 : d1.Valid := by unfold EBMLData.Valid; omega
  have hvd2 : d2.Valid := by unfold EBMLData.Valid; omega
  unfold ebmlReadTag at h
  rcases ebmlReadIntLen_cases buf1 d1 with e | ⟨len, e, h1, h8, hl⟩
  · rw [e] at h; cases h
  rw [e] at h
  have hsz : intToSize len = len.toNat := by unfold intToSize; omega
  have hch : d1.left ≥ intToSize len := by
    by_contra hc
    simp [ebmlUnserialize, ebmlCheckLength, hc] at h
  simp only [ebmlUnserialize, ebmlCheckLength, hch, decide_True, Bool.not_true,
    Bool.false_eq_true, if_false, Ret.OK.injEq] at h
  obtain ⟨he1, htag⟩ := h
  refine ⟨len.toNat, by omega, by omega, ?_, ?_⟩
  · rw [← he1]
    exact ebmlReadBytes_adv buf1 _ _ _ hvd1 (by omega)
  · intro hle hs
    have hlen := ebmlReadIntLen_shift e hpos (by omega) (hs.part (k := 0) (by omega))
    have hch2 : d2.left ≥ intToSize len := by omega
    refine ⟨(ebmlReadBytes buf2 len.toNat d2 0).1, ?_, ebmlReadBytes_adv buf2 _ _ _ hvd2 hle⟩
    unfold ebmlReadTag
    rw [hlen]
    simp only [ebmlUnserialize, ebmlCheckLength, hch2, decide_True, Bool.not_true,
      Bool.false_eq_true, if_false, Ret.OK.injEq, true_and]
    rw [← htag]
    exact (ebmlReadBytes_snd len.toNat d1 d2 0 hpos (by omega) hs).symm

theorem ebmlUnserailizeUnsignedInt_shift {buf1 buf2 : List Nat} {d1 d2 e1 : EBMLData} {v : Nat}
    (h : ebmlUnserailizeUnsignedInt buf1 d1 = .OK e1 v) (hv1 : d1.pos + d1.left < 2 ^ 64)
    (hv2 : d2.left < 2 ^ 64) (hpos : d2.pos = d1.pos) :
    ∃ b, 1 ≤ b ∧ b ≤ 8 ∧ Adv b d1 e1 ∧
      (b ≤ d2.left → SameBytes buf1 buf2 d1.pos b →
        ∃ e2, ebmlUnserailizeUnsignedInt buf2 d2 = .OK e2 v ∧ Adv b d2 e2) := by
  have hvd1 : d1.Valid := by unfold EBMLData.Valid; omega
  have hvd2 : d2.Valid := by unfold EBMLData.Valid; omega
  unfold ebmlUnserailizeUnsignedInt at h
  rcases ebmlReadIntLen_cases buf1 d1 with e | ⟨len, e, h1, h8, hl⟩
  · rw [e] at h; cases h
  rw [e] at h
  have hsz : intToSize len = len.toNat := by unfold intToSize; omega
  have hch : d1.left ≥ intToSize len := by
    by_contra hc
    simp [ebmlCheckLength, hc] at h
  simp only [ebmlCheckLength, hch, decide_True, Bool.not_true,
    Bool.false_eq_true, if_false, Ret.OK.injEq] at h
  obtain ⟨he1, hval⟩ := h
  have e1n : 1 + (len - 1).toNat = len.toNat := by omega
  have adv : ∀ (buf : List Nat) (d : EBMLData) (ret : Nat), d.Valid → len.toNat ≤ d.left →
      Adv len.toNat d (ebmlReadBytes buf (len - 1).toNat (ebmlRead8 buf d).2 ret).1 := by
    intro buf d ret hvd hle
    have ha1 : Adv 1 d (ebmlRead8 buf d).2 := ebmlRead8_adv buf d hvd (by omega)
    have ha2 := ebmlReadBytes_adv buf (len - 1).toNat (ebmlRead8 buf d).2 ret
      (ha1.valid_after hvd) (by unfold Adv at ha1; omega)
    have ha3 := ha1.comp ha2
    rw [e1n] at ha3
    exact ha3
  refine ⟨len.toNat, by omega, by omega, ?_, ?_⟩
  · rw [← he1]
    exact adv buf1 d1 _ hvd1 (by omega)
  · intro hle hs
    have hlen := ebmlReadIntLen_shift e hpos (by omega) (hs.part (k := 0) (by omega))
    have hch2 : d2.left ≥ intToSize len := by omega
    have h0 := hs 0 (by omega)
    rw [Nat.add_zero] at h0
    have hb : (ebmlRead8 buf2 d2).1 = (ebmlRead8 buf1 d1).1 := by
      simp only [ebmlRead8, hpos, h0]
    refine ⟨_, ?_, adv buf2 d2
      (if len ≠ 8 then (ebmlRead8 buf2 d2).1 &&& (0xFF >>> len.toNat) else 0) hvd2 hle⟩
    unfold ebmlUnserailizeUnsignedInt
    rw [hlen]
    simp only [ebmlCheckLength, hch2, decide_True, Bool.not_true,
      Bool.false_eq_true, if_false, Ret.OK.injEq, true_and]
    rw [← hval, hb]
    refine (ebmlReadBytes_snd (len - 1).toNat (ebmlRead8 buf1 d1).2 (ebmlRead8 buf2 d2).2 _
      ?_ ?_ ?_).symm
    · simp only [ebmlRead8, hpos]
    · simp only [ebmlRead8, add64]; omega
    · have e : (ebmlRead8 buf1 d1).2.pos = d1.pos + 1 := add64_of_lt (by omega)
      rw [e]
      exact hs.part (by omega)

/-! ## C20: bytes after the Cluster element do not influence the result -/

/-- C20 (bytes after the Cluster element cannot influence the result): let two
cursors start at the same offset of two buffers, neither running past the end
of the address space.  Suppose that on the first buffer the tag of the first
element decodes, its size VINT decodes to `E`, the two together take `h`
bytes, and `E` bytes remain after them; that the second cursor also holds at
least `h + E` bytes; and that the two buffers hold the same `h + E` bytes
there, whatever follows.  Then `mkvClusterParse`, started on the same cluster,
returns or aborts alike on both: the same status and the same cluster
(timecode, `n_blocks`, and the whole block table with fields, payload offsets
and sizes).  On either buffer the cursor that the call returns has moved
forward by exactly `h + E` bytes, with `EBML_OK` as with `EBML_ERROR`; it is
the cursor that `ebmlReadSubElement` left before the body was walked. -/
theorem C20_trailing_bytes_do_not_matter (buf1 buf2 : List Nat) (c : MKVCluster)
    (d1 d2 a1 a2 : EBMLData) (tag E h : Nat)
    (hv1 : d1.pos + d1.left < 2 ^ 64) (hv2 : d2.pos + d2.left < 2 ^ 64)
    (hpos : d2.pos = d1.pos)
    (htag : ebmlReadTag buf1 d1 = .OK a1 tag)
    (hsize : ebmlUnserailizeUnsignedInt buf1 a1 = .OK a2 E)
    (hh : a2.pos = d1.pos + h)
    (hE : E ≤ a2.left)
    (hleft : h + E ≤ d2.left)
    (hsame : SameBytes buf1 buf2 d1.pos (h + E)) :
    ∃ r1 r2, mkvClusterParse buf1 c d1 = some r1 ∧ mkvClusterParse buf2 c d2 = some r2 ∧
      r1.status = r2.status ∧ r1.cluster = r2.cluster ∧
      (∀ e, r1.data = some e → Adv (h + E) d1 e) ∧
      (∀ e, r2.data = some e → Adv (h + E) d2 e) ∧
      Adv (h + E) d1 (ebmlReadSubElement buf1 d1).data ∧
      Adv (h + E) d2 (ebmlReadSubElement buf2 d2).data := by
  have hvd1 : d1.Valid := by unfold EBMLData.Valid; omega
  have hvd2 : d2.Valid := by unfold EBMLData.Valid; omega
  obtain ⟨a, ha1, ha8, haA, hashift⟩ := @ebmlReadTag_shift buf1 buf2 d1 d2 a1 tag htag hv1
    (by omega) hpos
  have hva1 : a1.pos + a1.left < 2 ^ 64 := by unfold Adv at haA; omega
  obtain ⟨b, hb1, hb8, hbA, _⟩ := @ebmlUnserailizeUnsignedInt_shift buf1 buf1 a1 a1 a2 E hsize hva1
    (by omega) rfl
  have hab := haA.comp hbA
  have hhab : h = a + b := by unfold Adv at hab; omega
  subst hhab
  obtain ⟨b1, htag2, haB⟩ := hashift (by omega) (hsame.part (k := 0) (by omega))
  have hposb : b1.pos = a1.pos := by unfold Adv at haA haB; omega
  obtain ⟨b', _, _, hbA', hbshift⟩ := @ebmlUnserailizeUnsignedInt_shift buf1 buf2 a1 b1 a2 E
    hsize hva1 (by unfold Adv at haB; omega) hposb
  have hbb : b = b' := by unfold Adv at hbA hbA'; omega
  subst hbb
  have hposa : a1.pos = d1.pos + a := by unfold Adv at haA; omega
  obtain ⟨b2, hsize2, hbB⟩ := hbshift (by unfold Adv at haB; omega)
    (by rw [hposa]; exact hsame.part (by omega))
  have hab2 := haB.comp hbB
  have hpos2 : b2.pos = a2.pos := by unfold Adv at hab hab2; omega
  have hE2 : E ≤ b2.left := by unfold Adv at hab2; omega
  have hsub1 : ebmlReadSubElement buf1 d1 =
      .OK { a2 with pos := add64 a2.pos E, left := sub64 a2.left E } (tag, ebmlInit a2.pos E) := by
    have hc : a2.left ≥ E := hE
    simp [ebmlReadSubElement, htag, hsize, ebmlCheckLength, hc]
  have hsub2 : ebmlReadSubElement buf2 d2 =
      .OK { b2 with pos := add64 b2.pos E, left := sub64 b2.left E } (tag, ebmlInit a2.pos E) := by
    have hc : b2.left ≥ E := hE2
    simp [ebmlReadSubElement, htag2, hsize2, ebmlCheckLength, hc, hpos2]
  have hadv1 := hab.skip hvd1 hE
  have hadv2 := hab2.skip hvd2 hE2
  unfold mkvClusterParse
  simp only [hsub1, hsub2]
  by_cases ht : tag = TagCluster
  · simp only [ht, ne_eq, not_true_eq_false, if_false]
    have hw : Window buf1 buf2 (ebmlInit a2.pos E) := by
      refine ⟨?_, ?_⟩
      · simp only [ebmlInit]; unfold Adv at hab; omega
      · simp only [ebmlInit, hh]
        exact hsame.part (Nat.le_refl _)
    rw [mkvClusterParseLoop_same _ c _ hw]
    obtain ⟨r, hr, _, _⟩ := mkvClusterParseLoop_step buf2 ((ebmlInit a2.pos E).left + 1) c
      (ebmlInit a2.pos E) hw.cursor_valid (Nat.lt_succ_self _)
    rw [hr]
    cases r with
    | ABORT =>
      exact ⟨_, _, rfl, rfl, rfl, rfl, (fun _ he => by cases he), (fun _ he => by cases he),
        hadv1, hadv2⟩
    | ERROR c2 d' =>
      refine ⟨_, _, rfl, rfl, rfl, rfl, ?_, ?_, hadv1, hadv2⟩
      · intro e he; cases he; exact hadv1
      · intro e he; cases he; exact hadv2
    | OK c2 d' =>
      refine ⟨_, _, rfl, rfl, rfl, rfl, ?_, ?_, hadv1, hadv2⟩
      · intro e he; cases he; exact hadv1
      · intro e he; cases he; exact hadv2
  · simp only [ne_eq, ht, not_false_eq_true, if_true]
    refine ⟨_, _, rfl, rfl, rfl, rfl, ?_, ?_, hadv1, hadv2⟩
    · intro e he; cases he; exact hadv1
    · intro e he; cases he; exact hadv2

/-- Witness of C20: a Cluster of 16 bytes (Timecode 5, one SimpleBlock with a
2-byte payload) followed by `DE AD` in one buffer and by `1F 43 B6` in the
other.  Both parses give the same cluster and a cursor at offset 16. -/
theorem C20_trailing_bytes_do_not_matter_witness :
    mkvClusterParse
        [0x1F, 0x43, 0xB6, 0x75, 0x8B, 0xE7, 0x81, 0x05,
         0xA3, 0x86, 0x81, 0x00, 0x00, 0x80, 0xAA, 0xBB, 0xDE, 0xAD]
        ⟨0, 2, 0, [⟨0, 0, 0, 0, 0⟩, ⟨0, 0, 0, 0, 0⟩]⟩ (ebmlInit 0 18) =
      some (.OK ⟨5, 2, 1, [⟨1, 0, 0x80, 2, 14⟩, ⟨0, 0, 0, 0, 0⟩]⟩ ⟨16, 0, 18, 2⟩) ∧
    mkvClusterParse
        [0x1F, 0x43, 0xB6, 0x75, 0x8B, 0xE7, 0x81, 0x05,
         0xA3, 0x86, 0x81, 0x00, 0x00, 0x80, 0xAA, 0xBB, 0x1F, 0x43, 0xB6]
        ⟨0, 2, 0, [⟨0, 0, 0, 0, 0⟩, ⟨0, 0, 0, 0, 0⟩]⟩ (ebmlInit 0 19) =
      some (.OK ⟨5, 2, 1, [⟨1, 0, 0x80, 2, 14⟩, ⟨0, 0, 0, 0, 0⟩]⟩ ⟨16, 0, 19, 3⟩) ∧
    ∃ r1 r2,
      mkvClusterParse
          [0x1F, 0x43, 0xB6, 0x75, 0x8B, 0xE7, 0x81, 0x05,
           0xA3, 0x86, 0x81, 0x00, 0x00, 0x80, 0xAA, 0xBB, 0xDE, 0xAD]
          ⟨0, 2, 0, [⟨0, 0, 0, 0, 0⟩, ⟨0, 0, 0, 0, 0⟩]⟩ (ebmlInit 0 18) = some r1 ∧
      mkvClusterParse
          [0x1F, 0x43, 0xB6, 0x75, 0x8B, 0xE7, 0x81, 0x05,
           0xA3, 0x86, 0x81, 0x00, 0x00, 0x80, 0xAA, 0xBB, 0x1F, 0x43, 0xB6]
          ⟨0, 2, 0, [⟨0, 0, 0, 0, 0⟩, ⟨0, 0, 0, 0, 0⟩]⟩ (ebmlInit 0 19) = some r2 ∧
      r1.status = r2.status ∧ r1.cluster = r2.cluster ∧
      (∀ e, r1.data = some e → Adv (5 + 11) (ebmlInit 0 18) e) ∧
      (∀ e, r2.data = some e → Adv (5 + 11) (ebmlInit 0 19) e) ∧
      Adv (5 + 11) (ebmlInit 0 18)
        (ebmlReadSubElement
          [0x1F, 0x43, 0xB6, 0x75, 0x8B, 0xE7, 0x81, 0x05,
           0xA3, 0x86, 0x81, 0x00, 0x00, 0x80, 0xAA, 0xBB, 0xDE, 0xAD] (ebmlInit 0 18)).data ∧
      Adv (5 + 11) (ebmlInit 0 19)
        (ebmlReadSubElement
          [0x1F, 0x43, 0xB6, 0x75, 0x8B, 0xE7, 0x81, 0x05,
           0xA3, 0x86, 0x81, 0x00, 0x00, 0x80, 0xAA, 0xBB, 0x1F, 0x43, 0xB6]
          (ebmlInit 0 19)).data :=
  ⟨by decide, by decide,
   C20_trailing_bytes_do_not_matter
     [0x1F, 0x43, 0xB6, 0x75, 0x8B, 0xE7, 0x81, 0x05,
      0xA3, 0x86, 0x81, 0x00, 0x00, 0x80, 0xAA, 0xBB, 0xDE, 0xAD]
     [0x1F, 0x43, 0xB6, 0x75, 0x8B, 0xE7, 0x81, 0x05,
      0xA3, 0x86, 0x81, 0x00, 0x00, 0x80, 0xAA, 0xBB, 0x1F, 0x43, 0xB6]
     ⟨0, 2, 0, [⟨0, 0, 0, 0, 0⟩, ⟨0, 0, 0, 0, 0⟩]⟩ (ebmlInit 0 18) (ebmlInit 0 19)
     ⟨4, 0, 18, 14⟩ ⟨5, 0, 18, 13⟩ 0x1F43B675 11 5
     (by decide) (by decide) (by decide) (by decide) (by decide) (by decide) (by decide)
     (by decide) (by decide)⟩

end MKVParser
